import Mathlib

/-!
# lfi3a: a shallow embedding of the lexer, parser and tree-walking interpreter

The development follows the C++ sources `Lexer.cpp`, `Parser.cpp` and
`Interpreter.cpp`.

Conventions of the embedding:

* a C++ `char` is a Lean `Char`; the `<cctype>` predicates are those of the
  "C" locale, true on ASCII characters only;
* the lexer state `(src, pos)` is kept as the unread suffix `src.drop pos`
  (the `line` / `column` counters are never stored in a token and are left out);
* `std::unordered_map` is an association list with at most one entry per key;
* `exit(1)`, an uncaught exception and undefined behaviour are results of
  their own (`Fault`), carrying what had been written to `std::cout`;
* loops and recursion are bounded by a fuel argument; running out of fuel is
  a result of its own, different from every fault.
-/

namespace Lfi3a

/-! ## Tokens (`Lexer.hpp`) -/

inductive TokenType where
  | IDENT | STRING | NUMBER
  | DIR | KTEB | ILA | WILA | WLA | MA7AD | KOL | DALLA | KALLA | RJE3
  | S7I7 | GHALAT | W
  | LPAREN | RPAREN | LBRACE | RBRACE | SEMICOLON | COMMA | EQUAL
  | PLUS | MINUS | STAR | SLASH | EQ_EQ | NOT_EQ | LT | GT | LE | GE
  | PLUS_PLUS
  | END | UNKNOWN
  deriving DecidableEq, Repr

/-- A token: `line` and `column` keep their default member initialisers,
since every token is built as `{type, value}`. -/
structure Token where
  type : TokenType
  value : String
  line : Int := 1
  column : Int := 1
  deriving DecidableEq, Repr

/-! ## Characters -/

/-- The character `'\0'`, which `Lexer::peek` returns past the end. -/
def NUL : Char := Char.ofNat 0
/-- The double quote. -/
def DQUOTE : Char := Char.ofNat 34
/-- The backslash. -/
def BACKSLASH : Char := Char.ofNat 92
/-- The line feed `'\n'`. -/
def LF : Char := Char.ofNat 10
/-- The horizontal tab `'\t'`. -/
def TAB : Char := Char.ofNat 9

/-- `isspace` of the "C" locale: space, `\t`, `\n`, `\v`, `\f`, `\r`. -/
def isspace (c : Char) : Bool :=
  c.toNat = 32 || (9 ≤ c.toNat && c.toNat ≤ 13)

/-- `isdigit`. -/
def isdigit (c : Char) : Bool :=
  48 ≤ c.toNat && c.toNat ≤ 57

/-- `isalpha` of the "C" locale. -/
def isalpha (c : Char) : Bool :=
  (65 ≤ c.toNat && c.toNat ≤ 90) || (97 ≤ c.toNat && c.toNat ≤ 122)

/-- `isalnum`. -/
def isalnum (c : Char) : Bool :=
  isalpha c || isdigit c

/-! ## Lexer (`Lexer.cpp`) -/

namespace Lexer

/-- `Lexer::peek(offset)` on the unread suffix. -/
def peek (s : List Char) (offset : Nat) : Char :=
  s.getD offset NUL

/-- `Lexer::advance`: `pos++` (the returned character is `peek s 0`). -/
def advance (s : List Char) : List Char :=
  s.drop 1

/-- `Lexer::skipWhitespace`: `while (isspace(peek())) advance();`. -/
def skipWhitespace : List Char → List Char
  | [] => []
  | c :: rest => if isspace c then skipWhitespace rest else c :: rest

/-- The loop of `skipComment`: `while (peek() != '\n' && peek() != '\0') advance();`. -/
def skipToLineEnd : List Char → List Char
  | [] => []
  | c :: rest => if c ≠ LF ∧ c ≠ NUL then skipToLineEnd rest else c :: rest

/-- `Lexer::skipComment`. -/
def skipComment (s : List Char) : List Char :=
  if peek s 0 = '/' ∧ peek s 1 = '/' then skipToLineEnd (advance (advance s)) else s

/-- The `switch (escaped)` of `Lexer::string`. -/
def unescape (escaped : Char) : Char :=
  if escaped = 'n' then LF
  else if escaped = 't' then TAB
  else if escaped = BACKSLASH then BACKSLASH
  else if escaped = DQUOTE then DQUOTE
  else escaped

/-- The loop of `Lexer::string` together with the final
`if (peek() == '"') advance();`: the decoded text and the unread suffix. -/
def stringBody : List Char → List Char × List Char
  | [] => ([], [])
  | c :: rest =>
    if c = DQUOTE then ([], rest)
    else if c = NUL then ([], c :: rest)
    else if c = BACKSLASH then
      match rest with
      | [] => ([NUL], [])
      | e :: rest2 => ((unescape e :: (stringBody rest2).1), (stringBody rest2).2)
    else (c :: (stringBody rest).1, (stringBody rest).2)

/-- `Lexer::string`: called with the opening quote unread. -/
def string (s : List Char) : Token × List Char :=
  (⟨TokenType.STRING, String.mk (stringBody (advance s)).1, 1, 1⟩, (stringBody (advance s)).2)

/-- The characters taken by `while (isalnum(peek()) || peek() == '_')`. -/
def identChars : List Char → List Char × List Char
  | [] => ([], [])
  | c :: rest =>
    if isalnum c || c = '_' then (c :: (identChars rest).1, (identChars rest).2)
    else ([], c :: rest)

/-- The static keyword table of `Lexer::identifier`. -/
def keywords : List (String × TokenType) :=
  [("dir", TokenType.DIR), ("kteb", TokenType.KTEB), ("ila", TokenType.ILA),
   ("wila", TokenType.WILA), ("wla", TokenType.WLA), ("ma7ad", TokenType.MA7AD),
   ("kol", TokenType.KOL), ("dalla", TokenType.DALLA), ("kalla", TokenType.KALLA),
   ("rje3", TokenType.RJE3), ("s7i7", TokenType.S7I7), ("ghalat", TokenType.GHALAT),
   ("w", TokenType.W)]

/-- `Lexer::identifier`. -/
def identifier (s : List Char) : Token × List Char :=
  let result := String.mk (identChars s).1
  match keywords.lookup result with
  | some t => (⟨t, result, 1, 1⟩, (identChars s).2)
  | none => (⟨TokenType.IDENT, result, 1, 1⟩, (identChars s).2)

/-- The characters taken by `while (isdigit(peek()))`. -/
def digitChars : List Char → List Char × List Char
  | [] => ([], [])
  | c :: rest =>
    if isdigit c then (c :: (digitChars rest).1, (digitChars rest).2)
    else ([], c :: rest)

/-- `Lexer::number`. -/
def number (s : List Char) : Token × List Char :=
  let intPart := (digitChars s).1
  let s1 := (digitChars s).2
  if peek s1 0 = '.' ∧ isdigit (peek s1 1) = true then
    (⟨TokenType.NUMBER, String.mk (intPart ++ '.' :: (digitChars (advance s1)).1), 1, 1⟩,
      (digitChars (advance s1)).2)
  else (⟨TokenType.NUMBER, String.mk intPart, 1, 1⟩, s1)

/-- The chain of `if (c == '(') ... else ...` at the end of the loop body of
`Lexer::tokenize`: the token pushed and the unread suffix; `s` starts with `c`. -/
def operatorToken (c : Char) (s : List Char) : Token × List Char :=
  let s1 := advance s
  if c = '(' then (⟨TokenType.LPAREN, "(", 1, 1⟩, s1)
  else if c = ')' then (⟨TokenType.RPAREN, ")", 1, 1⟩, s1)
  else if c = '{' then (⟨TokenType.LBRACE, "\x7b", 1, 1⟩, s1)
  else if c = '}' then (⟨TokenType.RBRACE, "\x7d", 1, 1⟩, s1)
  else if c = ';' then (⟨TokenType.SEMICOLON, ";", 1, 1⟩, s1)
  else if c = ',' then (⟨TokenType.COMMA, ",", 1, 1⟩, s1)
  else if c = '+' then
    if peek s1 0 = '+' then (⟨TokenType.PLUS_PLUS, "++", 1, 1⟩, advance s1)
    else (⟨TokenType.PLUS, "+", 1, 1⟩, s1)
  else if c = '-' then (⟨TokenType.MINUS, "-", 1, 1⟩, s1)
  else if c = '*' then (⟨TokenType.STAR, "*", 1, 1⟩, s1)
  else if c = '/' then (⟨TokenType.SLASH, "/", 1, 1⟩, s1)
  else if c = '=' then
    if peek s1 0 = '=' then (⟨TokenType.EQ_EQ, "==", 1, 1⟩, advance s1)
    else (⟨TokenType.EQUAL, "=", 1, 1⟩, s1)
  else if c = '!' then
    if peek s1 0 = '=' then (⟨TokenType.NOT_EQ, "!=", 1, 1⟩, advance s1)
    else (⟨TokenType.UNKNOWN, "!", 1, 1⟩, s1)
  else if c = '<' then
    if peek s1 0 = '=' then (⟨TokenType.LE, "<=", 1, 1⟩, advance s1)
    else (⟨TokenType.LT, "<", 1, 1⟩, s1)
  else if c = '>' then
    if peek s1 0 = '=' then (⟨TokenType.GE, ">=", 1, 1⟩, advance s1)
    else (⟨TokenType.GT, ">", 1, 1⟩, s1)
  else (⟨TokenType.UNKNOWN, String.mk [c], 1, 1⟩, s1)

/-- The token pushed by one pass through the body of the `while` loop of
`Lexer::tokenize`, for a suffix `s` whose first character `c` is not `'\0'`. -/
def nextToken (c : Char) (s : List Char) : Token × List Char :=
  if c = DQUOTE then string s
  else if isalpha c || c = '_' then identifier s
  else if isdigit c then number s
  else operatorToken c s

/-- The position reached by the skipping at the head of the loop body:
`skipWhitespace()`, then one comment and the whitespace after it if the next
two characters are `//`. -/
def skipBlanks (s : List Char) : List Char :=
  let s1 := skipWhitespace s
  if peek s1 0 = '/' ∧ peek s1 1 = '/' then skipWhitespace (skipComment s1) else s1

/-- The end-of-input token pushed after the loop. -/
def endToken : Token := ⟨TokenType.END, "", 1, 1⟩

/-- The `while (peek() != '\0')` loop of `Lexer::tokenize` followed by the push
of the end token. Each pass costs one unit of fuel; `none` means the fuel ran
out. -/
def tokenizeLoop : Nat → List Char → Option (List Token)
  | 0, _ => none
  | fuel + 1, s =>
    if peek s 0 = NUL then some [endToken]
    else
      let s1 := skipBlanks s
      let c := peek s1 0
      if c = NUL then some [endToken]
      else
        match tokenizeLoop fuel (nextToken c s1).2 with
        | none => none
        | some rest => some ((nextToken c s1).1 :: rest)

end Lexer

/-- `Lexer(src).tokenize()`. The fuel is one more than the length of the
text: each pass of the loop that pushes a token consumes a character. -/
def tokenize (src : String) : Option (List Token) :=
  Lexer.tokenizeLoop (src.length + 1) src.data

/-! ## Syntax trees (`AST.hpp`) -/

inductive NodeType where
  | NUMBER | STRING | BOOLEAN | IDENTIFIER
  | BINARY_OP | UNARY_OP | CALL
  | VAR_DECL | PRINT | IF | WHILE | FOR | FUNCTION_DECL | RETURN | BLOCK | ASSIGNMENT
  deriving DecidableEq, Repr

/-- The node `struct ASTNode`. A child pointer is never null in a tree built
by the parser, so `children` holds nodes; `body` is null except in a function
declaration. -/
inductive ASTNode where
  | mk (type : NodeType) (value : String) (op : String) (children : List ASTNode)
      (params : List String) (body : Option ASTNode)
  deriving Repr

namespace ASTNode

def type : ASTNode → NodeType
  | mk t _ _ _ _ _ => t

def value : ASTNode → String
  | mk _ v _ _ _ _ => v

def op : ASTNode → String
  | mk _ _ o _ _ _ => o

def children : ASTNode → List ASTNode
  | mk _ _ _ c _ _ => c

def params : ASTNode → List String
  | mk _ _ _ _ p _ => p

def body : ASTNode → Option ASTNode
  | mk _ _ _ _ _ b => b

/-- A node with a type and a value (`NUMBER`, `STRING`, `BOOLEAN`, `IDENTIFIER`). -/
def leaf (t : NodeType) (v : String) : ASTNode := mk t v "" [] [] none

/-- A node with a type, a value and children (`VAR_DECL`, `ASSIGNMENT`, `CALL`). -/
def named (t : NodeType) (v : String) (c : List ASTNode) : ASTNode := mk t v "" c [] none

/-- A node with a type and children (`PRINT`, `IF`, `WHILE`, `FOR`, `RETURN`, `BLOCK`). -/
def plain (t : NodeType) (c : List ASTNode) : ASTNode := mk t "" "" c [] none

/-- A `BINARY_OP` node. -/
def binary (o : String) (l r : ASTNode) : ASTNode := mk NodeType.BINARY_OP "" o [l, r] [] none

/-- A `UNARY_OP` node. -/
def unaryOp (o : String) (e : ASTNode) : ASTNode := mk NodeType.UNARY_OP "" o [e] [] none

/-- A `FUNCTION_DECL` node. -/
def function (name : String) (ps : List String) (b : ASTNode) : ASTNode :=
  mk NodeType.FUNCTION_DECL name "" [] ps (some b)

end ASTNode

namespace ASTNode

mutual

/-- Structural equality of two nodes, as a boolean. -/
def beq : ASTNode → ASTNode → Bool
  | mk t1 v1 o1 c1 p1 b1, mk t2 v2 o2 c2 p2 b2 =>
    decide (t1 = t2) && decide (v1 = v2) && decide (o1 = o2) && beqList c1 c2 &&
      decide (p1 = p2) && beqOption b1 b2

/-- Structural equality of two lists of nodes. -/
def beqList : List ASTNode → List ASTNode → Bool
  | [], [] => true
  | a :: as, b :: bs => beq a b && beqList as bs
  | _, _ => false

/-- Structural equality of two optional nodes. -/
def beqOption : Option ASTNode → Option ASTNode → Bool
  | none, none => true
  | some a, some b => beq a b
  | _, _ => false

end

end ASTNode

namespace ASTNode

mutual

theorem eq_of_beq : ∀ (a b : ASTNode), beq a b = true → a = b
  | mk t1 v1 o1 c1 p1 b1, mk t2 v2 o2 c2 p2 b2, h => by
    simp only [beq, Bool.and_eq_true, decide_eq_true_eq] at h
    obtain ⟨⟨⟨⟨⟨h1, h2⟩, h3⟩, h4⟩, h5⟩, h6⟩ := h
    rw [h1, h2, h3, h5, eq_of_beqList c1 c2 h4, eq_of_beqOption b1 b2 h6]

theorem eq_of_beqList : ∀ (a b : List ASTNode), beqList a b = true → a = b
  | [], [], _ => rfl
  | [], _ :: _, h => by simp [beqList] at h
  | _ :: _, [], h => by simp [beqList] at h
  | a :: as, b :: bs, h => by
    simp only [beqList, Bool.and_eq_true] at h
    rw [eq_of_beq a b h.1, eq_of_beqList as bs h.2]

theorem eq_of_beqOption : ∀ (a b : Option ASTNode), beqOption a b = true → a = b
  | none, none, _ => rfl
  | none, some _, h => by simp [beqOption] at h
  | some _, none, h => by simp [beqOption] at h
  | some a, some b, h => by
    simp only [beqOption] at h
    rw [eq_of_beq a b h]

end

mutual

theorem beq_self : ∀ (a : ASTNode), beq a a = true
  | mk t v o c p b => by
    simp [beq, beqList_self c, beqOption_self b]

theorem beqList_self : ∀ (a : List ASTNode), beqList a a = true
  | [] => rfl
  | a :: as => by
    simp [beqList, beq_self a, beqList_self as]

theorem beqOption_self : ∀ (a : Option ASTNode), beqOption a a = true
  | none => rfl
  | some a => by
    simp [beqOption, beq_self a]

end

end ASTNode

/-- Equality of nodes is decidable, through `ASTNode.beq`. -/
instance : DecidableEq ASTNode := fun a b =>
  if h : ASTNode.beq a b = true then isTrue (ASTNode.eq_of_beq a b h)
  else isFalse (fun e => h (e ▸ ASTNode.beq_self a))

/-! ## Parser (`Parser.cpp`) -/

/-- The ways `Parser` ends the process: the two `exit(1)` sites, with the text
of the offending token, and the read of `tokens.back()` on an empty vector. -/
inductive ParseFault where
  | expected (message : String) (tokenValue : String)
  | unexpected (tokenValue : String)
  | undefinedBehaviour
  deriving DecidableEq, Repr

/-- What a parsing function produces: a value and the new `pos`, a fault, or
the exhaustion of the fuel. -/
inductive ParseResult (α : Type) where
  | ok (a : α) (pos : Nat)
  | fault (f : ParseFault)
  | outOfFuel
  deriving DecidableEq, Repr

namespace Parser

/-- `Parser::peek`. On an empty vector `tokens.back()` is undefined; `parse`
reports that case before any token is read, and the end token stands in here. -/
def peek (tokens : List Token) (pos : Nat) : Token :=
  if pos < tokens.length then tokens.getD pos Lexer.endToken
  else tokens.getLastD Lexer.endToken

/-- `Parser::peekNext`. -/
def peekNext (tokens : List Token) (pos : Nat) : Token :=
  if pos + 1 < tokens.length then tokens.getD (pos + 1) Lexer.endToken
  else tokens.getLastD Lexer.endToken

/-- `Parser::advance`: the new `pos` (the returned token is `peek tokens pos`). -/
def advance (tokens : List Token) (pos : Nat) : Nat :=
  if pos < tokens.length then pos + 1 else pos

/-- `Parser::check`. -/
def check (tokens : List Token) (pos : Nat) (type : TokenType) : Bool :=
  (peek tokens pos).type = type

/-- `Parser::consume`: the consumed token and the new `pos`, or the fault. -/
def consume (tokens : List Token) (pos : Nat) (type : TokenType) (message : String) :
    ParseResult Token :=
  if check tokens pos type then ParseResult.ok (peek tokens pos) (advance tokens pos)
  else ParseResult.fault (ParseFault.expected message (peek tokens pos).value)

/-- The loop `while (match(SEMICOLON)) {}`: the new `pos`. -/
def skipSemicolons : Nat → List Token → Nat → ParseResult Unit
  | 0, _, _ => ParseResult.outOfFuel
  | fuel + 1, tokens, pos =>
    if check tokens pos TokenType.SEMICOLON then skipSemicolons fuel tokens (advance tokens pos)
    else ParseResult.ok () pos

/-- The loop `while (peek().type == PLUS_PLUS)` of `Parser::postfix`. -/
def postfixLoop : Nat → List Token → ASTNode → Nat → ParseResult ASTNode
  | 0, _, _, _ => ParseResult.outOfFuel
  | fuel + 1, tokens, expr, pos =>
    if (peek tokens pos).type = TokenType.PLUS_PLUS then
      postfixLoop fuel tokens (ASTNode.unaryOp "post++" expr) (advance tokens pos)
    else ParseResult.ok expr pos

/-- The parameter loop of `Parser::functionDeclaration`:
`while (match(COMMA)) params.push_back(consume(IDENT, ...).value)`. -/
def paramLoop : Nat → List Token → List String → Nat → ParseResult (List String)
  | 0, _, _, _ => ParseResult.outOfFuel
  | fuel + 1, tokens, params, pos =>
    if check tokens pos TokenType.COMMA then
      match consume tokens (advance tokens pos) TokenType.IDENT "Expected parameter name" with
      | ParseResult.ok t pos1 => paramLoop fuel tokens (params ++ [t.value]) pos1
      | ParseResult.fault f => ParseResult.fault f
      | ParseResult.outOfFuel => ParseResult.outOfFuel
    else ParseResult.ok params pos

/-- The loop shared by the six binary levels:
`while (peek() is an operator of the level) { op = advance(); right = next(); expr = node }`.
For `logicalOr` the test also looks at `peekNext()`. -/
def binaryLoop (isOp : List Token → Nat → Bool) (next : Nat → ParseResult ASTNode) :
    Nat → List Token → ASTNode → Nat → ParseResult ASTNode
  | 0, _, _, _ => ParseResult.outOfFuel
  | fuel + 1, tokens, expr, pos =>
    if isOp tokens pos then
      match next (advance tokens pos) with
      | ParseResult.ok right pos1 =>
        binaryLoop isOp next fuel tokens (ASTNode.binary (peek tokens pos).value expr right) pos1
      | ParseResult.fault f => ParseResult.fault f
      | ParseResult.outOfFuel => ParseResult.outOfFuel
    else ParseResult.ok expr pos

/-- The loop test of `logicalOr`: `peek().type == WLA && peekNext().type != W`. -/
def isOrOp (tokens : List Token) (pos : Nat) : Bool :=
  (peek tokens pos).type = TokenType.WLA && (peekNext tokens pos).type ≠ TokenType.W

/-- The loop test of `logicalAnd`. -/
def isAndOp (tokens : List Token) (pos : Nat) : Bool :=
  (peek tokens pos).type = TokenType.W

/-- The loop test of `equality`. -/
def isEqualityOp (tokens : List Token) (pos : Nat) : Bool :=
  (peek tokens pos).type = TokenType.EQ_EQ || (peek tokens pos).type = TokenType.NOT_EQ

/-- The loop test of `comparison`. -/
def isComparisonOp (tokens : List Token) (pos : Nat) : Bool :=
  (peek tokens pos).type = TokenType.LT || (peek tokens pos).type = TokenType.GT ||
    (peek tokens pos).type = TokenType.LE || (peek tokens pos).type = TokenType.GE

/-- The loop test of `addition`. -/
def isAdditionOp (tokens : List Token) (pos : Nat) : Bool :=
  (peek tokens pos).type = TokenType.PLUS || (peek tokens pos).type = TokenType.MINUS

/-- The loop test of `multiplication`. -/
def isMultiplicationOp (tokens : List Token) (pos : Nat) : Bool :=
  (peek tokens pos).type = TokenType.STAR || (peek tokens pos).type = TokenType.SLASH

end Parser

namespace ParseResult

/-- Sequencing: run `f` on the value and position of a successful result. -/
def bind {α β : Type} (r : ParseResult α) (f : α → Nat → ParseResult β) : ParseResult β :=
  match r with
  | ok a pos => f a pos
  | fault e => fault e
  | outOfFuel => outOfFuel

end ParseResult

namespace Parser

open TokenType in
mutual

/-- `Parser::statement`; `none` is the `nullptr` returned at the end token. -/
def statement : Nat → List Token → Nat → ParseResult (Option ASTNode)
  | 0, _, _ => ParseResult.outOfFuel
  | fuel + 1, tokens, pos0 =>
    (skipSemicolons fuel tokens pos0).bind fun _ pos =>
    if (peek tokens pos).type = END then ParseResult.ok none pos
    else
      match (peek tokens pos).type with
      | DIR => (varDeclaration fuel tokens pos).bind fun n p => ParseResult.ok (some n) p
      | KTEB => (printStatement fuel tokens pos).bind fun n p => ParseResult.ok (some n) p
      | ILA => (ifStatement fuel tokens pos).bind fun n p => ParseResult.ok (some n) p
      | MA7AD => (whileStatement fuel tokens pos).bind fun n p => ParseResult.ok (some n) p
      | KOL => (forStatement fuel tokens pos).bind fun n p => ParseResult.ok (some n) p
      | DALLA => (functionDeclaration fuel tokens pos).bind fun n p => ParseResult.ok (some n) p
      | RJE3 => (returnStatement fuel tokens pos).bind fun n p => ParseResult.ok (some n) p
      | LBRACE => (block fuel tokens pos).bind fun n p => ParseResult.ok (some n) p
      | _ => (assignmentOrExpression fuel tokens pos).bind fun n p => ParseResult.ok (some n) p
termination_by structural x => x

/-- `Parser::varDeclaration`. -/
def varDeclaration : Nat → List Token → Nat → ParseResult ASTNode
  | 0, _, _ => ParseResult.outOfFuel
  | fuel + 1, tokens, pos0 =>
    (consume tokens pos0 DIR "Expected 'dir'").bind fun _ pos1 =>
    (consume tokens pos1 IDENT "Expected variable name").bind fun name pos2 =>
    (consume tokens pos2 EQUAL "Expected '=' in variable declaration").bind fun _ pos3 =>
    (expression fuel tokens pos3).bind fun value pos4 =>
    ParseResult.ok (ASTNode.named NodeType.VAR_DECL name.value [value]) pos4

/-- The loop `while (match(COMMA)) children.push_back(expression())` of
`printStatement` and of the call branch of `primary`. -/
def argumentLoop : Nat → List Token → List ASTNode → Nat → ParseResult (List ASTNode)
  | 0, _, _, _ => ParseResult.outOfFuel
  | fuel + 1, tokens, children, pos =>
    if check tokens pos COMMA then
      (expression fuel tokens (advance tokens pos)).bind fun e pos1 =>
      argumentLoop fuel tokens (children ++ [e]) pos1
    else ParseResult.ok children pos
termination_by structural x => x

/-- The argument list of `printStatement` and of a call:
`if (!check(RPAREN)) { push(expression()); while (match(COMMA)) push(expression()); }`. -/
def arguments : Nat → List Token → Nat → ParseResult (List ASTNode)
  | 0, _, _ => ParseResult.outOfFuel
  | fuel + 1, tokens, pos =>
    if check tokens pos RPAREN then ParseResult.ok [] pos
    else
      (expression fuel tokens pos).bind fun e pos1 =>
      argumentLoop fuel tokens [e] pos1
termination_by structural x => x

/-- `Parser::printStatement`. -/
def printStatement : Nat → List Token → Nat → ParseResult ASTNode
  | 0, _, _ => ParseResult.outOfFuel
  | fuel + 1, tokens, pos0 =>
    (consume tokens pos0 KTEB "Expected 'kteb'").bind fun _ pos1 =>
    (consume tokens pos1 LPAREN "Expected '(' after kteb").bind fun _ pos2 =>
    (arguments fuel tokens pos2).bind fun children pos3 =>
    (consume tokens pos3 RPAREN "Expected ')' after kteb arguments").bind fun _ pos4 =>
    ParseResult.ok (ASTNode.plain NodeType.PRINT children) pos4

/-- The loop `while (peek().type == WILA)` of `ifStatement`; `children` are
the children of the if node so far. -/
def elseIfLoop : Nat → List Token → List ASTNode → Nat → ParseResult (List ASTNode)
  | 0, _, _, _ => ParseResult.outOfFuel
  | fuel + 1, tokens, children, pos0 =>
    if (peek tokens pos0).type = WILA then
      (consume tokens (advance tokens pos0) LPAREN "Expected '(' after wila").bind fun _ pos1 =>
      (expression fuel tokens pos1).bind fun elseifCond pos2 =>
      (consume tokens pos2 RPAREN "Expected ')' after condition").bind fun _ pos3 =>
      (consume tokens pos3 LBRACE "Expected '\x7b' for wila block").bind fun _ pos4 =>
      (block fuel tokens pos4).bind fun elseifBlock pos5 =>
      elseIfLoop fuel tokens
        (children ++ [ASTNode.plain NodeType.IF [elseifCond, elseifBlock]]) pos5
    else ParseResult.ok children pos0
termination_by structural x => x

/-- `Parser::ifStatement`. -/
def ifStatement : Nat → List Token → Nat → ParseResult ASTNode
  | 0, _, _ => ParseResult.outOfFuel
  | fuel + 1, tokens, pos0 =>
    (consume tokens pos0 ILA "Expected 'ila'").bind fun _ pos1 =>
    (consume tokens pos1 LPAREN "Expected '(' after ila").bind fun _ pos2 =>
    (expression fuel tokens pos2).bind fun condition pos3 =>
    (consume tokens pos3 RPAREN "Expected ')' after condition").bind fun _ pos4 =>
    (consume tokens pos4 LBRACE "Expected '\x7b' for if block").bind fun _ pos5 =>
    (block fuel tokens pos5).bind fun thenBlock pos6 =>
    (elseIfLoop fuel tokens [condition, thenBlock] pos6).bind fun children pos7 =>
    if (peek tokens pos7).type = WLA ∧ (peekNext tokens pos7).type ≠ W then
      (consume tokens (advance tokens pos7) LBRACE "Expected '\x7b' for else block").bind
        fun _ pos8 =>
      (block fuel tokens pos8).bind fun elseBlock pos9 =>
      ParseResult.ok (ASTNode.plain NodeType.IF (children ++ [elseBlock])) pos9
    else ParseResult.ok (ASTNode.plain NodeType.IF children) pos7
termination_by structural x => x

/-- `Parser::whileStatement`. -/
def whileStatement : Nat → List Token → Nat → ParseResult ASTNode
  | 0, _, _ => ParseResult.outOfFuel
  | fuel + 1, tokens, pos0 =>
    (consume tokens pos0 MA7AD "Expected 'ma7ad'").bind fun _ pos1 =>
    (consume tokens pos1 LPAREN "Expected '(' after ma7ad").bind fun _ pos2 =>
    (expression fuel tokens pos2).bind fun condition pos3 =>
    (consume tokens pos3 RPAREN "Expected ')' after condition").bind fun _ pos4 =>
    (consume tokens pos4 LBRACE "Expected '\x7b' for while block").bind fun _ pos5 =>
    (block fuel tokens pos5).bind fun body pos6 =>
    ParseResult.ok (ASTNode.plain NodeType.WHILE [condition, body]) pos6
termination_by structural x => x

/-- `Parser::forStatement`. -/
def forStatement : Nat → List Token → Nat → ParseResult ASTNode
  | 0, _, _ => ParseResult.outOfFuel
  | fuel + 1, tokens, pos0 =>
    (consume tokens pos0 KOL "Expected 'kol'").bind fun _ pos1 =>
    (consume tokens pos1 LPAREN "Expected '(' after kol").bind fun _ pos2 =>
    (assignmentOrExpression fuel tokens pos2).bind fun init pos3 =>
    (consume tokens pos3 SEMICOLON "Expected ';' after for init").bind fun _ pos4 =>
    (expression fuel tokens pos4).bind fun condition pos5 =>
    (consume tokens pos5 SEMICOLON "Expected ';' after for condition").bind fun _ pos6 =>
    (assignmentOrExpression fuel tokens pos6).bind fun increment pos7 =>
    (consume tokens pos7 RPAREN "Expected ')' after for clauses").bind fun _ pos8 =>
    (consume tokens pos8 LBRACE "Expected '\x7b' for for block").bind fun _ pos9 =>
    (block fuel tokens pos9).bind fun body pos10 =>
    ParseResult.ok (ASTNode.plain NodeType.FOR [init, condition, increment, body]) pos10
termination_by structural x => x

/-- `Parser::functionDeclaration`. -/
def functionDeclaration : Nat → List Token → Nat → ParseResult ASTNode
  | 0, _, _ => ParseResult.outOfFuel
  | fuel + 1, tokens, pos0 =>
    (consume tokens pos0 DALLA "Expected 'dalla'").bind fun _ pos1 =>
    (consume tokens pos1 IDENT "Expected function name").bind fun name pos2 =>
    (consume tokens pos2 LPAREN "Expected '(' after function name").bind fun _ pos3 =>
    (if check tokens pos3 RPAREN then ParseResult.ok [] pos3
      else
        (consume tokens pos3 IDENT "Expected parameter name").bind fun p pos =>
        paramLoop fuel tokens [p.value] pos).bind fun params pos4 =>
    (consume tokens pos4 RPAREN "Expected ')' after parameters").bind fun _ pos5 =>
    (consume tokens pos5 LBRACE "Expected '\x7b' for function body").bind fun _ pos6 =>
    (block fuel tokens pos6).bind fun body pos7 =>
    ParseResult.ok (ASTNode.function name.value params body) pos7
termination_by structural x => x

/-- `Parser::returnStatement`. -/
def returnStatement : Nat → List Token → Nat → ParseResult ASTNode
  | 0, _, _ => ParseResult.outOfFuel
  | fuel + 1, tokens, pos0 =>
    (consume tokens pos0 RJE3 "Expected 'rje3'").bind fun _ pos1 =>
    if !check tokens pos1 SEMICOLON && !check tokens pos1 RBRACE then
      (expression fuel tokens pos1).bind fun e pos2 =>
      ParseResult.ok (ASTNode.plain NodeType.RETURN [e]) pos2
    else ParseResult.ok (ASTNode.plain NodeType.RETURN []) pos1

/-- The loop `while (!check(RBRACE) && !check(END))` of `Parser::block`. -/
def blockLoop : Nat → List Token → List ASTNode → Nat → ParseResult (List ASTNode)
  | 0, _, _, _ => ParseResult.outOfFuel
  | fuel + 1, tokens, statements, pos =>
    if !check tokens pos RBRACE && !check tokens pos END then
      (statement fuel tokens pos).bind fun stmt pos1 =>
      (skipSemicolons fuel tokens pos1).bind fun _ pos2 =>
      match stmt with
      | some n => blockLoop fuel tokens (statements ++ [n]) pos2
      | none => blockLoop fuel tokens statements pos2
    else ParseResult.ok statements pos
termination_by structural x => x

/-- `Parser::block`: called with the opening brace already consumed. -/
def block : Nat → List Token → Nat → ParseResult ASTNode
  | 0, _, _ => ParseResult.outOfFuel
  | fuel + 1, tokens, pos0 =>
    (blockLoop fuel tokens [] pos0).bind fun statements pos1 =>
    ParseResult.ok (ASTNode.plain NodeType.BLOCK statements)
      (if check tokens pos1 RBRACE then advance tokens pos1 else pos1)
termination_by structural x => x

/-- `Parser::assignmentOrExpression`. -/
def assignmentOrExpression : Nat → List Token → Nat → ParseResult ASTNode
  | 0, _, _ => ParseResult.outOfFuel
  | fuel + 1, tokens, pos0 =>
    (expression fuel tokens pos0).bind fun expr pos1 =>
    if check tokens pos1 EQUAL then
      (expression fuel tokens (advance tokens pos1)).bind fun value pos2 =>
      ParseResult.ok (ASTNode.named NodeType.ASSIGNMENT expr.value [value]) pos2
    else ParseResult.ok expr pos1

/-- `Parser::expression`. -/
def expression : Nat → List Token → Nat → ParseResult ASTNode
  | 0, _, _ => ParseResult.outOfFuel
  | fuel + 1, tokens, pos => logicalOr fuel tokens pos
termination_by structural x => x

/-- `Parser::logicalOr`. -/
def logicalOr : Nat → List Token → Nat → ParseResult ASTNode
  | 0, _, _ => ParseResult.outOfFuel
  | fuel + 1, tokens, pos =>
    (logicalAnd fuel tokens pos).bind fun expr pos1 =>
    binaryLoop isOrOp (fun p => logicalAnd fuel tokens p) fuel tokens expr pos1
termination_by structural x => x

/-- `Parser::logicalAnd`. -/
def logicalAnd : Nat → List Token → Nat → ParseResult ASTNode
  | 0, _, _ => ParseResult.outOfFuel
  | fuel + 1, tokens, pos =>
    (equality fuel tokens pos).bind fun expr pos1 =>
    binaryLoop isAndOp (fun p => equality fuel tokens p) fuel tokens expr pos1
termination_by structural x => x

/-- `Parser::equality`. -/
def equality : Nat → List Token → Nat → ParseResult ASTNode
  | 0, _, _ => ParseResult.outOfFuel
  | fuel + 1, tokens, pos =>
    (comparison fuel tokens pos).bind fun expr pos1 =>
    binaryLoop isEqualityOp (fun p => comparison fuel tokens p) fuel tokens expr pos1
termination_by structural x => x

/-- `Parser::comparison`. -/
def comparison : Nat → List Token → Nat → ParseResult ASTNode
  | 0, _, _ => ParseResult.outOfFuel
  | fuel + 1, tokens, pos =>
    (addition fuel tokens pos).bind fun expr pos1 =>
    binaryLoop isComparisonOp (fun p => addition fuel tokens p) fuel tokens expr pos1
termination_by structural x => x

/-- `Parser::addition`. -/
def addition : Nat → List Token → Nat → ParseResult ASTNode
  | 0, _, _ => ParseResult.outOfFuel
  | fuel + 1, tokens, pos =>
    (multiplication fuel tokens pos).bind fun expr pos1 =>
    binaryLoop isAdditionOp (fun p => multiplication fuel tokens p) fuel tokens expr pos1
termination_by structural x => x

/-- `Parser::multiplication`. -/
def multiplication : Nat → List Token → Nat → ParseResult ASTNode
  | 0, _, _ => ParseResult.outOfFuel
  | fuel + 1, tokens, pos =>
    (unary fuel tokens pos).bind fun expr pos1 =>
    binaryLoop isMultiplicationOp (fun p => unary fuel tokens p) fuel tokens expr pos1
termination_by structural x => x

/-- `Parser::unary`. -/
def unary : Nat → List Token → Nat → ParseResult ASTNode
  | 0, _, _ => ParseResult.outOfFuel
  | fuel + 1, tokens, pos =>
    if (peek tokens pos).type = MINUS then
      (unary fuel tokens (advance tokens pos)).bind fun expr pos1 =>
      ParseResult.ok (ASTNode.unaryOp (peek tokens pos).value expr) pos1
    else postfixExpr fuel tokens pos
termination_by structural x => x

/-- `Parser::postfix`. -/
def postfixExpr : Nat → List Token → Nat → ParseResult ASTNode
  | 0, _, _ => ParseResult.outOfFuel
  | fuel + 1, tokens, pos =>
    (primary fuel tokens pos).bind fun expr pos1 =>
    postfixLoop fuel tokens expr pos1
termination_by structural x => x

/-- `Parser::primary`. -/
def primary : Nat → List Token → Nat → ParseResult ASTNode
  | 0, _, _ => ParseResult.outOfFuel
  | fuel + 1, tokens, pos =>
    if (peek tokens pos).type = NUMBER then
      ParseResult.ok (ASTNode.leaf NodeType.NUMBER (peek tokens pos).value) (advance tokens pos)
    else if (peek tokens pos).type = STRING then
      ParseResult.ok (ASTNode.leaf NodeType.STRING (peek tokens pos).value) (advance tokens pos)
    else if (peek tokens pos).type = S7I7 ∨ (peek tokens pos).type = GHALAT then
      ParseResult.ok (ASTNode.leaf NodeType.BOOLEAN (peek tokens pos).value) (advance tokens pos)
    else if (peek tokens pos).type = IDENT then
      let pos1 := advance tokens pos
      if (peek tokens pos1).type = LPAREN then
        (arguments fuel tokens (advance tokens pos1)).bind fun children pos2 =>
        (consume tokens pos2 RPAREN "Expected ')' after function arguments").bind fun _ pos3 =>
        ParseResult.ok (ASTNode.named NodeType.CALL (peek tokens pos).value children) pos3
      else ParseResult.ok (ASTNode.leaf NodeType.IDENTIFIER (peek tokens pos).value) pos1
    else if (peek tokens pos).type = LPAREN then
      (expression fuel tokens (advance tokens pos)).bind fun expr pos1 =>
      (consume tokens pos1 RPAREN "Expected ')' after expression").bind fun _ pos2 =>
      ParseResult.ok expr pos2
    else ParseResult.fault (ParseFault.unexpected (peek tokens pos).value)
termination_by structural x => x

/-- The loop of `Parser::parse`: `while (!check(END))`. -/
def parseLoop : Nat → List Token → List ASTNode → Nat → ParseResult (List ASTNode)
  | 0, _, _, _ => ParseResult.outOfFuel
  | fuel + 1, tokens, nodes, pos =>
    if !check tokens pos END then
      (statement fuel tokens pos).bind fun stmt pos1 =>
      (skipSemicolons fuel tokens pos1).bind fun _ pos2 =>
      match stmt with
      | some n => parseLoop fuel tokens (nodes ++ [n]) pos2
      | none => parseLoop fuel tokens nodes pos2
    else ParseResult.ok nodes pos
termination_by structural x => x

end

end Parser

/-- `Parser(tokens).parse()` with the given fuel. Reading the first token of
an empty vector is undefined behaviour (`tokens.back()`). -/
def parse (fuel : Nat) (tokens : List Token) : ParseResult (List ASTNode) :=
  if tokens = [] then ParseResult.fault ParseFault.undefinedBehaviour
  else Parser.parseLoop fuel tokens [] 0

/-! ## Host numerics: `double`, `std::stod`, `std::to_string`

A finite `double` is kept as an integer mantissa and a binary exponent and is
only ever read through its value `m * 2 ^ e`; results are rounded to nearest,
ties to even, into binary64. The sign of a zero is not kept: the interpreter
formats every zero through `(int)` and tests `r == 0` before dividing. A NaN
keeps its sign bit, which `std::to_string` prints (`nan`, `-nan`); its payload
is not kept. The arithmetic on NaN is that of the x86-64 SSE2 instructions the
operators compile to: a NaN operand is the result, and an invalid operation
(`inf - inf`, `0 * inf`, `inf / inf`) gives the default NaN, whose sign bit is
set. -/

/-- A value of the C++ type `double`. -/
inductive Double where
  | finite (m : Int) (e : Int)
  | infinity (negative : Bool)
  | nan (negative : Bool)
  deriving DecidableEq, Repr

/-- The number of halvings that bring `n` below 2, that is `⌊log₂ n⌋` for
`0 < n` when `n ≤ fuel`. -/
def log2Floor : Nat → Nat → Nat
  | 0, _ => 0
  | fuel + 1, n => if n < 2 then 0 else log2Floor fuel (n / 2) + 1

/-- The integer nearest to `num / den`, ties to the even one. -/
def roundHalfEven (num den : Nat) : Nat :=
  let q := num / den
  let r := num % den
  if 2 * r < den then q
  else if den < 2 * r then q + 1
  else if q % 2 = 0 then q else q + 1

/-- The binary exponent `⌊log₂ (a / b)⌋` of a positive ratio: it is
`⌊log₂ a⌋ - ⌊log₂ b⌋` or one less. -/
def exponentOf (a b : Nat) : Int :=
  let k : Int := (log2Floor a a : Int) - (log2Floor b b : Int)
  if b * 2 ^ k.toNat ≤ a * 2 ^ (-k).toNat then k else k - 1

/-- The binary64 nearest to the exact value `± a / b` (for `0 < b`):
53 significant bits, least exponent `-1074`, overflow to infinity when the
rounded value reaches `2 ^ 1024`. -/
def roundRatio (negative : Bool) (a b : Nat) : Double :=
  if a = 0 then Double.finite 0 0
  else
    let E : Int := max (exponentOf a b) (-1022) - 52
    let M := roundHalfEven (a * 2 ^ (-E).toNat) (b * 2 ^ E.toNat)
    if 971 < E ∨ (E = 971 ∧ 2 ^ 53 ≤ M) then Double.infinity negative
    else Double.finite (if negative then -(M : Int) else (M : Int)) E

/-- The binary64 nearest to the exact value `m * 2 ^ e`. -/
def roundDyadic (m e : Int) : Double :=
  roundRatio (decide (m < 0)) (m.natAbs * 2 ^ e.toNat) (2 ^ (-e).toNat)

namespace Double

/-- The conversion of an `int` to `double`, which is exact. -/
def ofInt (k : Int) : Double := finite k 0

/-- `l + r`. When both operands are NaN the result is one of the two, and
which one depends on the order in which the compiler hands the operands of
the commutative operation to the instruction; the left one is taken here. -/
def add : Double → Double → Double
  | finite m1 e1, finite m2 e2 =>
    roundDyadic (m1 * 2 ^ (e1 - min e1 e2).toNat + m2 * 2 ^ (e2 - min e1 e2).toNat) (min e1 e2)
  | finite _ _, infinity s => infinity s
  | infinity s, finite _ _ => infinity s
  | infinity s1, infinity s2 => if s1 = s2 then infinity s1 else nan true
  | nan s, _ => nan s
  | _, nan s => nan s

/-- `-x`, which flips the sign bit, also of a NaN. -/
def neg : Double → Double
  | finite m e => finite (-m) e
  | infinity s => infinity (!s)
  | nan s => nan (!s)

/-- `l - r`: a NaN operand is the result as it is (the left one first),
otherwise the difference is the sum of `l` and `-r`. -/
def sub : Double → Double → Double
  | nan s, _ => nan s
  | _, nan s => nan s
  | l, r => add l (neg r)

/-- `l * r`. When both operands are NaN the left one is taken, as in `add`. -/
def mul : Double → Double → Double
  | finite m1 e1, finite m2 e2 => roundDyadic (m1 * m2) (e1 + e2)
  | finite m _, infinity s => if m = 0 then nan true else infinity (xor (decide (m < 0)) s)
  | infinity s, finite m _ => if m = 0 then nan true else infinity (xor s (decide (m < 0)))
  | infinity s1, infinity s2 => infinity (xor s1 s2)
  | nan s, _ => nan s
  | _, nan s => nan s

/-- `l / r`. The interpreter divides only after `r == 0` has failed; for a
zero divisor the sign of the infinity, which depends on the sign of the zero,
is taken from the dividend alone. -/
def div : Double → Double → Double
  | finite m1 e1, finite m2 e2 =>
    if m2 = 0 then (if m1 = 0 then nan true else infinity (decide (m1 < 0)))
    else roundRatio (xor (decide (m1 < 0)) (decide (m2 < 0)))
      (m1.natAbs * 2 ^ (e1 - e2).toNat) (m2.natAbs * 2 ^ (e2 - e1).toNat)
  | finite _ _, infinity _ => finite 0 0
  | infinity s, finite m _ => infinity (xor s (decide (m < 0)))
  | infinity _, infinity _ => nan true
  | nan s, _ => nan s
  | _, nan s => nan s

/-- `l < r`. -/
def lt : Double → Double → Bool
  | finite m1 e1, finite m2 e2 =>
    decide (m1 * 2 ^ (e1 - min e1 e2).toNat < m2 * 2 ^ (e2 - min e1 e2).toNat)
  | finite _ _, infinity s => !s
  | infinity s, finite _ _ => s
  | infinity s1, infinity s2 => s1 && !s2
  | _, _ => false

/-- `l == r`. -/
def eq : Double → Double → Bool
  | finite m1 e1, finite m2 e2 =>
    decide (m1 * 2 ^ (e1 - min e1 e2).toNat = m2 * 2 ^ (e2 - min e1 e2).toNat)
  | infinity s1, infinity s2 => s1 = s2
  | _, _ => false

/-- `l <= r`. -/
def le (l r : Double) : Bool := lt l r || eq l r

/-- The conversion `(int)x`: truncation toward zero; `none` when the
truncated value is not an `int` (or `x` is not finite), which is undefined
behaviour in C++. -/
def toInt : Double → Option Int
  | finite m e =>
    let t := Int.tdiv (m * 2 ^ e.toNat) (2 ^ (-e).toNat)
    if -2147483648 ≤ t ∧ t ≤ 2147483647 then some t else none
  | _ => none

end Double

/-- The six decimals printed by `%f` for the finite value `m * 2 ^ e`. -/
def fixedDigits (m e : Int) : Nat :=
  roundHalfEven (m.natAbs * 2 ^ e.toNat * 1000000) (2 ^ (-e).toNat)

/-- `std::to_string(double)` for a finite value, that is `printf("%f")`. -/
def toStringFinite (m e : Int) : String :=
  (if m < 0 then "-" else "") ++ toString (fixedDigits m e / 1000000) ++ "." ++
    String.mk (List.replicate (6 - (toString (fixedDigits m e % 1000000)).length) '0') ++
    toString (fixedDigits m e % 1000000)

/-- `std::to_string(double)`, that is `printf("%f")`: six decimals for a
finite value, `inf` and `nan` with their sign otherwise. -/
def toStringDouble : Double → String
  | Double.finite m e => toStringFinite m e
  | Double.infinity negative => if negative then "-inf" else "inf"
  | Double.nan negative => if negative then "-nan" else "nan"

/-- `std::to_string(int)`. -/
def toStringInt (k : Int) : String := toString k

/-- Equality of two results of type `Except` is decidable. -/
instance instDecidableEqExcept {ε α : Type} [DecidableEq ε] [DecidableEq α] :
    DecidableEq (Except ε α)
  | Except.ok a, Except.ok b =>
    if h : a = b then isTrue (congrArg Except.ok h)
    else isFalse (fun e => h (Except.ok.inj e))
  | Except.error a, Except.error b =>
    if h : a = b then isTrue (congrArg Except.error h)
    else isFalse (fun e => h (Except.error.inj e))
  | Except.ok _, Except.error _ => isFalse (fun e => Except.noConfusion e)
  | Except.error _, Except.ok _ => isFalse (fun e => Except.noConfusion e)

/-- The exceptions of `std::stod`. -/
inductive StodError where
  | invalidArgument
  | outOfRange
  deriving DecidableEq, Repr

namespace Stod

/-- The value of a run of decimal digits, most significant first. -/
def digitsValue (acc : Nat) : List Char → Nat
  | [] => acc
  | c :: rest => digitsValue (acc * 10 + (c.toNat - 48)) rest

/-- `isxdigit`. -/
def isxdigit (c : Char) : Bool :=
  isdigit c || (65 ≤ c.toNat && c.toNat ≤ 70) || (97 ≤ c.toNat && c.toNat ≤ 102)

/-- The value of one hexadecimal digit. -/
def hexDigit (c : Char) : Nat :=
  if isdigit c then c.toNat - 48
  else if 97 ≤ c.toNat then c.toNat - 87
  else c.toNat - 55

/-- The value of a run of hexadecimal digits. -/
def hexValue (acc : Nat) : List Char → Nat
  | [] => acc
  | c :: rest => hexValue (acc * 16 + hexDigit c) rest

/-- `tolower` on ASCII letters. -/
def lower (c : Char) : Char :=
  if 65 ≤ c.toNat ∧ c.toNat ≤ 90 then Char.ofNat (c.toNat + 32) else c

/-- Whether `s` starts with the lower-case word `w`, ignoring case. -/
def startsWith (w : List Char) (s : List Char) : Bool :=
  (s.take w.length).map lower = w

/-- An optional exponent part `[eE][+-]?digits` (or `[pP]...` for a
hexadecimal number); `0` when there is none. -/
def exponent (marker : Char) (s : List Char) : Int :=
  match s with
  | c :: rest =>
    if lower c = marker then
      match rest with
      | '-' :: ds =>
        if (ds.takeWhile isdigit) = [] then 0 else -(digitsValue 0 (ds.takeWhile isdigit) : Int)
      | '+' :: ds => (digitsValue 0 (ds.takeWhile isdigit) : Int)
      | ds => (digitsValue 0 (ds.takeWhile isdigit) : Int)
    else 0
  | [] => 0

/-- The result of the conversion for the exact value `± a / b`: `ERANGE`
(thrown as `std::out_of_range`) on overflow, and on a result that is below
the least normal number and inexact. -/
def range (negative : Bool) (a b : Nat) : Except StodError Double :=
  match roundRatio negative a b with
  | Double.finite m e =>
    if exponentOf a b < -1022 ∧ ¬ (m.natAbs * 2 ^ e.toNat * b = a * 2 ^ (-e).toNat) then
      Except.error StodError.outOfRange
    else Except.ok (Double.finite m e)
  | _ => Except.error StodError.outOfRange

/-- A decimal subject sequence `digits [. digits] [exponent]` with at least
one digit; `std::invalid_argument` when there is none. -/
def decimal (negative : Bool) (s : List Char) : Except StodError Double :=
  let ip := s.takeWhile isdigit
  let s1 := s.dropWhile isdigit
  let fp := match s1 with
    | '.' :: r => r.takeWhile isdigit
    | _ => []
  let s2 := match s1 with
    | '.' :: r => r.dropWhile isdigit
    | _ => s1
  if ip = [] ∧ fp = [] then Except.error StodError.invalidArgument
  else
    let x : Int := exponent 'e' s2 - (fp.length : Int)
    range negative (digitsValue 0 (ip ++ fp) * 10 ^ x.toNat) (10 ^ (-x).toNat)

/-- A hexadecimal subject sequence after its `0x`; `none` when no hexadecimal
digit follows, in which case the subject sequence is the `0` alone. -/
def hexadecimal (negative : Bool) (s : List Char) : Option (Except StodError Double) :=
  let ip := s.takeWhile isxdigit
  let s1 := s.dropWhile isxdigit
  let fp := match s1 with
    | '.' :: r => r.takeWhile isxdigit
    | _ => []
  let s2 := match s1 with
    | '.' :: r => r.dropWhile isxdigit
    | _ => s1
  if ip = [] ∧ fp = [] then none
  else
    let x : Int := exponent 'p' s2 - 4 * (fp.length : Int)
    some (range negative (hexValue 0 (ip ++ fp) * 2 ^ x.toNat) (2 ^ (-x).toNat))

/-- The conversion after leading white space and the sign. -/
def unsigned (negative : Bool) (s : List Char) : Except StodError Double :=
  if startsWith ['i', 'n', 'f'] s then Except.ok (Double.infinity negative)
  else if startsWith ['n', 'a', 'n'] s then Except.ok (Double.nan negative)
  else if startsWith ['0', 'x'] s then
    match hexadecimal negative (s.drop 2) with
    | some r => r
    | none => Except.ok (Double.finite 0 0)
  else decimal negative s

end Stod

/-- `std::stod(value)` as the interpreter calls it, without the `pos`
argument: the longest prefix of the text (after leading white space) that
has the form of a number is converted, whatever follows it. -/
def stod (value : String) : Except StodError Double :=
  match value.data.dropWhile isspace with
  | '-' :: rest => Stod.unsigned true rest
  | '+' :: rest => Stod.unsigned false rest
  | s => Stod.unsigned false s

/-! ## Interpreter (`Interpreter.cpp`) -/

/-- The ways a run ends the process: the three `exit(1)` sites, the two
exceptions of `std::stod` when nothing catches them, and undefined behaviour
(a child index past the end of `children`, an `(int)` conversion of a
`double` that is not an `int` when the converted value itself is used). -/
inductive Fault where
  | undefinedVariable (name : String)
  | undefinedFunction (name : String)
  | divisionByZero
  | invalidArgument
  | outOfRange
  | undefinedBehaviour
  deriving DecidableEq, Repr

/-- The exception of `std::stod` as a fault, when it is not caught. -/
def Fault.ofStod : StodError → Fault
  | StodError.invalidArgument => Fault.invalidArgument
  | StodError.outOfRange => Fault.outOfRange

/-- `map[key] = value` on an association list. -/
def assign {α : Type} (m : List (String × α)) (key : String) (value : α) : List (String × α) :=
  match m with
  | [] => [(key, value)]
  | (k, v) :: rest => if k = key then (key, value) :: rest else (k, v) :: assign rest key value

/-- The members of `class Interpreter`, and the text written to `std::cout`. -/
structure State where
  vars : List (String × String)
  functions : List (String × ASTNode)
  returnValue : String
  hasReturned : Bool
  out : String
  deriving DecidableEq, Repr

/-- The state of a freshly constructed `Interpreter`. -/
def State.initial : State := ⟨[], [], "", false, ""⟩

/-- What `execute` or `evaluate` produces: a value and the new state, a fault
with the text written so far, or the exhaustion of the fuel. -/
inductive Outcome (α : Type) where
  | ok (a : α) (st : State)
  | fault (f : Fault) (out : String)
  | outOfFuel
  deriving DecidableEq, Repr

namespace Outcome

/-- Sequencing: run `f` on the value and state of a successful outcome. -/
def bind {α β : Type} (r : Outcome α) (f : α → State → Outcome β) : Outcome β :=
  match r with
  | ok a st => f a st
  | fault e out => fault e out
  | outOfFuel => outOfFuel

end Outcome

/-- `Interpreter::isTruthy`. -/
def isTruthy (value : String) : Bool :=
  if value = "ghalat" ∨ value = "0" ∨ value = "" ∨ value = "0.0" then false else true

/-- The formatting shared by the arithmetic operators:
`if (result == (int)result) return to_string((int)result); return to_string(result);`.
When `result` is outside the range of `int`, or is not finite, the conversion
`(int)result` has no defined value, but no `int` whatever compares equal to
such a `result`: the test fails and the text is `to_string(result)`. So the
function always returns a text. -/
def formatNumber (result : Double) : Except Fault String :=
  match result.toInt with
  | some k =>
    if Double.eq result (Double.ofInt k) then Except.ok (toStringInt k)
    else Except.ok (toStringDouble result)
  | none => Except.ok (toStringDouble result)

/-- The two boolean sentinels. -/
def boolText (b : Bool) : String := if b then "s7i7" else "ghalat"

/-- The operators that convert both operands with `std::stod` outside any
`try`: the exception of the left operand comes first. -/
def numericOperands (left right : String) : Except Fault (Double × Double) :=
  match stod left with
  | Except.error e => Except.error (Fault.ofStod e)
  | Except.ok l =>
    match stod right with
    | Except.error e => Except.error (Fault.ofStod e)
    | Except.ok r => Except.ok (l, r)

/-- The `BINARY_OP` case of `Interpreter::evaluate` once both operands have
been evaluated. -/
def binaryOp (op left right : String) : Except Fault String :=
  if op = "+" then
    match stod left with
    | Except.error _ => Except.ok (left ++ right)
    | Except.ok l =>
      match stod right with
      | Except.error _ => Except.ok (left ++ right)
      | Except.ok r => formatNumber (Double.add l r)
  else if op = "-" then
    match numericOperands left right with
    | Except.error f => Except.error f
    | Except.ok (l, r) => formatNumber (Double.sub l r)
  else if op = "*" then
    match numericOperands left right with
    | Except.error f => Except.error f
    | Except.ok (l, r) => formatNumber (Double.mul l r)
  else if op = "/" then
    match numericOperands left right with
    | Except.error f => Except.error f
    | Except.ok (l, r) =>
      if Double.eq r (Double.ofInt 0) then Except.error Fault.divisionByZero
      else formatNumber (Double.div l r)
  else if op = "==" then Except.ok (boolText (left = right))
  else if op = "!=" then Except.ok (boolText (left ≠ right))
  else if op = "<" then
    match numericOperands left right with
    | Except.error f => Except.error f
    | Except.ok (l, r) => Except.ok (boolText (Double.lt l r))
  else if op = ">" then
    match numericOperands left right with
    | Except.error f => Except.error f
    | Except.ok (l, r) => Except.ok (boolText (Double.lt r l))
  else if op = "<=" then
    match numericOperands left right with
    | Except.error f => Except.error f
    | Except.ok (l, r) => Except.ok (boolText (Double.le l r))
  else if op = ">=" then
    match numericOperands left right with
    | Except.error f => Except.error f
    | Except.ok (l, r) => Except.ok (boolText (Double.le r l))
  else if op = "w" then Except.ok (boolText (isTruthy left && isTruthy right))
  else if op = "wla" then Except.ok (boolText (isTruthy left || isTruthy right))
  else Except.ok "0"

/-- The branch `op == "-"` of the `UNARY_OP` case. -/
def negate (operand : String) : Except Fault String :=
  match stod operand with
  | Except.error e => Except.error (Fault.ofStod e)
  | Except.ok val => formatNumber (Double.neg val)

/-- The branch `op == "post++"` of the `UNARY_OP` case for an identifier
operand: the text stored back and the text returned. The text stored back is
`to_string((int)(val + 1))`, the converted value itself, so a conversion
outside the range of `int` is undefined behaviour here. -/
def postIncrement (operand : String) : Except Fault (String × String) :=
  match stod operand with
  | Except.error e => Except.error (Fault.ofStod e)
  | Except.ok val =>
    match (Double.add val (Double.ofInt 1)).toInt with
    | none => Except.error Fault.undefinedBehaviour
    | some next =>
      match formatNumber val with
      | Except.error f => Except.error f
      | Except.ok text => Except.ok (toStringInt next, text)

/-- A pure step inside the interpreter: its value in the current state, or
its fault with the text written so far. -/
def liftExcept {α : Type} (r : Except Fault α) (st : State) : Outcome α :=
  match r with
  | Except.ok a => Outcome.ok a st
  | Except.error f => Outcome.fault f st.out

/-- The access `node->children[i]`; past the end it is undefined behaviour. -/
def child (node : ASTNode) (i : Nat) (st : State) : Outcome ASTNode :=
  match node.children.get? i with
  | some c => Outcome.ok c st
  | none => Outcome.fault Fault.undefinedBehaviour st.out

namespace Interpreter

open NodeType in
mutual

/-- `Interpreter::execute`. -/
def execute : Nat → ASTNode → State → Outcome Unit
  | 0, _, _ => Outcome.outOfFuel
  | fuel + 1, node, st =>
    match node.type with
    | VAR_DECL | ASSIGNMENT =>
      (child node 0 st).bind fun c st0 =>
      (evaluate fuel c st0).bind fun value st1 =>
      Outcome.ok () { st1 with vars := assign st1.vars node.value value }
    | PRINT =>
      (printLoop fuel node.children 0 st).bind fun _ st1 =>
      Outcome.ok () { st1 with out := st1.out ++ "\n" }
    | IF =>
      (child node 0 st).bind fun c st0 =>
      (evaluate fuel c st0).bind fun condValue st1 =>
      if isTruthy condValue then
        (child node 1 st1).bind fun thenBlock st2 => execute fuel thenBlock st2
      else elseLoop fuel (node.children.drop 2) st1
    | WHILE => whileLoop fuel node st
    | FOR =>
      (child node 0 st).bind fun init st0 =>
      (execute fuel init st0).bind fun _ st1 => forLoop fuel node st1
    | FUNCTION_DECL =>
      Outcome.ok () { st with functions := assign st.functions node.value node }
    | RETURN =>
      if node.children.isEmpty then
        Outcome.ok () { st with returnValue := "0", hasReturned := true }
      else
        (child node 0 st).bind fun c st0 =>
        (evaluate fuel c st0).bind fun value st1 =>
        Outcome.ok () { st1 with returnValue := value, hasReturned := true }
    | BLOCK => blockLoop fuel node.children st
    | _ => Outcome.ok () st
termination_by structural x => x

/-- The loop of the `PRINT` case: `i` is the index of the first of `args`. -/
def printLoop : Nat → List ASTNode → Nat → State → Outcome Unit
  | 0, _, _, _ => Outcome.outOfFuel
  | _ + 1, [], _, st => Outcome.ok () st
  | fuel + 1, arg :: rest, i, st =>
    (evaluate fuel arg (if 0 < i then { st with out := st.out ++ " " } else st)).bind
      fun value st1 =>
    printLoop fuel rest (i + 1) { st1 with out := st1.out ++ value }
termination_by structural x => x

/-- The loop `for (i = 2; ...)` of the `IF` case over the remaining children. -/
def elseLoop : Nat → List ASTNode → State → Outcome Unit
  | 0, _, _ => Outcome.outOfFuel
  | _ + 1, [], st => Outcome.ok () st
  | fuel + 1, c :: rest, st =>
    if c.type = IF then
      (child c 0 st).bind fun cond st0 =>
      (evaluate fuel cond st0).bind fun elifCond st1 =>
      if isTruthy elifCond then
        (child c 1 st1).bind fun b st2 => execute fuel b st2
      else elseLoop fuel rest st1
    else if c.type = BLOCK then execute fuel c st
    else elseLoop fuel rest st
termination_by structural x => x

/-- The loop of the `WHILE` case. -/
def whileLoop : Nat → ASTNode → State → Outcome Unit
  | 0, _, _ => Outcome.outOfFuel
  | fuel + 1, node, st =>
    (child node 0 st).bind fun cond st0 =>
    (evaluate fuel cond st0).bind fun condValue st1 =>
    if isTruthy condValue then
      (child node 1 st1).bind fun body st2 =>
      (execute fuel body st2).bind fun _ st3 =>
      if st3.hasReturned then Outcome.ok () st3 else whileLoop fuel node st3
    else Outcome.ok () st1
termination_by structural x => x

/-- The loop of the `FOR` case, entered after the init statement. -/
def forLoop : Nat → ASTNode → State → Outcome Unit
  | 0, _, _ => Outcome.outOfFuel
  | fuel + 1, node, st =>
    (child node 1 st).bind fun cond st0 =>
    (evaluate fuel cond st0).bind fun condValue st1 =>
    if isTruthy condValue then
      (child node 3 st1).bind fun body st2 =>
      (execute fuel body st2).bind fun _ st3 =>
      if st3.hasReturned then Outcome.ok () st3
      else
        (child node 2 st3).bind fun increment st4 =>
        (evaluate fuel increment st4).bind fun _ st5 => forLoop fuel node st5
    else Outcome.ok () st1
termination_by structural x => x

/-- The loop of the `BLOCK` case. -/
def blockLoop : Nat → List ASTNode → State → Outcome Unit
  | 0, _, _ => Outcome.outOfFuel
  | _ + 1, [], st => Outcome.ok () st
  | fuel + 1, stmt :: rest, st =>
    (execute fuel stmt st).bind fun _ st1 =>
    if st1.hasReturned then Outcome.ok () st1 else blockLoop fuel rest st1
termination_by structural x => x

/-- The parameter loop of the `CALL` case:
`vars[funcNode->params[i]] = evaluate(node->children[i])`, the right-hand
side first, while both lists last. -/
def bindLoop : Nat → List String → List ASTNode → State → Outcome Unit
  | 0, _, _, _ => Outcome.outOfFuel
  | fuel + 1, p :: params, arg :: args, st =>
    (evaluate fuel arg st).bind fun value st1 =>
    bindLoop fuel params args { st1 with vars := assign st1.vars p value }
  | _ + 1, _, _, st => Outcome.ok () st
termination_by structural x => x

/-- `Interpreter::evaluate`. -/
def evaluate : Nat → ASTNode → State → Outcome String
  | 0, _, _ => Outcome.outOfFuel
  | fuel + 1, node, st =>
    match node.type with
    | NUMBER | STRING | BOOLEAN => Outcome.ok node.value st
    | IDENTIFIER =>
      match st.vars.lookup node.value with
      | some v => Outcome.ok v st
      | none => Outcome.fault (Fault.undefinedVariable node.value) st.out
    | BINARY_OP =>
      (child node 0 st).bind fun c0 st0 =>
      (evaluate fuel c0 st0).bind fun left st1 =>
      (child node 1 st1).bind fun c1 st2 =>
      (evaluate fuel c1 st2).bind fun right st3 =>
      liftExcept (binaryOp node.op left right) st3
    | UNARY_OP =>
      (child node 0 st).bind fun c0 st0 =>
      (evaluate fuel c0 st0).bind fun operand st1 =>
      if node.op = "-" then liftExcept (negate operand) st1
      else if node.op = "post++" then
        if c0.type = IDENTIFIER then
          (liftExcept (postIncrement operand) st1).bind fun r st2 =>
          Outcome.ok r.2 { st2 with vars := assign st2.vars c0.value r.1 }
        else Outcome.ok "0" st1
      else Outcome.ok "0" st1
    | CALL =>
      match st.functions.lookup node.value with
      | some funcNode =>
        (bindLoop fuel funcNode.params node.children
          { st with hasReturned := false, returnValue := "0" }).bind fun _ st1 =>
        (match funcNode.body with
          | some body => execute fuel body st1
          | none => Outcome.ok () st1).bind fun _ st2 =>
        Outcome.ok st2.returnValue
          { st2 with vars := st.vars, hasReturned := st.hasReturned,
                     returnValue := st.returnValue }
      | none => Outcome.fault (Fault.undefinedFunction node.value) st.out
    | _ => Outcome.ok "0" st
termination_by structural x => x

end

/-- The loop of `Interpreter::run`. -/
def runLoop : Nat → List ASTNode → State → Outcome Unit
  | 0, _, _ => Outcome.outOfFuel
  | _ + 1, [], st => Outcome.ok () st
  | fuel + 1, node :: rest, st =>
    if st.hasReturned then Outcome.ok () st
    else (execute fuel node st).bind fun _ st1 => runLoop fuel rest st1

end Interpreter

/-- `Interpreter::run` on the interpreter state `st`. -/
def run (fuel : Nat) (nodes : List ASTNode) (st : State) : Outcome Unit :=
  Interpreter.runLoop fuel nodes st

/-- What `main` does with the text of the source file: the parser may end the
process before the interpreter starts. -/
inductive Execution where
  | parseFault (f : ParseFault)
  | ran (o : Outcome Unit)
  | outOfFuel
  deriving DecidableEq, Repr

/-- The body of `main` after the file has been read: `tokenize`, `parse`,
`run`, each with the given fuel. -/
def interpret (fuel : Nat) (code : String) : Execution :=
  match tokenize code with
  | none => Execution.outOfFuel
  | some tokens =>
    match parse fuel tokens with
    | ParseResult.ok ast _ => Execution.ran (run fuel ast State.initial)
    | ParseResult.fault f => Execution.parseFault f
    | ParseResult.outOfFuel => Execution.outOfFuel

/-- The state in which `main` leaves the interpreter when the run ends
without a fault. -/
def Execution.final : Execution → Option State
  | Execution.ran (Outcome.ok _ st) => some st
  | _ => none

/-! ## Nodes and states used in the worked examples -/

namespace Example

/-- The body `x = 99; rje3 x`. -/
def bodyF : ASTNode :=
  ASTNode.plain NodeType.BLOCK
    [ASTNode.named NodeType.ASSIGNMENT "x" [ASTNode.leaf NodeType.NUMBER "99"],
     ASTNode.plain NodeType.RETURN [ASTNode.leaf NodeType.IDENTIFIER "x"]]

/-- The declaration `dalla f() \x7b x = 99; rje3 x \x7d`. -/
def declF : ASTNode := ASTNode.function "f" [] bodyF

/-- The call `f()`. -/
def callF : ASTNode := ASTNode.named NodeType.CALL "f" []

/-- The state after `dir x = 1; dalla f() \x7b x = 99; rje3 x \x7d`. -/
def stateX : State := ⟨[("x", "1")], [("f", declF)], "", false, ""⟩

end Example

/-! ## Declarations inside a tree -/

mutual

/-- Whether the tree contains a `FUNCTION_DECL` node for the name `f`. -/
def declares (f : String) : ASTNode → Bool
  | ASTNode.mk t v _ c _ b =>
    (decide (t = NodeType.FUNCTION_DECL) && decide (v = f)) || declaresList f c ||
      declaresOption f b

/-- Whether one of the trees contains a `FUNCTION_DECL` node for `f`. -/
def declaresList (f : String) : List ASTNode → Bool
  | [] => false
  | a :: rest => declares f a || declaresList f rest

/-- Whether the optional tree contains a `FUNCTION_DECL` node for `f`. -/
def declaresOption (f : String) : Option ASTNode → Bool
  | none => false
  | some a => declares f a

end

/-- The finite `double` `d` has the integer value `z`: its mantissa is `z`
scaled by the power of two that its exponent takes back. -/
def Double.IsInt (d : Double) (z : Int) : Prop :=
  ∃ s : Nat, d = Double.finite (z * 2 ^ s) (-(s : Int))

/-! ## Words and string literals as the lexer reads them -/

/-- Whether a token type is one of the keyword types of `enum TokenType`. -/
def TokenType.isKeyword : TokenType → Bool
  | TokenType.DIR | TokenType.KTEB | TokenType.ILA | TokenType.WILA | TokenType.WLA
  | TokenType.MA7AD | TokenType.KOL | TokenType.DALLA | TokenType.KALLA | TokenType.RJE3
  | TokenType.S7I7 | TokenType.GHALAT | TokenType.W => true
  | _ => false

/-- The spelling of one character inside a string literal: newline as `\n`,
tab as `\t`, backslash as `\\`, double quote as `\"`, any other character as
itself. -/
def escapeChar (c : Char) : List Char :=
  if c = LF then [BACKSLASH, 'n']
  else if c = TAB then [BACKSLASH, 't']
  else if c = BACKSLASH then [BACKSLASH, BACKSLASH]
  else if c = DQUOTE then [BACKSLASH, DQUOTE]
  else [c]

/-- The spelling of a text inside a string literal. -/
def escapeText : List Char → List Char
  | [] => []
  | c :: rest => escapeChar c ++ escapeText rest

/-- The string literal for a text: a double quote, the spelling of the text,
a closing double quote. -/
def stringLiteral (s : List Char) : List Char :=
  DQUOTE :: (escapeText s ++ [DQUOTE])

/-- `Lexer(code).tokenize()` followed by `Parser(tokens).parse()`. -/
def parseSource (fuel : Nat) (code : String) : ParseResult (List ASTNode) :=
  match tokenize code with
  | none => ParseResult.outOfFuel
  | some tokens => parse fuel tokens

namespace Example

/-- The tokens of `a wla w b`. -/
def tokensOrAnd : List Token :=
  [⟨TokenType.IDENT, "a", 1, 1⟩, ⟨TokenType.WLA, "wla", 1, 1⟩, ⟨TokenType.W, "w", 1, 1⟩,
   ⟨TokenType.IDENT, "b", 1, 1⟩, Lexer.endToken]

/-- The tokens of `a wla b`. -/
def tokensOr : List Token :=
  [⟨TokenType.IDENT, "a", 1, 1⟩, ⟨TokenType.WLA, "wla", 1, 1⟩, ⟨TokenType.IDENT, "b", 1, 1⟩,
   Lexer.endToken]

/-- The tokens of `ila (s7i7) \x7b \x7d wla w`. -/
def tokensIfOrAnd : List Token :=
  [⟨TokenType.ILA, "ila", 1, 1⟩, ⟨TokenType.LPAREN, "(", 1, 1⟩, ⟨TokenType.S7I7, "s7i7", 1, 1⟩,
   ⟨TokenType.RPAREN, ")", 1, 1⟩, ⟨TokenType.LBRACE, "\x7b", 1, 1⟩,
   ⟨TokenType.RBRACE, "\x7d", 1, 1⟩, ⟨TokenType.WLA, "wla", 1, 1⟩, ⟨TokenType.W, "w", 1, 1⟩,
   Lexer.endToken]

end Example

namespace Parser

/-- No loop of the expression levels goes on at `pos`: the token there is no
binary operator for the six loop tests and is not `++`. -/
def endsExpression (tokens : List Token) (pos : Nat) : Bool :=
  !isOrOp tokens pos && !isAndOp tokens pos && !isEqualityOp tokens pos &&
    !isComparisonOp tokens pos && !isAdditionOp tokens pos && !isMultiplicationOp tokens pos &&
    decide ((peek tokens pos).type ≠ TokenType.PLUS_PLUS)

end Parser

namespace Example

/-- The tokens of `a + b * c`. -/
def tokensSumProduct : List Token :=
  [⟨TokenType.IDENT, "a", 1, 1⟩, ⟨TokenType.PLUS, "+", 1, 1⟩, ⟨TokenType.IDENT, "b", 1, 1⟩,
   ⟨TokenType.STAR, "*", 1, 1⟩, ⟨TokenType.IDENT, "c", 1, 1⟩, Lexer.endToken]

end Example

/-! ## The text of a print statement -/

/-- The text a print statement adds for arguments given as pairs `(w, v)`,
`w` the text the evaluation of the argument writes and `v` its value, the first
of them at index `i`: a space before every argument but the one at index 0,
then `w`, then `v`. -/
def printedText : List (String × String) → Nat → String
  | [], _ => ""
  | (w, v) :: rest, i => (if 0 < i then " " else "") ++ w ++ v ++ printedText rest (i + 1)

/-- Evaluated one after the other from the store `s`, with fuel `k`, the
arguments write and yield the pairs `r` and leave the store `s'`, whatever
the output holds before. -/
def Interpreter.EvaluatesArgs (k : Nat) :
    List ASTNode → State → List (String × String) → State → Prop
  | [], s, r, s' => r = [] ∧ s' = s
  | e :: es, s, r, s' =>
    ∃ w v s1 rest, r = (w, v) :: rest ∧
      (∀ out, Interpreter.evaluate k e { s with out := out } =
        Outcome.ok v { s1 with out := out ++ w }) ∧
      Interpreter.EvaluatesArgs k es s1 rest s'

namespace Example

/-- The declaration `dalla f() \x7b kteb(1); rje3 2 \x7d`. -/
def declNoisy : ASTNode :=
  ASTNode.function "f" []
    (ASTNode.plain NodeType.BLOCK
      [ASTNode.plain NodeType.PRINT [ASTNode.leaf NodeType.NUMBER "1"],
       ASTNode.plain NodeType.RETURN [ASTNode.leaf NodeType.NUMBER "2"]])

/-- The state after that declaration. -/
def stateNoisy : State := ⟨[], [("f", declNoisy)], "", false, ""⟩

/-- The statement `kteb(0, f(), 3)`. -/
def printNoisy : ASTNode :=
  ASTNode.plain NodeType.PRINT
    [ASTNode.leaf NodeType.NUMBER "0", ASTNode.named NodeType.CALL "f" [],
     ASTNode.leaf NodeType.NUMBER "3"]

end Example

/-! ## The shape of if nodes -/

/-- An else-if child: an `IF` node with exactly the two children
`[condition, BLOCK]`. -/
def isElseIf (n : ASTNode) : Bool :=
  decide (n.type = NodeType.IF) &&
    match n.children with
    | [_, b] => decide (b.type = NodeType.BLOCK)
    | _ => false

/-- The children of an if node after the then-block: zero or more else-if
children, then at most one `BLOCK`. -/
def elseTail : List ASTNode → Bool
  | [] => true
  | x :: rest =>
    (isElseIf x && elseTail rest) || (decide (x.type = NodeType.BLOCK) && rest.isEmpty)

/-- The children of an if node: a condition, a `BLOCK`, then `elseTail`. -/
def ifChildren : List ASTNode → Bool
  | _ :: b :: rest => decide (b.type = NodeType.BLOCK) && elseTail rest
  | _ => false

/-- The children of an if node before an else block is added: a condition, a
`BLOCK`, then else-if children only. -/
def ifPrefix : List ASTNode → Bool
  | _ :: b :: rest => decide (b.type = NodeType.BLOCK) && rest.all isElseIf
  | _ => false

mutual

/-- Every `IF` node of the tree has children of the form `ifChildren`. -/
def ifShaped : ASTNode → Bool
  | ASTNode.mk t _ _ c _ b =>
    (decide (t ≠ NodeType.IF) || ifChildren c) && ifShapedList c && ifShapedOption b

/-- Every `IF` node of the trees has children of the form `ifChildren`. -/
def ifShapedList : List ASTNode → Bool
  | [] => true
  | a :: rest => ifShaped a && ifShapedList rest

/-- Every `IF` node of the optional tree has children of the form `ifChildren`. -/
def ifShapedOption : Option ASTNode → Bool
  | none => true
  | some a => ifShaped a

end

namespace Example

/-- The tokens of `ila (a) \x7b \x7d wila (b) \x7b \x7d wla \x7b \x7d`. -/
def tokensIfElse : List Token :=
  [⟨TokenType.ILA, "ila", 1, 1⟩, ⟨TokenType.LPAREN, "(", 1, 1⟩, ⟨TokenType.IDENT, "a", 1, 1⟩,
   ⟨TokenType.RPAREN, ")", 1, 1⟩, ⟨TokenType.LBRACE, "\x7b", 1, 1⟩,
   ⟨TokenType.RBRACE, "\x7d", 1, 1⟩, ⟨TokenType.WILA, "wila", 1, 1⟩,
   ⟨TokenType.LPAREN, "(", 1, 1⟩, ⟨TokenType.IDENT, "b", 1, 1⟩, ⟨TokenType.RPAREN, ")", 1, 1⟩,
   ⟨TokenType.LBRACE, "\x7b", 1, 1⟩, ⟨TokenType.RBRACE, "\x7d", 1, 1⟩,
   ⟨TokenType.WLA, "wla", 1, 1⟩, ⟨TokenType.LBRACE, "\x7b", 1, 1⟩,
   ⟨TokenType.RBRACE, "\x7d", 1, 1⟩, Lexer.endToken]

/-- The forest of `tokensIfElse`. -/
def forestIfElse : List ASTNode :=
  [ASTNode.plain NodeType.IF
    [ASTNode.leaf NodeType.IDENTIFIER "a", ASTNode.plain NodeType.BLOCK [],
     ASTNode.plain NodeType.IF
       [ASTNode.leaf NodeType.IDENTIFIER "b", ASTNode.plain NodeType.BLOCK []],
     ASTNode.plain NodeType.BLOCK []]]

end Example

/-! ## Relations between results, used in the proofs -/

/-- The result `r` is out of fuel or equal to `r'`. -/
def Outcome.Ext {α : Type} (r r' : Outcome α) : Prop :=
  r = Outcome.outOfFuel ∨ r = r'

/-- The result `r` is out of fuel or equal to `r'`. -/
def ParseResult.Ext {α : Type} (r r' : ParseResult α) : Prop :=
  r = ParseResult.outOfFuel ∨ r = r'

/-- The value of a successful result has the property `P`. -/
def ParseResult.All {α : Type} (P : α → Prop) : ParseResult α → Prop
  | ParseResult.ok a _ => P a
  | _ => True

namespace Example

/-- The condition `i < 3`. -/
def condLt3 : ASTNode :=
  ASTNode.binary "<" (ASTNode.leaf NodeType.IDENTIFIER "i") (ASTNode.leaf NodeType.NUMBER "3")

/-- The assignment `i = i + 1`. -/
def incAssign : ASTNode :=
  ASTNode.named NodeType.ASSIGNMENT "i"
    [ASTNode.binary "+" (ASTNode.leaf NodeType.IDENTIFIER "i") (ASTNode.leaf NodeType.NUMBER "1")]

/-- The statement `kol (i = 0; i < 3; i = i + 1) \x7b \x7d`. -/
def forAssign : ASTNode :=
  ASTNode.plain NodeType.FOR
    [ASTNode.named NodeType.ASSIGNMENT "i" [ASTNode.leaf NodeType.NUMBER "0"], condLt3,
     incAssign, ASTNode.plain NodeType.BLOCK []]

/-- The state after `i = 0`. -/
def stateI0 : State := ⟨[("i", "0")], [], "", false, ""⟩

end Example

namespace Example

/-- The tokens of `a + b = 2`. -/
def tokensSumAssign : List Token :=
  [⟨TokenType.IDENT, "a", 1, 1⟩, ⟨TokenType.PLUS, "+", 1, 1⟩, ⟨TokenType.IDENT, "b", 1, 1⟩,
   ⟨TokenType.EQUAL, "=", 1, 1⟩, ⟨TokenType.NUMBER, "2", 1, 1⟩, Lexer.endToken]

end Example

/-! ## Function tables -/

/-- The table after the declarations `ds` have been executed in order:
`functions[d->value] = d` for each. -/
def declareAll (t : List (String × ASTNode)) (ds : List ASTNode) : List (String × ASTNode) :=
  ds.foldl (fun t d => assign t d.value d) t

/-- The table `t'` is the table `t` updated by function declarations. -/
def TableUpdated (t t' : List (String × ASTNode)) : Prop :=
  ∃ ds : List ASTNode, (∀ d ∈ ds, d.type = NodeType.FUNCTION_DECL) ∧ t' = declareAll t ds

/-- The state of a successful outcome has the property `P`. -/
def Outcome.All {α : Type} (P : State → Prop) : Outcome α → Prop
  | Outcome.ok _ st => P st
  | _ => True

namespace Example

/-- The program `dalla g() \x7b rje3 1 \x7d dalla f() \x7b dalla g() \x7b rje3 7 \x7d dir t = 1 \x7d`
followed by `kteb(g()); dir r = f(); kteb(g())`. -/
def sourceRedeclare : String :=
  "dalla g() \x7b rje3 1 \x7d dalla f() \x7b dalla g() \x7b rje3 7 \x7d dir t = 1 \x7d " ++
    "kteb(g()); dir r = f(); kteb(g())"

/-- The declaration `dalla g() \x7b rje3 7 \x7d`. -/
def declInner : ASTNode :=
  ASTNode.function "g" []
    (ASTNode.plain NodeType.BLOCK
      [ASTNode.plain NodeType.RETURN [ASTNode.leaf NodeType.NUMBER "7"]])

/-- The declaration `dalla f() \x7b dalla g() \x7b rje3 7 \x7d dir t = 1 \x7d`. -/
def declOuter : ASTNode :=
  ASTNode.function "f" []
    (ASTNode.plain NodeType.BLOCK
      [declInner, ASTNode.named NodeType.VAR_DECL "t" [ASTNode.leaf NodeType.NUMBER "1"]])

/-- The state after the declaration of `f`. -/
def stateOuter : State := ⟨[], [("f", declOuter)], "", false, ""⟩

/-- The state after the call `f()` in `stateOuter`. -/
def stateInner : State := ⟨[], [("f", declOuter), ("g", declInner)], "", false, ""⟩

end Example

namespace Example

end Example

/-! ## The counting for loop -/

/-- The lines `k`, `k + 1`, .. (`m` of them), each followed by a newline. -/
def countedLines : Nat → Nat → String
  | _, 0 => ""
  | k, m + 1 => toStringInt k ++ "\n" ++ countedLines (k + 1) m

namespace Example

/-- The body `\x7b kteb(i) \x7d`. -/
def printI : ASTNode :=
  ASTNode.plain NodeType.BLOCK
    [ASTNode.plain NodeType.PRINT [ASTNode.leaf NodeType.IDENTIFIER "i"]]

/-- The statement `kol (i = 0; i < n; i++) \x7b kteb(i) \x7d`. -/
def forCount (n : Nat) : ASTNode :=
  ASTNode.plain NodeType.FOR
    [ASTNode.named NodeType.ASSIGNMENT "i" [ASTNode.leaf NodeType.NUMBER "0"],
     ASTNode.binary "<" (ASTNode.leaf NodeType.IDENTIFIER "i")
       (ASTNode.leaf NodeType.NUMBER (toStringInt n)),
     ASTNode.unaryOp "post++" (ASTNode.leaf NodeType.IDENTIFIER "i"), printI]

end Example

namespace Example

end Example


namespace Parser

/-- The productions of the expression levels in the order of their calls:
`logicalOr` (0) calls `logicalAnd` (1), which calls `equality` (2), then
`comparison` (3), `addition` (4), `multiplication` (5) and `unary` (6). -/
def level : Nat → Nat → List Token → Nat → ParseResult ASTNode
  | 0 => logicalOr
  | 1 => logicalAnd
  | 2 => equality
  | 3 => comparison
  | 4 => addition
  | 5 => multiplication
  | _ => unary

/-- The loop test of each of the six binary levels. -/
def levelOp : Nat → List Token → Nat → Bool
  | 0 => isOrOp
  | 1 => isAndOp
  | 2 => isEqualityOp
  | 3 => isComparisonOp
  | 4 => isAdditionOp
  | 5 => isMultiplicationOp
  | _ => fun _ _ => false

/-- The left-nested tree over a first operand `expr` that ends at `pos` and
the operands that follow, each with the position where it ends: the operator
of a node is the token at the position where its left operand ends. -/
def leftNested (tokens : List Token) : ASTNode → Nat → List (ASTNode × Nat) → ASTNode
  | expr, _, [] => expr
  | expr, pos, (right, pos1) :: rest =>
    leftNested tokens (ASTNode.binary (peek tokens pos).value expr right) pos1 rest

/-- The position where the last of the operands ends. -/
def lastPos : Nat → List (ASTNode × Nat) → Nat
  | pos, [] => pos
  | _, (_, pos1) :: rest => lastPos pos1 rest

/-- From `pos` on there follow, for each of `operands` in turn, an operator of
the level `l` and an operand that the next level parses, and after the last
of them no operator of the level. -/
def operandsFollow (l fuel : Nat) (tokens : List Token) : Nat → List (ASTNode × Nat) → Bool
  | pos, [] => !levelOp l tokens pos
  | pos, (right, pos1) :: rest =>
    levelOp l tokens pos &&
      decide (level (l + 1) fuel tokens (advance tokens pos) = ParseResult.ok right pos1) &&
      operandsFollow l fuel tokens pos1 rest

end Parser

namespace Example

/-- The tokens of `a - b + c - d`. -/
def tokensDifference : List Token :=
  [⟨TokenType.IDENT, "a", 1, 1⟩, ⟨TokenType.MINUS, "-", 1, 1⟩, ⟨TokenType.IDENT, "b", 1, 1⟩,
   ⟨TokenType.PLUS, "+", 1, 1⟩, ⟨TokenType.IDENT, "c", 1, 1⟩, ⟨TokenType.MINUS, "-", 1, 1⟩,
   ⟨TokenType.IDENT, "d", 1, 1⟩, Lexer.endToken]

end Example

/-! # Theorems -/

namespace Lexer

theorem skipWhitespace_length (s : List Char) : (skipWhitespace s).length ≤ s.length := by
  induction s with
  | nil => simp [skipWhitespace]
  | cons c rest ih =>
    unfold skipWhitespace
    split
    · exact Nat.le_succ_of_le ih
    · exact Nat.le_refl _

theorem skipToLineEnd_length (s : List Char) : (skipToLineEnd s).length ≤ s.length := by
  induction s with
  | nil => simp [skipToLineEnd]
  | cons c rest ih =>
    unfold skipToLineEnd
    split
    · exact Nat.le_succ_of_le ih
    · exact Nat.le_refl _

theorem skipComment_length (s : List Char) : (skipComment s).length ≤ s.length := by
  unfold skipComment
  split
  · refine Nat.le_trans (skipToLineEnd_length _) ?_
    simp [advance]
  · exact Nat.le_refl _

theorem skipBlanks_length (s : List Char) : (skipBlanks s).length ≤ s.length := by
  unfold skipBlanks
  simp only
  split
  · exact Nat.le_trans (skipWhitespace_length _)
      (Nat.le_trans (skipComment_length _) (skipWhitespace_length _))
  · exact skipWhitespace_length _

theorem stringBody_length : ∀ (n : Nat) (s : List Char), s.length ≤ n →
    (stringBody s).2.length ≤ s.length := by
  intro n
  induction n using Nat.strong_induction_on with
  | _ n ih =>
    intro s hs
    match s with
    | [] => simp [stringBody]
    | c :: rest =>
      unfold stringBody
      split
      · simp
      · split
        · simp
        · split
          · match rest with
            | [] => simp
            | e :: rest2 =>
              simp only [List.length_cons] at hs ⊢
              have := ih rest2.length (by omega) rest2 (Nat.le_refl _)
              omega
          · simp only [List.length_cons] at hs ⊢
            have := ih rest.length (by omega) rest (Nat.le_refl _)
            omega

theorem identChars_length (s : List Char) : (identChars s).2.length ≤ s.length := by
  induction s with
  | nil => simp [identChars]
  | cons c rest ih =>
    unfold identChars
    split
    · exact Nat.le_succ_of_le ih
    · exact Nat.le_refl _

theorem digitChars_length (s : List Char) : (digitChars s).2.length ≤ s.length := by
  induction s with
  | nil => simp [digitChars]
  | cons c rest ih =>
    unfold digitChars
    split
    · exact Nat.le_succ_of_le ih
    · exact Nat.le_refl _

theorem keywords_ne_END (r : String) (t : TokenType) (h : keywords.lookup r = some t) :
    t ≠ TokenType.END := by
  intro ht
  subst ht
  simp only [keywords, List.lookup] at h
  repeat' split at h
  all_goals simp at h

theorem string_spec (c : Char) (rest : List Char) :
    (string (c :: rest)).2.length < (c :: rest).length ∧
      (string (c :: rest)).1.type ≠ TokenType.END := by
  constructor
  · simp only [string, advance, List.drop_succ_cons, List.drop_zero, List.length_cons]
    exact Nat.lt_succ_of_le (stringBody_length _ _ (Nat.le_refl _))
  · simp [string]

theorem identifier_spec (c : Char) (rest : List Char) (hc : (isalpha c || c = '_') = true) :
    (identifier (c :: rest)).2.length < (c :: rest).length ∧
      (identifier (c :: rest)).1.type ≠ TokenType.END := by
  have h1 : (isalnum c || c = '_') = true := by
    simp only [isalnum, Bool.or_eq_true, decide_eq_true_eq] at hc ⊢
    rcases hc with h | h
    · exact Or.inl (Or.inl h)
    · exact Or.inr h
  have h2 : (identChars (c :: rest)).2 = (identChars rest).2 := by
    rw [identChars, if_pos h1]
  unfold identifier
  simp only
  split
  · next t ht =>
    exact ⟨by rw [h2]; exact Nat.lt_succ_of_le (identChars_length _), keywords_ne_END _ _ ht⟩
  · exact ⟨by rw [h2]; exact Nat.lt_succ_of_le (identChars_length _), by simp⟩

theorem number_spec (c : Char) (rest : List Char) (hc : isdigit c = true) :
    (number (c :: rest)).2.length < (c :: rest).length ∧
      (number (c :: rest)).1.type ≠ TokenType.END := by
  have h2 : (digitChars (c :: rest)).2 = (digitChars rest).2 := by
    rw [digitChars, if_pos hc]
  have h3 := digitChars_length rest
  unfold number
  simp only
  split
  · refine ⟨?_, by simp⟩
    rw [h2]
    have h4 := digitChars_length (advance (digitChars rest).2)
    have h5 : (advance (digitChars rest).2).length ≤ (digitChars rest).2.length := by
      simp [advance]
    simp only [List.length_cons]
    omega
  · exact ⟨by rw [h2]; exact Nat.lt_succ_of_le h3, by simp⟩

theorem ite_cases {α : Type} {P : α → Prop} {c : Prop} [Decidable c] {a b : α}
    (ha : P a) (hb : P b) : P (if c then a else b) := by
  split
  · exact ha
  · exact hb

theorem operatorToken_spec (c : Char) (rest : List Char) :
    (operatorToken c (c :: rest)).2.length < (c :: rest).length ∧
      (operatorToken c (c :: rest)).1.type ≠ TokenType.END := by
  have h5 : (advance rest).length ≤ rest.length := by simp [advance]
  let P : Token × List Char → Prop := fun p =>
    p.2.length < (c :: rest).length ∧ p.1.type ≠ TokenType.END
  have base : ∀ (t : Token) (r : List Char), t.type ≠ TokenType.END → r.length ≤ rest.length →
      P (t, r) := fun t r ht hr => ⟨Nat.lt_succ_of_le hr, ht⟩
  show P (operatorToken c (c :: rest))
  unfold operatorToken
  simp only [advance, List.drop_succ_cons, List.drop_zero] at h5 ⊢
  repeat' apply ite_cases
  all_goals first
    | exact base _ _ (by simp) (Nat.le_refl _)
    | exact base _ _ (by simp) h5

theorem nextToken_spec (c : Char) (rest : List Char) :
    (nextToken c (c :: rest)).2.length < (c :: rest).length ∧
      (nextToken c (c :: rest)).1.type ≠ TokenType.END := by
  unfold nextToken
  split
  · exact string_spec c rest
  · split
    · next h => exact identifier_spec c rest h
    · split
      · next h => exact number_spec c rest h
      · exact operatorToken_spec c rest

theorem peek_ne_NUL (s : List Char) (h : peek s 0 ≠ NUL) : ∃ rest, s = peek s 0 :: rest := by
  match s with
  | [] => simp [peek] at h
  | c :: rest => exact ⟨rest, by simp [peek]⟩

theorem tokenizeLoop_total : ∀ (fuel : Nat) (s : List Char), s.length < fuel →
    ∃ toks, tokenizeLoop fuel s = some (toks ++ [endToken]) ∧
      ∀ t ∈ toks, t.type ≠ TokenType.END := by
  intro fuel
  induction fuel with
  | zero => intro s h; omega
  | succ fuel ih =>
    intro s hs
    unfold tokenizeLoop
    split
    · exact ⟨[], by simp, by simp⟩
    · simp only
      split
      · exact ⟨[], by simp, by simp⟩
      · next hc =>
        obtain ⟨rest, hrest⟩ := peek_ne_NUL _ hc
        have hlen := skipBlanks_length s
        have hspec := nextToken_spec (peek (skipBlanks s) 0) rest
        rw [← hrest] at hspec
        obtain ⟨toks, h1, h2⟩ := ih (nextToken (peek (skipBlanks s) 0) (skipBlanks s)).2
          (by omega)
        rw [h1]
        refine ⟨(nextToken (peek (skipBlanks s) 0) (skipBlanks s)).1 :: toks, by simp, ?_⟩
        intro t ht
        rcases List.mem_cons.mp ht with h | h
        · rw [h]; exact hspec.2
        · exact h2 t h

end Lexer

/-! ## The lexer always ends with one end token -/

/-- Claim C9: for every source text, `tokenize` returns (the fuel never runs
out) a token sequence that ends with the end-of-input token and holds no
other end-of-input token. -/
theorem tokenize_total (src : String) :
    ∃ toks, tokenize src = some (toks ++ [Lexer.endToken]) ∧
      ∀ t ∈ toks, t.type ≠ TokenType.END :=
  Lexer.tokenizeLoop_total (src.length + 1) src.data (Nat.lt_succ_self _)

/-- Claim C9 at the text `x = 1`. -/
theorem tokenize_total_witness :
    ∃ toks, tokenize "x = 1" = some (toks ++ [Lexer.endToken]) ∧
      ∀ t ∈ toks, t.type ≠ TokenType.END :=
  tokenize_total "x = 1"

/-! ## Comments -/

/-- Claim C10, at the failing input: two comment lines in a row. The first is
skipped with the white space after it, and the second is then read as the
tokens `/`, `/` and the identifier `b`, because the loop body skips at most
one comment before it reads a token. -/
theorem tokenize_two_comments :
    tokenize "//a\n//b" =
      some [⟨TokenType.SLASH, "/", 1, 1⟩, ⟨TokenType.SLASH, "/", 1, 1⟩,
        ⟨TokenType.IDENT, "b", 1, 1⟩, Lexer.endToken] := by
  decide

/-! ## Truthiness -/

/-- Claim C2: `isTruthy v` is false exactly for the four texts `ghalat`, `0`,
the empty text and `0.0`; `0.00` and `ghalat` followed by a space are truthy. -/
theorem isTruthy_false_iff :
    (∀ v : String, isTruthy v = false ↔ (v = "ghalat" ∨ v = "0" ∨ v = "" ∨ v = "0.0")) ∧
      isTruthy "0.00" = true ∧ isTruthy "ghalat " = true := by
  refine ⟨fun v => ?_, by decide, by decide⟩
  unfold isTruthy
  split
  · next h => exact ⟨fun _ => h, fun _ => rfl⟩
  · next h => exact ⟨fun h1 => by simp at h1, fun h1 => absurd h1 h⟩

/-! ## Sequencing -/

theorem Outcome.bind_eq_ok {α β : Type} (r : Outcome α) (f : α → State → Outcome β)
    (b : β) (s : State) (h : r.bind f = Outcome.ok b s) :
    ∃ a s1, r = Outcome.ok a s1 ∧ f a s1 = Outcome.ok b s := by
  cases r with
  | ok a s1 => exact ⟨a, s1, rfl, h⟩
  | fault e out => simp [Outcome.bind] at h
  | outOfFuel => simp [Outcome.bind] at h

/-! ## Calls -/

/-- Claim C1: a call to a defined function that ends without a fault leaves
the variable store, the has-returned flag and the pending return value as
they were before the call, and yields the return value the body left; after
`dir x = 1; dalla f() \x7b x = 99; rje3 x \x7d; dir r = f();` the store has
`x = 1` and `r = 99`. -/
theorem call_restores :
    (∀ (fuel : Nat) (node funcNode : ASTNode) (st st' : State) (v : String),
      node.type = NodeType.CALL →
      st.functions.lookup node.value = some funcNode →
      Interpreter.evaluate fuel node st = Outcome.ok v st' →
      st'.vars = st.vars ∧ st'.hasReturned = st.hasReturned ∧
        st'.returnValue = st.returnValue ∧
        ∃ n st1 st2, fuel = n + 1 ∧
          Interpreter.bindLoop n funcNode.params node.children
            { st with hasReturned := false, returnValue := "0" } = Outcome.ok () st1 ∧
          (match funcNode.body with
            | some body => Interpreter.execute n body st1
            | none => Outcome.ok () st1) = Outcome.ok () st2 ∧
          v = st2.returnValue) ∧
      (interpret 100 "dir x = 1; dalla f() \x7b x = 99; rje3 x \x7d; dir r = f();").final.map
        State.vars = some [("x", "1"), ("r", "99")] := by
  refine ⟨?_, by decide!⟩
  intro fuel node funcNode st st' v htype hdef hrun
  cases fuel with
  | zero => simp [Interpreter.evaluate] at hrun
  | succ n =>
    rw [Interpreter.evaluate] at hrun
    simp only [htype, hdef] at hrun
    obtain ⟨_, st1, h1, hrun⟩ := Outcome.bind_eq_ok _ _ _ _ hrun
    obtain ⟨_, st2, h2, hrun⟩ := Outcome.bind_eq_ok _ _ _ _ hrun
    simp only [Outcome.ok.injEq] at hrun
    obtain ⟨hv, hst⟩ := hrun
    subst hst
    exact ⟨rfl, rfl, rfl, n, st1, st2, rfl, h1, h2, hv.symm⟩

/-- Claim C1 at the call `f()` in the state after
`dir x = 1; dalla f() \x7b x = 99; rje3 x \x7d`: the call yields `99` and the
state is the one before the call. -/
theorem call_restores_witness :
    Example.callF.type = NodeType.CALL ∧
      Example.stateX.functions.lookup Example.callF.value = some Example.declF ∧
      Interpreter.evaluate 10 Example.callF Example.stateX = Outcome.ok "99" Example.stateX ∧
      (Example.stateX.vars = Example.stateX.vars ∧
        Example.stateX.hasReturned = Example.stateX.hasReturned ∧
        Example.stateX.returnValue = Example.stateX.returnValue ∧
        ∃ n st1 st2, 10 = n + 1 ∧
          Interpreter.bindLoop n Example.declF.params Example.callF.children
            { Example.stateX with hasReturned := false, returnValue := "0" } =
              Outcome.ok () st1 ∧
          (match Example.declF.body with
            | some body => Interpreter.execute n body st1
            | none => Outcome.ok () st1) = Outcome.ok () st2 ∧
          "99" = st2.returnValue) :=
  ⟨by decide!, by decide!, by decide!,
    call_restores.1 10 Example.callF Example.declF Example.stateX Example.stateX "99"
      (by decide!) (by decide!) (by decide!)⟩

/-! ## Binary operators -/

theorem evaluate_binary (n : Nat) (op : String) (c0 c1 : ASTNode) (st st1 st2 : State)
    (l r : String) (h0 : Interpreter.evaluate n c0 st = Outcome.ok l st1)
    (h1 : Interpreter.evaluate n c1 st1 = Outcome.ok r st2) :
    Interpreter.evaluate (n + 1) (ASTNode.binary op c0 c1) st =
      liftExcept (binaryOp op l r) st2 := by
  rw [Interpreter.evaluate]
  simp [ASTNode.binary, ASTNode.type, ASTNode.children, ASTNode.op, child, Outcome.bind, h0, h1]

/-- Claim C5: `==` yields `s7i7` exactly when the two operand texts are the
same string and `ghalat` otherwise, `!=` the opposite; `3 == 3.0` yields
`ghalat` and `1 + 2 == 3` yields `s7i7`. -/
theorem equality_is_textual :
    (∀ (n : Nat) (c0 c1 : ASTNode) (st st1 st2 : State) (l r : String),
      Interpreter.evaluate n c0 st = Outcome.ok l st1 →
      Interpreter.evaluate n c1 st1 = Outcome.ok r st2 →
      Interpreter.evaluate (n + 1) (ASTNode.binary "==" c0 c1) st =
          Outcome.ok (if l = r then "s7i7" else "ghalat") st2 ∧
        Interpreter.evaluate (n + 1) (ASTNode.binary "!=" c0 c1) st =
          Outcome.ok (if l = r then "ghalat" else "s7i7") st2) ∧
      (interpret 100 "kteb(3 == 3.0, 1 + 2 == 3)").final.map State.out =
        some "ghalat s7i7\n" := by
  refine ⟨?_, by decide!⟩
  intro n c0 c1 st st1 st2 l r h0 h1
  rw [evaluate_binary n "==" c0 c1 st st1 st2 l r h0 h1,
    evaluate_binary n "!=" c0 c1 st st1 st2 l r h0 h1]
  by_cases h : l = r <;> simp [binaryOp, boolText, liftExcept, h]

/-- Claim C5 at the operand nodes `3` and `3.0`. -/
theorem equality_is_textual_witness :
    Interpreter.evaluate 1 (ASTNode.leaf NodeType.NUMBER "3") State.initial =
        Outcome.ok "3" State.initial ∧
      Interpreter.evaluate 1 (ASTNode.leaf NodeType.NUMBER "3.0") State.initial =
        Outcome.ok "3.0" State.initial ∧
      (Interpreter.evaluate 2 (ASTNode.binary "==" (ASTNode.leaf NodeType.NUMBER "3")
          (ASTNode.leaf NodeType.NUMBER "3.0")) State.initial =
          Outcome.ok (if "3" = "3.0" then "s7i7" else "ghalat") State.initial ∧
        Interpreter.evaluate 2 (ASTNode.binary "!=" (ASTNode.leaf NodeType.NUMBER "3")
          (ASTNode.leaf NodeType.NUMBER "3.0")) State.initial =
          Outcome.ok (if "3" = "3.0" then "ghalat" else "s7i7") State.initial) :=
  ⟨by decide!, by decide!,
    equality_is_textual.1 1 (ASTNode.leaf NodeType.NUMBER "3")
      (ASTNode.leaf NodeType.NUMBER "3.0") State.initial State.initial State.initial
      "3" "3.0" (by decide!) (by decide!)⟩

/-- Claim C7: when both operand texts convert and the right-hand value is
zero, `left / right` is the division-by-zero fault and yields no value; a
statement that faults ends the run with that fault and the output written so
far, whatever statements follow; `kteb(1); kteb(5 / 0); kteb(2)` prints the
line `1` and nothing more. -/
theorem division_by_zero :
    (∀ (n : Nat) (c0 c1 : ASTNode) (st st1 st2 : State) (l r : String) (dl : Double)
        (e : Int),
      Interpreter.evaluate n c0 st = Outcome.ok l st1 →
      Interpreter.evaluate n c1 st1 = Outcome.ok r st2 →
      stod l = Except.ok dl → stod r = Except.ok (Double.finite 0 e) →
      Interpreter.evaluate (n + 1) (ASTNode.binary "/" c0 c1) st =
        Outcome.fault Fault.divisionByZero st2.out) ∧
      (∀ (n : Nat) (stmt : ASTNode) (rest : List ASTNode) (st : State) (f : Fault)
          (out : String),
        st.hasReturned = false →
        Interpreter.execute n stmt st = Outcome.fault f out →
        run (n + 1) (stmt :: rest) st = Outcome.fault f out) ∧
      interpret 100 "kteb(1); kteb(5 / 0); kteb(2)" =
        Execution.ran (Outcome.fault Fault.divisionByZero "1\n") := by
  refine ⟨?_, ?_, by decide!⟩
  · intro n c0 c1 st st1 st2 l r dl e h0 h1 hl hr
    rw [evaluate_binary n "/" c0 c1 st st1 st2 l r h0 h1]
    simp [binaryOp, numericOperands, hl, hr, Double.eq, Double.ofInt, liftExcept]
  · intro n stmt rest st f out hret h
    simp [run, Interpreter.runLoop, hret, h, Outcome.bind]

/-- Claim C7 at the operand nodes `5` and `0`. -/
theorem division_by_zero_witness :
    Interpreter.evaluate 1 (ASTNode.leaf NodeType.NUMBER "5") State.initial =
        Outcome.ok "5" State.initial ∧
      Interpreter.evaluate 1 (ASTNode.leaf NodeType.NUMBER "0") State.initial =
        Outcome.ok "0" State.initial ∧
      stod "5" = Except.ok (Double.finite 5629499534213120 (-50)) ∧
      stod "0" = Except.ok (Double.finite 0 0) ∧
      Interpreter.evaluate 2 (ASTNode.binary "/" (ASTNode.leaf NodeType.NUMBER "5")
          (ASTNode.leaf NodeType.NUMBER "0")) State.initial =
        Outcome.fault Fault.divisionByZero State.initial.out :=
  ⟨by decide!, by decide!, by decide!, by decide!,
    division_by_zero.1 1 (ASTNode.leaf NodeType.NUMBER "5") (ASTNode.leaf NodeType.NUMBER "0")
      State.initial State.initial State.initial "5" "0" (Double.finite 5629499534213120 (-50)) 0
      (by decide!) (by decide!) (by decide!) (by decide!)⟩

theorem Parser.advance_of_type_ne (tokens : List Token) (pos : Nat)
    (h : (Parser.peek tokens pos).type ≠ (Parser.peek tokens (pos + 1)).type) :
    Parser.advance tokens pos = pos + 1 := by
  unfold Parser.advance
  split
  · rfl
  · next hlt =>
    exfalso
    apply h
    unfold Parser.peek
    rw [if_neg hlt, if_neg (by omega)]

theorem Parser.primary_unexpected (fuel : Nat) (tokens : List Token) (pos : Nat)
    (h : (Parser.peek tokens pos).type = TokenType.DIR) :
    Parser.primary (fuel + 1) tokens pos =
      ParseResult.fault (ParseFault.unexpected (Parser.peek tokens pos).value) := by
  rw [Parser.primary]
  simp [h]

theorem Parser.assignmentOrExpression_dir (fuel : Nat) (tokens : List Token) (pos : Nat)
    (h : (Parser.peek tokens pos).type = TokenType.DIR) :
    Parser.assignmentOrExpression (fuel + 11) tokens pos =
      ParseResult.fault (ParseFault.unexpected (Parser.peek tokens pos).value) := by
  rw [Parser.assignmentOrExpression, Parser.expression, Parser.logicalOr, Parser.logicalAnd,
    Parser.equality, Parser.comparison, Parser.addition, Parser.multiplication, Parser.unary,
    if_neg (by rw [h]; decide), Parser.postfixExpr, Parser.primary_unexpected _ _ _ h]
  rfl

/-- Claim C3, as stated, fails: the text with `dir` in the header of the loop
is rejected by the parser, and nothing is run. -/
theorem for_header_rejects_dir :
    interpret 100 "kol (dir i = 0; i < 3; i++) \x7b kteb(i); \x7d" =
      Execution.parseFault (ParseFault.unexpected "dir") := by
  decide!

/-- Claim C3, amended: the text `kol (i = 0; i < 3; i++) \x7b kteb(i); \x7d`,
whose init is an assignment, prints the three lines `0`, `1`, `2` and leaves
`i` bound to `3`; the init of a for loop is parsed as an assignment or
expression, so a header that starts with `dir` is a parse fault. -/
theorem for_loop_counts :
    interpret 100 "kol (i = 0; i < 3; i++) \x7b kteb(i); \x7d" =
        Execution.ran (Outcome.ok () ⟨[("i", "3")], [], "", false, "0\n1\n2\n"⟩) ∧
      ∀ (fuel : Nat) (tokens : List Token) (pos : Nat),
        (Parser.peek tokens pos).type = TokenType.KOL →
        (Parser.peek tokens (pos + 1)).type = TokenType.LPAREN →
        (Parser.peek tokens (pos + 2)).type = TokenType.DIR →
        Parser.forStatement (fuel + 12) tokens pos =
          ParseResult.fault (ParseFault.unexpected (Parser.peek tokens (pos + 2)).value) := by
  refine ⟨by decide!, ?_⟩
  intro fuel tokens pos h0 h1 h2
  have a0 : Parser.advance tokens pos = pos + 1 :=
    Parser.advance_of_type_ne tokens pos (by rw [h0, h1]; decide)
  have a1 : Parser.advance tokens (pos + 1) = pos + 2 :=
    Parser.advance_of_type_ne tokens (pos + 1) (by rw [h1, h2]; decide)
  rw [Parser.forStatement]
  simp only [Parser.consume, Parser.check, h0, h1, a0, a1, decide_True, if_true,
    ParseResult.bind, Parser.assignmentOrExpression_dir fuel tokens (pos + 2) h2]

/-- Claim C3, amended, at the tokens `kol ( dir`. -/
theorem for_loop_counts_witness :
    (Parser.peek [⟨TokenType.KOL, "kol", 1, 1⟩, ⟨TokenType.LPAREN, "(", 1, 1⟩,
        ⟨TokenType.DIR, "dir", 1, 1⟩, Lexer.endToken] 0).type = TokenType.KOL ∧
      (Parser.peek [⟨TokenType.KOL, "kol", 1, 1⟩, ⟨TokenType.LPAREN, "(", 1, 1⟩,
        ⟨TokenType.DIR, "dir", 1, 1⟩, Lexer.endToken] (0 + 1)).type = TokenType.LPAREN ∧
      (Parser.peek [⟨TokenType.KOL, "kol", 1, 1⟩, ⟨TokenType.LPAREN, "(", 1, 1⟩,
        ⟨TokenType.DIR, "dir", 1, 1⟩, Lexer.endToken] (0 + 2)).type = TokenType.DIR ∧
      Parser.forStatement (0 + 12) [⟨TokenType.KOL, "kol", 1, 1⟩, ⟨TokenType.LPAREN, "(", 1, 1⟩,
        ⟨TokenType.DIR, "dir", 1, 1⟩, Lexer.endToken] 0 =
          ParseResult.fault (ParseFault.unexpected (Parser.peek
            [⟨TokenType.KOL, "kol", 1, 1⟩, ⟨TokenType.LPAREN, "(", 1, 1⟩,
              ⟨TokenType.DIR, "dir", 1, 1⟩, Lexer.endToken] (0 + 2)).value) :=
  ⟨by decide, by decide, by decide,
    for_loop_counts.2 0 _ 0 (by decide) (by decide) (by decide)⟩

/-! ## The function table holds only executed declarations -/

theorem lookup_mem {α : Type} (m : List (String × α)) (k : String) (v : α)
    (h : m.lookup k = some v) : (k, v) ∈ m := by
  induction m with
  | nil => simp at h
  | cons q rest ih =>
    obtain ⟨k1, v1⟩ := q
    simp only [List.lookup] at h
    split at h
    · next hk =>
      have hk1 : k = k1 := by simpa using hk
      simp only [Option.some.injEq] at h
      rw [hk1, h]
      exact List.mem_cons_self _ _
    · exact List.mem_cons_of_mem _ (ih h)

theorem lookup_assign_self {α : Type} (m : List (String × α)) (k : String) (v : α) :
    (assign m k v).lookup k = some v := by
  induction m with
  | nil => simp [assign, List.lookup]
  | cons q rest ih =>
    obtain ⟨k1, v1⟩ := q
    simp only [assign]
    split
    · simp [List.lookup]
    · next hk =>
      have hne : (k == k1) = false := by
        simp only [beq_eq_false_iff_ne, ne_eq]
        exact fun e => hk e.symm
      simp only [List.lookup, hne]
      exact ih

/-! ## Integer arithmetic is exact -/

theorem log2Floor_spec : ∀ (fuel n : Nat), 0 < n → n ≤ fuel →
    2 ^ log2Floor fuel n ≤ n ∧ n < 2 ^ (log2Floor fuel n + 1) := by
  intro fuel
  induction fuel with
  | zero => intro n h0 h1; omega
  | succ fuel ih =>
    intro n h0 h1
    rw [log2Floor]
    split
    · next h => exact ⟨by simp; omega, by simp; omega⟩
    · next h =>
      obtain ⟨l, u⟩ := ih (n / 2) (by omega) (by omega)
      constructor
      · rw [Nat.pow_succ]; omega
      · rw [Nat.pow_succ]; omega

theorem exponentOf_le (z B : Nat) (hz : 0 < z) (hz53 : z < 2 ^ 53) (hB : 0 < B) :
    exponentOf (z * B) B ≤ 52 := by
  have hzB : 0 < z * B := Nat.mul_pos hz hB
  obtain ⟨la, ua⟩ := log2Floor_spec (z * B) (z * B) hzB (Nat.le_refl _)
  obtain ⟨lb, ub⟩ := log2Floor_spec B B hB (Nat.le_refl _)
  have h1 : 2 ^ log2Floor (z * B) (z * B) < 2 ^ (log2Floor B B + 54) := by
    calc 2 ^ log2Floor (z * B) (z * B) ≤ z * B := la
      _ < 2 ^ 53 * 2 ^ (log2Floor B B + 1) := Nat.mul_lt_mul'' hz53 ub
      _ = 2 ^ (log2Floor B B + 54) := by rw [← Nat.pow_add]; congr 1; omega
  have h2 : log2Floor (z * B) (z * B) < log2Floor B B + 54 :=
    (Nat.pow_lt_pow_iff_right (by decide : 1 < 2)).mp h1
  unfold exponentOf
  simp only
  split
  · next hle =>
    by_contra hk
    have hk53 : ((log2Floor (z * B) (z * B) : Int) - (log2Floor B B : Int)).toNat = 53 := by omega
    have hk0 : (-((log2Floor (z * B) (z * B) : Int) - (log2Floor B B : Int))).toNat = 0 := by
      omega
    rw [hk53, hk0] at hle
    simp only [pow_zero, mul_one] at hle
    have : B * 2 ^ 53 ≤ B * z := by rw [Nat.mul_comm B z]; exact hle
    have := Nat.le_of_mul_le_mul_left this hB
    omega
  · omega

theorem roundHalfEven_exact (q d : Nat) (hd : 0 < d) : roundHalfEven (q * d) d = q := by
  unfold roundHalfEven
  simp only [Nat.mul_mod_left, Nat.mul_zero, Nat.mul_div_cancel _ hd]
  rw [if_pos hd]

theorem roundRatio_exact (negative : Bool) (z B : Nat) (hz53 : z < 2 ^ 53) (hB : 0 < B) :
    Double.IsInt (roundRatio negative (z * B) B) (if negative then -(z : Int) else (z : Int)) := by
  rcases Nat.eq_zero_or_pos z with hz | hz
  · subst hz
    refine ⟨0, ?_⟩
    simp [roundRatio]
  · have he := exponentOf_le z B hz hz53 hB
    have hne : z * B ≠ 0 := Nat.pos_iff_ne_zero.mp (Nat.mul_pos hz hB)
    unfold roundRatio
    rw [if_neg hne]
    simp only
    generalize exponentOf (z * B) B = e at he
    have hE0 : (max e (-1022) - 52).toNat = 0 := by omega
    have hround : roundHalfEven (z * B * 2 ^ (-(max e (-1022) - 52)).toNat)
        (B * 2 ^ (max e (-1022) - 52).toNat) = z * 2 ^ (-(max e (-1022) - 52)).toNat := by
      rw [hE0, pow_zero, Nat.mul_one, Nat.mul_right_comm]
      exact roundHalfEven_exact _ _ hB
    rw [hround, if_neg (by omega)]
    refine ⟨(-(max e (-1022) - 52)).toNat, ?_⟩
    have hs : (max e (-1022) - 52) = -(((-(max e (-1022) - 52)).toNat : Nat) : Int) := by omega
    cases negative
    · simp only [Bool.false_eq_true, if_false]
      rw [← hs]
      push_cast
      rfl
    · simp only [if_true]
      rw [← hs]
      push_cast
      ring_nf

theorem natAbs_lt_of_range (z : Int) (h : -(2 ^ 53 : Int) < z ∧ z < 2 ^ 53) :
    z.natAbs < 2 ^ 53 := by
  omega

theorem roundDyadic_isInt (z : Int) (t : Nat) (hz : -(2 ^ 53 : Int) < z ∧ z < 2 ^ 53) :
    Double.IsInt (roundDyadic (z * 2 ^ t) (-(t : Int))) z := by
  unfold roundDyadic
  have h1 : (-(t : Int)).toNat = 0 := by omega
  have h2 : (-(-(t : Int))).toNat = t := by omega
  have hpos : (0 : Int) < 2 ^ t := by positivity
  have h3 : (z * 2 ^ t).natAbs = z.natAbs * 2 ^ t := by
    rw [Int.natAbs_mul, Int.natAbs_pow]
    rfl
  rw [h1, h2, h3, pow_zero, Nat.mul_one]
  have h4 := roundRatio_exact (decide (z * 2 ^ t < 0)) z.natAbs (2 ^ t)
    (natAbs_lt_of_range z hz) (by positivity)
  have h5 : (if decide (z * 2 ^ t < 0) = true then -(z.natAbs : Int) else (z.natAbs : Int)) = z := by
    by_cases hneg : z < 0
    · have : z * 2 ^ t < 0 := Int.mul_neg_of_neg_of_pos hneg hpos
      simp only [this, decide_True, if_true]
      omega
    · have : ¬ z * 2 ^ t < 0 := by
        have : 0 ≤ z * 2 ^ t := Int.mul_nonneg (by omega) (le_of_lt hpos)
        omega
      simp only [this, decide_False, Bool.false_eq_true, if_false]
      omega
  rw [h5] at h4
  exact h4

theorem Double.add_isInt (d1 d2 : Double) (a b : Int) (h1 : Double.IsInt d1 a)
    (h2 : Double.IsInt d2 b) (hz : -(2 ^ 53 : Int) < a + b ∧ a + b < 2 ^ 53) :
    Double.IsInt (Double.add d1 d2) (a + b) := by
  obtain ⟨s1, rfl⟩ := h1
  obtain ⟨s2, rfl⟩ := h2
  unfold Double.add
  have key : a * 2 ^ s1 * 2 ^ (-(s1 : Int) - min (-(s1 : Int)) (-(s2 : Int))).toNat +
      b * 2 ^ s2 * 2 ^ (-(s2 : Int) - min (-(s1 : Int)) (-(s2 : Int))).toNat =
      (a + b) * 2 ^ (max s1 s2) := by
    rcases Nat.le_total s1 s2 with h | h
    · have e1 : (-(s1 : Int) - min (-(s1 : Int)) (-(s2 : Int))).toNat = s2 - s1 := by omega
      have e2 : (-(s2 : Int) - min (-(s1 : Int)) (-(s2 : Int))).toNat = 0 := by omega
      have e3 : max s1 s2 = s2 := by omega
      rw [e1, e2, e3, mul_assoc, ← pow_add, Nat.add_sub_cancel' h]
      ring
    · have e1 : (-(s1 : Int) - min (-(s1 : Int)) (-(s2 : Int))).toNat = 0 := by omega
      have e2 : (-(s2 : Int) - min (-(s1 : Int)) (-(s2 : Int))).toNat = s1 - s2 := by omega
      have e3 : max s1 s2 = s1 := by omega
      rw [e1, e2, e3, mul_assoc (b) _ _, ← pow_add, Nat.add_sub_cancel' h]
      ring
  have hmin : min (-(s1 : Int)) (-(s2 : Int)) = -((max s1 s2 : Nat) : Int) := by omega
  simp only
  rw [key, hmin]
  exact roundDyadic_isInt (a + b) (max s1 s2) hz

theorem Double.neg_isInt (d : Double) (a : Int) (h : Double.IsInt d a) :
    Double.IsInt (Double.neg d) (-a) := by
  obtain ⟨s, rfl⟩ := h
  exact ⟨s, by simp [Double.neg]⟩

theorem Double.sub_isInt (d1 d2 : Double) (a b : Int) (h1 : Double.IsInt d1 a)
    (h2 : Double.IsInt d2 b) (hz : -(2 ^ 53 : Int) < a - b ∧ a - b < 2 ^ 53) :
    Double.IsInt (Double.sub d1 d2) (a - b) := by
  rw [Int.sub_eq_add_neg] at hz ⊢
  have hsub : Double.sub d1 d2 = Double.add d1 (Double.neg d2) := by
    obtain ⟨s1, rfl⟩ := h1
    obtain ⟨s2, rfl⟩ := h2
    rfl
  rw [hsub]
  exact Double.add_isInt d1 (Double.neg d2) a (-b) h1 (Double.neg_isInt d2 b h2) hz

theorem Double.mul_isInt (d1 d2 : Double) (a b : Int) (h1 : Double.IsInt d1 a)
    (h2 : Double.IsInt d2 b) (hz : -(2 ^ 53 : Int) < a * b ∧ a * b < 2 ^ 53) :
    Double.IsInt (Double.mul d1 d2) (a * b) := by
  obtain ⟨s1, rfl⟩ := h1
  obtain ⟨s2, rfl⟩ := h2
  unfold Double.mul
  simp only
  have key : a * 2 ^ s1 * (b * 2 ^ s2) = (a * b) * 2 ^ (s1 + s2) := by
    rw [pow_add]; ring
  have hexp : -(s1 : Int) + -(s2 : Int) = -(((s1 + s2 : Nat)) : Int) := by omega
  rw [key, hexp]
  exact roundDyadic_isInt (a * b) (s1 + s2) hz

theorem Double.div_isInt (d1 d2 : Double) (a b q : Int) (h1 : Double.IsInt d1 a)
    (h2 : Double.IsInt d2 b) (hb : b ≠ 0) (hq : a = q * b)
    (hz : -(2 ^ 53 : Int) < q ∧ q < 2 ^ 53) :
    Double.IsInt (Double.div d1 d2) q := by
  obtain ⟨s1, rfl⟩ := h1
  obtain ⟨s2, rfl⟩ := h2
  have hp1 : (0 : Int) < 2 ^ s1 := by positivity
  have hp2 : (0 : Int) < 2 ^ s2 := by positivity
  have hm2 : b * 2 ^ s2 ≠ 0 := Int.mul_ne_zero hb (ne_of_gt hp2)
  unfold Double.div
  simp only
  rw [if_neg hm2]
  have hA : (a * 2 ^ s1).natAbs * 2 ^ (-(s1 : Int) - -(s2 : Int)).toNat =
      q.natAbs * ((b * 2 ^ s2).natAbs * 2 ^ (-(s2 : Int) - -(s1 : Int)).toNat) := by
    rw [hq, Int.natAbs_mul, Int.natAbs_mul, Int.natAbs_mul, Int.natAbs_pow, Int.natAbs_pow]
    have e2 : Int.natAbs 2 = 2 := rfl
    rw [e2]
    rcases Nat.le_total s1 s2 with h | h
    · have e1 : (-(s1 : Int) - -(s2 : Int)).toNat = s2 - s1 := by omega
      have e3 : (-(s2 : Int) - -(s1 : Int)).toNat = 0 := by omega
      rw [e1, e3, pow_zero, Nat.mul_one, Nat.mul_assoc, ← Nat.pow_add, Nat.add_sub_cancel' h,
        Nat.mul_assoc]
    · have e1 : (-(s1 : Int) - -(s2 : Int)).toNat = 0 := by omega
      have e3 : (-(s2 : Int) - -(s1 : Int)).toNat = s1 - s2 := by omega
      rw [e1, e3, pow_zero, Nat.mul_one, Nat.mul_assoc (b.natAbs), ← Nat.pow_add,
        Nat.add_sub_cancel' h, Nat.mul_assoc]
  have hBpos : 0 < (b * 2 ^ s2).natAbs * 2 ^ (-(s2 : Int) - -(s1 : Int)).toNat :=
    Nat.mul_pos (Int.natAbs_pos.mpr hm2) (by positivity)
  rw [hA]
  have hr := roundRatio_exact (xor (decide (q * b * 2 ^ s1 < 0)) (decide (b * 2 ^ s2 < 0)))
    q.natAbs _ (natAbs_lt_of_range q hz) hBpos
  have hsign : (if xor (decide (q * b * 2 ^ s1 < 0)) (decide (b * 2 ^ s2 < 0)) = true
      then -(q.natAbs : Int) else (q.natAbs : Int)) = q := by
    have hb2 : (b * 2 ^ s2 < 0) ↔ b < 0 := by
      constructor
      · intro h; by_contra hn
        have : 0 ≤ b * 2 ^ s2 := Int.mul_nonneg (by omega) (le_of_lt hp2)
        omega
      · intro h; exact Int.mul_neg_of_neg_of_pos h hp2
    have ha2 : (q * b * 2 ^ s1 < 0) ↔ q * b < 0 := by
      constructor
      · intro h; by_contra hn
        have : 0 ≤ q * b * 2 ^ s1 := Int.mul_nonneg (by omega) (le_of_lt hp1)
        omega
      · intro h; exact Int.mul_neg_of_neg_of_pos h hp1
    simp only [ha2, hb2]
    rcases lt_trichotomy q 0 with hq0 | hq0 | hq0
    · rcases lt_or_gt_of_ne hb with hb0 | hb0
      · have : ¬ q * b < 0 := by
          have := Int.mul_pos_of_neg_of_neg hq0 hb0
          omega
        simp only [this, hb0, decide_True, decide_False, Bool.xor_true, Bool.not_false,
          if_true]
        omega
      · have : q * b < 0 := Int.mul_neg_of_neg_of_pos hq0 hb0
        have hnb : ¬ b < 0 := by omega
        simp only [this, hnb, decide_True, decide_False, Bool.xor_false, if_true]
        omega
    · subst hq0
      simp
    · rcases lt_or_gt_of_ne hb with hb0 | hb0
      · have : q * b < 0 := Int.mul_neg_of_pos_of_neg hq0 hb0
        simp only [this, hb0, decide_True, Bool.xor_self, Bool.false_eq_true, if_false]
        omega
      · have : ¬ q * b < 0 := by
          have := Int.mul_pos hq0 hb0
          omega
        have hnb : ¬ b < 0 := by omega
        simp only [this, hnb, decide_False, Bool.xor_self, Bool.false_eq_true, if_false]
        omega
  rw [hsign] at hr
  rw [hq]
  exact hr

theorem formatNumber_isInt (d : Double) (z : Int) (h : Double.IsInt d z)
    (hz : -2147483648 ≤ z ∧ z ≤ 2147483647) :
    formatNumber d = Except.ok (toStringInt z) := by
  obtain ⟨s, rfl⟩ := h
  have hp : (0 : Int) < 2 ^ s := by positivity
  have e1 : (-(s : Int)).toNat = 0 := by omega
  have e2 : (-(-(s : Int))).toNat = s := by omega
  have hto : (Double.finite (z * 2 ^ s) (-(s : Int))).toInt = some z := by
    unfold Double.toInt
    simp only [e1, e2, pow_zero, mul_one]
    have hn : (2 : Int) ^ s = ((2 ^ s : Nat) : Int) := by push_cast; rfl
    rw [hn, Int.mul_tdiv_cancel _ (by rw [← hn]; exact ne_of_gt hp)]
    rw [if_pos hz]
  have heq : Double.eq (Double.finite (z * 2 ^ s) (-(s : Int))) (Double.ofInt z) = true := by
    unfold Double.eq Double.ofInt
    have m1 : (-(s : Int) - min (-(s : Int)) 0).toNat = 0 := by omega
    have m2 : ((0 : Int) - min (-(s : Int)) 0).toNat = s := by omega
    simp only [m1, m2, pow_zero, mul_one, decide_True]
  unfold formatNumber
  simp only [hto, heq, if_true]

theorem Double.eq_zero_isInt (d : Double) (b : Int) (h : Double.IsInt d b) (hb : b ≠ 0) :
    Double.eq d (Double.ofInt 0) = false := by
  obtain ⟨s, rfl⟩ := h
  have hp : (0 : Int) < 2 ^ s := by positivity
  unfold Double.eq Double.ofInt
  simp only [zero_mul, decide_eq_false_iff_not]
  intro h0
  rcases Int.mul_eq_zero.mp h0 with h1 | h1
  · rcases Int.mul_eq_zero.mp h1 with h2 | h2
    · exact hb h2
    · exact absurd h2 (ne_of_gt hp)
  · have : (0 : Int) < 2 ^ (-(s : Int) - min (-(s : Int)) 0).toNat := by positivity
    exact absurd h1 (ne_of_gt this)

/-! ## The decimal text of an integer converts back to it -/

theorem digitChar_spec (k : Nat) (hk : k < 10) :
    isdigit (Nat.digitChar k) = true ∧ (Nat.digitChar k).toNat - 48 = k := by
  interval_cases k <;> exact ⟨rfl, rfl⟩

theorem Stod.digitsValue_append (acc : Nat) (l1 l2 : List Char) :
    Stod.digitsValue acc (l1 ++ l2) = Stod.digitsValue (Stod.digitsValue acc l1) l2 := by
  induction l1 generalizing acc with
  | nil => rfl
  | cons c rest ih =>
    show Stod.digitsValue (acc * 10 + (c.toNat - 48)) (rest ++ l2) = _
    exact ih _

theorem toDigitsCore_spec : ∀ (fuel n : Nat) (acc : List Char), n < fuel →
    ∃ ds, Nat.toDigitsCore 10 fuel n acc = ds ++ acc ∧ ds ≠ [] ∧
      (∀ c ∈ ds, isdigit c = true) ∧ Stod.digitsValue 0 ds = n := by
  intro fuel
  induction fuel with
  | zero => intro n acc h; omega
  | succ fuel ih =>
    intro n acc h
    have hd := digitChar_spec (n % 10) (Nat.mod_lt _ (by decide))
    rw [Nat.toDigitsCore]
    split
    · next h0 =>
      refine ⟨[Nat.digitChar (n % 10)], rfl, by simp, ?_, ?_⟩
      · intro c hc
        rw [List.mem_singleton.mp hc]
        exact hd.1
      · show 0 * 10 + ((Nat.digitChar (n % 10)).toNat - 48) = n
        rw [hd.2]
        omega
    · next h0 =>
      obtain ⟨ds, e, hne, hall, hval⟩ := ih (n / 10) (Nat.digitChar (n % 10) :: acc) (by omega)
      refine ⟨ds ++ [Nat.digitChar (n % 10)], by rw [e]; simp, by simp, ?_, ?_⟩
      · intro c hc
        rcases List.mem_append.mp hc with h1 | h1
        · exact hall c h1
        · rw [List.mem_singleton.mp h1]
          exact hd.1
      · rw [Stod.digitsValue_append, hval]
        show n / 10 * 10 + ((Nat.digitChar (n % 10)).toNat - 48) = n
        rw [hd.2]
        omega

theorem toDigits_spec (n : Nat) :
    Nat.toDigits 10 n ≠ [] ∧ (∀ c ∈ Nat.toDigits 10 n, isdigit c = true) ∧
      Stod.digitsValue 0 (Nat.toDigits 10 n) = n := by
  obtain ⟨ds, e, hne, hall, hval⟩ := toDigitsCore_spec (n + 1) n [] (Nat.lt_succ_self n)
  rw [List.append_nil] at e
  unfold Nat.toDigits
  rw [e]
  exact ⟨hne, hall, hval⟩

theorem takeWhile_all {α : Type} (p : α → Bool) (l : List α) (h : ∀ c ∈ l, p c = true) :
    l.takeWhile p = l ∧ l.dropWhile p = [] := by
  induction l with
  | nil => exact ⟨rfl, rfl⟩
  | cons a rest ih =>
    have ha := h a (List.mem_cons_self _ _)
    have hr := ih (fun c hc => h c (List.mem_cons_of_mem _ hc))
    simp only [List.takeWhile, List.dropWhile, ha, hr.1, hr.2, and_self]

theorem Stod.range_exact (negative : Bool) (n : Nat) (hn : n < 2 ^ 53) :
    ∃ d, Stod.range negative n 1 = Except.ok d ∧
      Double.IsInt d (if negative then -(n : Int) else (n : Int)) := by
  have h := roundRatio_exact negative n 1 hn (by decide)
  rw [Nat.mul_one] at h
  obtain ⟨s, hs⟩ := h
  refine ⟨_, ?_, ⟨s, hs⟩⟩
  unfold Stod.range
  rw [hs]
  simp only
  have e1 : (-(s : Int)).toNat = 0 := by omega
  have e2 : (-(-(s : Int))).toNat = s := by omega
  have habs : ((if negative = true then -(n : Int) else (n : Int)) * 2 ^ s).natAbs = n * 2 ^ s := by
    rw [Int.natAbs_mul, Int.natAbs_pow]
    cases negative <;> simp
  rw [if_neg]
  rw [habs, e1, e2]
  simp

theorem Stod.unsigned_digits (negative : Bool) (ds : List Char) (hne : ds ≠ [])
    (hall : ∀ c ∈ ds, isdigit c = true) :
    Stod.unsigned negative ds = Stod.range negative (Stod.digitsValue 0 ds) 1 := by
  obtain ⟨c, rest, rfl⟩ := List.exists_cons_of_ne_nil hne
  have hc := hall c (List.mem_cons_self _ _)
  have hcn : 48 ≤ c.toNat ∧ c.toNat ≤ 57 := by
    simpa [isdigit] using hc
  have hlow : Stod.lower c = c := by
    unfold Stod.lower
    rw [if_neg (by omega)]
  have hinf : Stod.startsWith ['i', 'n', 'f'] (c :: rest) = false := by
    unfold Stod.startsWith
    simp only [List.length_cons, List.length_nil, List.take_succ_cons, List.map_cons, hlow,
      decide_eq_false_iff_not, List.cons.injEq, not_and]
    intro h
    rw [h] at hcn
    exact absurd hcn (by decide)
  have hnan : Stod.startsWith ['n', 'a', 'n'] (c :: rest) = false := by
    unfold Stod.startsWith
    simp only [List.length_cons, List.length_nil, List.take_succ_cons, List.map_cons, hlow,
      decide_eq_false_iff_not, List.cons.injEq, not_and]
    intro h
    rw [h] at hcn
    exact absurd hcn (by decide)
  have hhex : Stod.startsWith ['0', 'x'] (c :: rest) = false := by
    unfold Stod.startsWith
    cases rest with
    | nil => simp
    | cons c2 rest2 =>
      have hc2 := hall c2 (List.mem_cons_of_mem _ (List.mem_cons_self _ _))
      have hc2n : 48 ≤ c2.toNat ∧ c2.toNat ≤ 57 := by
        simpa [isdigit] using hc2
      have hlow2 : Stod.lower c2 = c2 := by
        unfold Stod.lower
        rw [if_neg (by omega)]
      simp only [List.length_cons, List.length_nil, List.take_succ_cons, List.map_cons, hlow,
        hlow2, decide_eq_false_iff_not, List.cons.injEq, not_and]
      intro _ h
      rw [h] at hc2n
      exact absurd hc2n (by decide)
  obtain ⟨ht, hdrop⟩ := takeWhile_all isdigit (c :: rest) hall
  unfold Stod.unsigned
  rw [hinf, hnan, hhex]
  simp only [Bool.false_eq_true, if_false]
  unfold Stod.decimal
  simp only [ht, hdrop, Stod.exponent, List.length_nil, Nat.cast_zero, sub_zero,
    Int.toNat_zero, neg_zero, pow_zero, Nat.mul_one, List.append_nil]
  rw [if_neg (by simp)]

theorem stod_toStringInt (z : Int) (hz : -(2 ^ 53 : Int) < z ∧ z < 2 ^ 53) :
    ∃ d, stod (toStringInt z) = Except.ok d ∧ Double.IsInt d z := by
  cases z with
  | ofNat n =>
    obtain ⟨hne, hall, hval⟩ := toDigits_spec n
    obtain ⟨c, rest, hcr⟩ := List.exists_cons_of_ne_nil hne
    have hc := hall c (by rw [hcr]; exact List.mem_cons_self _ _)
    have hcn : 48 ≤ c.toNat ∧ c.toNat ≤ 57 := by
      simpa [isdigit] using hc
    have hdata : (toStringInt (Int.ofNat n)).data = c :: rest := by
      rw [← hcr]
      rfl
    have hsp : isspace c = false := by
      simp only [isspace, Bool.or_eq_false_iff, decide_eq_false_iff_not, Bool.and_eq_false_imp,
        decide_eq_true_eq]
      omega
    have hn53 : n < 2 ^ 53 := by
      have := hz.2
      simp only [Int.ofNat_eq_coe] at this
      omega
    obtain ⟨d, hd, hint⟩ := Stod.range_exact false n hn53
    refine ⟨d, ?_, by simpa using hint⟩
    unfold stod
    rw [hdata]
    simp only [List.dropWhile, hsp]
    split
    · next heq =>
      simp only [List.cons.injEq] at heq
      rw [heq.1] at hcn
      exact absurd hcn (by decide)
    · next heq =>
      simp only [List.cons.injEq] at heq
      rw [heq.1] at hcn
      exact absurd hcn (by decide)
    · rw [Stod.unsigned_digits false (c :: rest) (by simp) (by rw [← hcr]; exact hall),
        ← hcr, hval]
      exact hd
  | negSucc n =>
    obtain ⟨hne, hall, hval⟩ := toDigits_spec (n + 1)
    have hdata : (toStringInt (Int.negSucc n)).data = '-' :: Nat.toDigits 10 (n + 1) := rfl
    have hn53 : n + 1 < 2 ^ 53 := by
      have := hz.1
      rw [Int.negSucc_eq] at this
      omega
    obtain ⟨d, hd, hint⟩ := Stod.range_exact true (n + 1) hn53
    refine ⟨d, ?_, ?_⟩
    · unfold stod
      rw [hdata]
      have hsp : isspace '-' = false := by decide
      simp only [List.dropWhile, hsp]
      rw [Stod.unsigned_digits true _ hne hall, hval]
      exact hd
    · simpa [Int.negSucc_eq] using hint

theorem toStringInt_no_point (z : Int) : '.' ∉ (toStringInt z).data := by
  have hdot : isdigit '.' = false := by decide
  cases z with
  | ofNat n =>
    intro h
    have hd : (toStringInt (Int.ofNat n)).data = Nat.toDigits 10 n := rfl
    rw [hd] at h
    have := (toDigits_spec n).2.1 '.' h
    rw [hdot] at this
    exact absurd this (by decide)
  | negSucc n =>
    intro h
    have hd : (toStringInt (Int.negSucc n)).data = '-' :: Nat.toDigits 10 (n + 1) := rfl
    rw [hd] at h
    rcases List.mem_cons.mp h with h1 | h1
    · exact absurd h1 (by decide)
    · have := (toDigits_spec (n + 1)).2.1 '.' h1
      rw [hdot] at this
      exact absurd this (by decide)

/-- Claim C6: for integers `a`, `b` in the range of `int` whose exact result
is in that range, `+`, `-` and `*` on their decimal texts yield the decimal
text of the exact result, and `/` with a non-zero divisor that divides the
dividend yields the decimal text of the quotient; that text has no decimal
point; `3 + 2` yields `5` and `6 / 2` yields `3`. -/
theorem integer_collapse :
    (∀ (n : Nat) (c0 c1 : ASTNode) (st st1 st2 : State) (a b : Int),
      (-2147483648 ≤ a ∧ a ≤ 2147483647) → (-2147483648 ≤ b ∧ b ≤ 2147483647) →
      Interpreter.evaluate n c0 st = Outcome.ok (toStringInt a) st1 →
      Interpreter.evaluate n c1 st1 = Outcome.ok (toStringInt b) st2 →
      ((-2147483648 ≤ a + b ∧ a + b ≤ 2147483647) →
          Interpreter.evaluate (n + 1) (ASTNode.binary "+" c0 c1) st =
            Outcome.ok (toStringInt (a + b)) st2) ∧
        ((-2147483648 ≤ a - b ∧ a - b ≤ 2147483647) →
          Interpreter.evaluate (n + 1) (ASTNode.binary "-" c0 c1) st =
            Outcome.ok (toStringInt (a - b)) st2) ∧
        ((-2147483648 ≤ a * b ∧ a * b ≤ 2147483647) →
          Interpreter.evaluate (n + 1) (ASTNode.binary "*" c0 c1) st =
            Outcome.ok (toStringInt (a * b)) st2) ∧
        (∀ q : Int, b ≠ 0 → a = q * b → (-2147483648 ≤ q ∧ q ≤ 2147483647) →
          Interpreter.evaluate (n + 1) (ASTNode.binary "/" c0 c1) st =
            Outcome.ok (toStringInt q) st2)) ∧
      (∀ z : Int, '.' ∉ (toStringInt z).data) ∧
      (interpret 100 "kteb(3 + 2, 6 / 2)").final.map State.out = some "5 3\n" := by
  refine ⟨?_, toStringInt_no_point, by decide!⟩
  intro n c0 c1 st st1 st2 a b ha hb h0 h1
  obtain ⟨dl, hl, il⟩ := stod_toStringInt a (by constructor <;> omega)
  obtain ⟨dr, hr, ir⟩ := stod_toStringInt b (by constructor <;> omega)
  refine ⟨?_, ?_, ?_, ?_⟩
  · intro hz
    rw [evaluate_binary n "+" c0 c1 st st1 st2 _ _ h0 h1]
    have hf := formatNumber_isInt _ _
      (Double.add_isInt dl dr a b il ir (by constructor <;> omega)) hz
    simp [binaryOp, hl, hr, hf, liftExcept]
  · intro hz
    rw [evaluate_binary n "-" c0 c1 st st1 st2 _ _ h0 h1]
    have hf := formatNumber_isInt _ _
      (Double.sub_isInt dl dr a b il ir (by constructor <;> omega)) hz
    simp [binaryOp, numericOperands, hl, hr, hf, liftExcept]
  · intro hz
    rw [evaluate_binary n "*" c0 c1 st st1 st2 _ _ h0 h1]
    have hf := formatNumber_isInt _ _
      (Double.mul_isInt dl dr a b il ir (by constructor <;> omega)) hz
    simp [binaryOp, numericOperands, hl, hr, hf, liftExcept]
  · intro q hb0 hq hz
    rw [evaluate_binary n "/" c0 c1 st st1 st2 _ _ h0 h1]
    have hf := formatNumber_isInt _ _
      (Double.div_isInt dl dr a b q il ir hb0 hq (by constructor <;> omega)) hz
    have hnz := Double.eq_zero_isInt dr b ir hb0
    simp [binaryOp, numericOperands, hl, hr, hf, hnz, liftExcept]

/-- Claim C6 at the operands `-6` and `3`. -/
theorem integer_collapse_witness :
    ((-2147483648 : Int) ≤ -6 ∧ (-6 : Int) ≤ 2147483647) ∧
      ((-2147483648 : Int) ≤ 3 ∧ (3 : Int) ≤ 2147483647) ∧
      Interpreter.evaluate 1 (ASTNode.leaf NodeType.STRING (toStringInt (-6))) State.initial =
        Outcome.ok (toStringInt (-6)) State.initial ∧
      Interpreter.evaluate 1 (ASTNode.leaf NodeType.NUMBER (toStringInt 3)) State.initial =
        Outcome.ok (toStringInt 3) State.initial ∧
      Interpreter.evaluate 2 (ASTNode.binary "*"
          (ASTNode.leaf NodeType.STRING (toStringInt (-6)))
          (ASTNode.leaf NodeType.NUMBER (toStringInt 3))) State.initial =
        Outcome.ok (toStringInt (-6 * 3)) State.initial ∧
      Interpreter.evaluate 2 (ASTNode.binary "/"
          (ASTNode.leaf NodeType.STRING (toStringInt (-6)))
          (ASTNode.leaf NodeType.NUMBER (toStringInt 3))) State.initial =
        Outcome.ok (toStringInt (-2)) State.initial ∧
      toStringInt (-6 * 3) = "-18" ∧ toStringInt (-2) = "-2" :=
  ⟨by decide, by decide, by decide!, by decide!,
    (integer_collapse.1 1 _ _ State.initial State.initial State.initial (-6) 3
      (by decide) (by decide) (by decide!) (by decide!)).2.2.1 (by decide),
    (integer_collapse.1 1 _ _ State.initial State.initial State.initial (-6) 3
      (by decide) (by decide) (by decide!) (by decide!)).2.2.2 (-2) (by decide) (by decide)
      (by decide),
    by decide!, by decide!⟩

/-! ## The keyword table -/

theorem Lexer.identChars_all (w rest : List Char)
    (hw : ∀ x ∈ w, (isalnum x || decide (x = '_')) = true)
    (hrest : (isalnum (Lexer.peek rest 0) || decide (Lexer.peek rest 0 = '_')) = false) :
    Lexer.identChars (w ++ rest) = (w, rest) := by
  induction w with
  | nil =>
    cases rest with
    | nil => rfl
    | cons r rs =>
      have hr : (isalnum r || decide (r = '_')) = false := hrest
      simp only [List.nil_append, Lexer.identChars, hr, Bool.false_eq_true, if_false]
  | cons c w ih =>
    have hc := hw c (List.mem_cons_self _ _)
    have ih2 := ih (fun x hx => hw x (List.mem_cons_of_mem _ hx))
    rw [List.cons_append, Lexer.identChars, if_pos hc, ih2]

theorem Lexer.wordStart_spec (c : Char) (hc : (isalpha c || decide (c = '_')) = true) :
    c ≠ NUL ∧ c ≠ DQUOTE ∧ c ≠ '/' ∧ isspace c = false ∧
      (isalnum c || decide (c = '_')) = true := by
  have hn : (65 ≤ c.toNat ∧ c.toNat ≤ 90) ∨ (97 ≤ c.toNat ∧ c.toNat ≤ 122) ∨ c = '_' := by
    simp only [isalpha, Bool.or_eq_true, Bool.and_eq_true, decide_eq_true_eq] at hc
    rcases hc with (h | h) | h
    · exact Or.inl h
    · exact Or.inr (Or.inl h)
    · exact Or.inr (Or.inr h)
  have hrange : 65 ≤ c.toNat ∧ c.toNat ≤ 122 := by
    rcases hn with h | h | h
    · omega
    · omega
    · rw [h]; decide
  refine ⟨?_, ?_, ?_, ?_, ?_⟩
  · intro h; rw [h] at hrange; exact absurd hrange (by decide)
  · intro h; rw [h] at hrange; exact absurd hrange (by decide)
  · intro h; rw [h] at hrange; exact absurd hrange (by decide)
  · simp only [isspace, Bool.or_eq_false_iff, decide_eq_false_iff_not, Bool.and_eq_false_imp,
      decide_eq_true_eq]
    omega
  · simp only [isalnum, Bool.or_eq_true, decide_eq_true_eq] at hc ⊢
    rcases hc with h | h
    · exact Or.inl (Or.inl h)
    · exact Or.inr h

theorem Lexer.tokenizeLoop_nil (fuel : Nat) :
    Lexer.tokenizeLoop (fuel + 1) [] = some [Lexer.endToken] := by
  rw [Lexer.tokenizeLoop]
  simp [Lexer.peek]

theorem Lexer.skipBlanks_cons (c : Char) (rest : List Char) (hs : isspace c = false)
    (hc : c ≠ '/') : Lexer.skipBlanks (c :: rest) = c :: rest := by
  have h1 : Lexer.skipWhitespace (c :: rest) = c :: rest := by
    simp [Lexer.skipWhitespace, hs]
  unfold Lexer.skipBlanks
  simp only [h1]
  rw [if_neg]
  intro h
  exact hc (by simpa [Lexer.peek] using h.1)

theorem tokenize_word (c : Char) (w : List Char)
    (hc : (isalpha c || decide (c = '_')) = true)
    (hw : ∀ x ∈ w, (isalnum x || decide (x = '_')) = true) :
    tokenize (String.mk (c :: w)) =
      some [⟨(Lexer.keywords.lookup (String.mk (c :: w))).getD TokenType.IDENT,
        String.mk (c :: w), 1, 1⟩, Lexer.endToken] := by
  obtain ⟨hnul, hdq, hsl, hsp, hword⟩ := Lexer.wordStart_spec c hc
  have hchars : Lexer.identChars (c :: w) = (c :: w, []) := by
    have := Lexer.identChars_all (c :: w) []
      (fun x hx => by
        rcases List.mem_cons.mp hx with h | h
        · rw [h]; exact hword
        · exact hw x h)
      (by decide)
    rw [List.append_nil] at this
    exact this
  have hid : Lexer.identifier (c :: w) =
      (⟨(Lexer.keywords.lookup (String.mk (c :: w))).getD TokenType.IDENT,
        String.mk (c :: w), 1, 1⟩, []) := by
    unfold Lexer.identifier
    simp only [hchars]
    generalize Lexer.keywords.lookup (String.mk (c :: w)) = r
    cases r <;> rfl
  have hnext : Lexer.nextToken c (c :: w) = Lexer.identifier (c :: w) := by
    unfold Lexer.nextToken
    rw [if_neg hdq, if_pos hc]
  have hlen : (String.mk (c :: w)).length + 1 = (w.length + 1) + 1 := rfl
  have hpeek : Lexer.peek (c :: w) 0 = c := rfl
  have hdata : (String.mk (c :: w)).data = c :: w := rfl
  unfold tokenize
  rw [hlen, hdata, Lexer.tokenizeLoop, hpeek, if_neg hnul]
  simp only [Lexer.skipBlanks_cons c w hsp hsl, hpeek, if_neg hnul, hnext, hid,
    Lexer.tokenizeLoop_nil]

theorem Lexer.keywords_spec (s : String) :
    ((Lexer.keywords.lookup s).getD TokenType.IDENT).isKeyword = true ↔
      s ∈ ["dir", "kteb", "ila", "wila", "wla", "ma7ad", "kol", "dalla", "kalla", "rje3",
        "s7i7", "ghalat", "w"] := by
  simp only [Lexer.keywords, List.lookup]
  repeat' split
  all_goals simp_all [TokenType.isKeyword]

/-- Claim C11, as stated, fails: the word `kalla` is in the keyword table too
and is tokenized with the keyword type `KALLA`, not as an identifier. -/
theorem kalla_is_keyword :
    tokenize "kalla" = some [⟨TokenType.KALLA, "kalla", 1, 1⟩, Lexer.endToken] ∧
      TokenType.KALLA.isKeyword = true := by
  decide

/-- Claim C11, amended: a word of letters, digits and underscores that starts
with a letter or an underscore is one token carrying the word as its text; its
type is a keyword type if and only if the word is one of the thirteen words
of the table, the twelve of the glossary and `kalla`, and `IDENT` otherwise. -/
theorem keyword_table (c : Char) (w : List Char)
    (hc : (isalpha c || decide (c = '_')) = true)
    (hw : ∀ x ∈ w, (isalnum x || decide (x = '_')) = true) :
    ∃ t, tokenize (String.mk (c :: w)) = some [⟨t, String.mk (c :: w), 1, 1⟩, Lexer.endToken] ∧
      (t.isKeyword = true ↔
        String.mk (c :: w) ∈ ["dir", "kteb", "ila", "wila", "wla", "ma7ad", "kol", "dalla",
          "kalla", "rje3", "s7i7", "ghalat", "w"]) ∧
      (t.isKeyword = false → t = TokenType.IDENT) := by
  refine ⟨_, tokenize_word c w hc hw, Lexer.keywords_spec _, ?_⟩
  intro h
  cases hl : Lexer.keywords.lookup (String.mk (c :: w)) with
  | none => rfl
  | some t =>
    rw [hl] at h
    have hmem := lookup_mem _ _ _ hl
    simp only [Lexer.keywords, List.mem_cons, Prod.mk.injEq, List.mem_singleton] at hmem
    simp only [Option.getD] at h
    rcases hmem with h1 | h1 | h1 | h1 | h1 | h1 | h1 | h1 | h1 | h1 | h1 | h1 | h1 | h1
    all_goals first
      | (rw [h1.2] at h; exact absurd h (by decide))
      | exact absurd h1 (List.not_mem_nil _)

/-- Claim C11, amended, at the words `kol` and `x_1`. -/
theorem keyword_table_witness :
    ((isalpha 'k' || decide ('k' = '_')) = true ∧
      (∀ x ∈ ['o', 'l'], (isalnum x || decide (x = '_')) = true) ∧
      ∃ t, tokenize (String.mk ('k' :: ['o', 'l'])) =
          some [⟨t, String.mk ('k' :: ['o', 'l']), 1, 1⟩, Lexer.endToken] ∧
        (t.isKeyword = true ↔
          String.mk ('k' :: ['o', 'l']) ∈ ["dir", "kteb", "ila", "wila", "wla", "ma7ad", "kol",
            "dalla", "kalla", "rje3", "s7i7", "ghalat", "w"]) ∧
        (t.isKeyword = false → t = TokenType.IDENT)) ∧
      tokenize "x_1" = some [⟨TokenType.IDENT, "x_1", 1, 1⟩, Lexer.endToken] :=
  ⟨⟨by decide, by decide, keyword_table 'k' ['o', 'l'] (by decide) (by decide)⟩, by decide⟩

/-! ## String literals -/

theorem Lexer.stringBody_dquote (rest : List Char) :
    Lexer.stringBody (DQUOTE :: rest) = ([], rest) := by
  cases rest <;> simp [Lexer.stringBody]

theorem Lexer.stringBody_plain (c : Char) (rest : List Char) (h1 : c ≠ DQUOTE) (h2 : c ≠ NUL)
    (h3 : c ≠ BACKSLASH) :
    Lexer.stringBody (c :: rest) =
      (c :: (Lexer.stringBody rest).1, (Lexer.stringBody rest).2) := by
  cases rest <;> simp [Lexer.stringBody, h1, h2, h3]

theorem Lexer.stringBody_escape (e : Char) (rest : List Char) :
    Lexer.stringBody (BACKSLASH :: e :: rest) =
      (Lexer.unescape e :: (Lexer.stringBody rest).1, (Lexer.stringBody rest).2) := by
  have hbd : BACKSLASH ≠ DQUOTE := by decide
  have hbn : BACKSLASH ≠ NUL := by decide
  simp [Lexer.stringBody, hbd, hbn]

theorem Lexer.stringBody_escapeText (s rest : List Char) (hs : NUL ∉ s) :
    Lexer.stringBody (escapeText s ++ DQUOTE :: rest) = (s, rest) := by
  induction s with
  | nil => exact Lexer.stringBody_dquote rest
  | cons c s ih =>
    have hc : c ≠ NUL := fun h => hs (h ▸ List.mem_cons_self _ _)
    have ih2 := ih (fun h => hs (List.mem_cons_of_mem _ h))
    by_cases h1 : c = LF
    · subst h1
      have e : escapeText (LF :: s) = BACKSLASH :: 'n' :: escapeText s := by
        simp [escapeText, escapeChar]
      rw [e, List.cons_append, List.cons_append, Lexer.stringBody_escape, ih2]
      rfl
    · by_cases h2 : c = TAB
      · subst h2
        have e : escapeText (TAB :: s) = BACKSLASH :: 't' :: escapeText s := by
          simp [escapeText, escapeChar, h1]
        rw [e, List.cons_append, List.cons_append, Lexer.stringBody_escape, ih2]
        rfl
      · by_cases h3 : c = BACKSLASH
        · subst h3
          have e : escapeText (BACKSLASH :: s) = BACKSLASH :: BACKSLASH :: escapeText s := by
            simp [escapeText, escapeChar, h1, h2]
          rw [e, List.cons_append, List.cons_append, Lexer.stringBody_escape, ih2]
          rfl
        · by_cases h4 : c = DQUOTE
          · subst h4
            have e : escapeText (DQUOTE :: s) = BACKSLASH :: DQUOTE :: escapeText s := by
              simp [escapeText, escapeChar, h1, h2, h3]
            rw [e, List.cons_append, List.cons_append, Lexer.stringBody_escape, ih2]
            rfl
          · have e : escapeText (c :: s) = c :: escapeText s := by
              simp [escapeText, escapeChar, h1, h2, h3, h4]
            rw [e, List.cons_append, Lexer.stringBody_plain c _ h4 hc h3, ih2]

/-- Claim C12: for every text without a NUL character, the string literal
that spells newline as `\n`, tab as `\t`, backslash as `\\` and double quote
as `\"` is tokenized as one string token whose value is the text, followed by
the end token; and an escape of any other character decodes to that character. -/
theorem string_round_trip :
    (∀ s : List Char, NUL ∉ s →
      tokenize (String.mk (stringLiteral s)) =
        some [⟨TokenType.STRING, String.mk s, 1, 1⟩, Lexer.endToken]) ∧
      (∀ (c : Char) (rest : List Char), c ≠ 'n' → c ≠ 't' → c ≠ BACKSLASH → c ≠ DQUOTE →
        Lexer.stringBody (BACKSLASH :: c :: DQUOTE :: rest) = ([c], rest)) := by
  constructor
  · intro s hs
    have hbody := Lexer.stringBody_escapeText s [] hs
    have hnul : DQUOTE ≠ NUL := by decide
    have hsl : DQUOTE ≠ '/' := by decide
    have hsp : isspace DQUOTE = false := by decide
    have hpeek : Lexer.peek (DQUOTE :: (escapeText s ++ [DQUOTE])) 0 = DQUOTE := rfl
    have hstr : Lexer.string (DQUOTE :: (escapeText s ++ [DQUOTE])) =
        (⟨TokenType.STRING, String.mk s, 1, 1⟩, []) := by
      unfold Lexer.string
      simp only [Lexer.advance, List.drop_succ_cons, List.drop_zero, hbody]
    have hnext : Lexer.nextToken DQUOTE (DQUOTE :: (escapeText s ++ [DQUOTE])) =
        Lexer.string (DQUOTE :: (escapeText s ++ [DQUOTE])) := by
      unfold Lexer.nextToken
      rw [if_pos rfl]
    have hlen : (String.mk (stringLiteral s)).length + 1 =
        ((escapeText s ++ [DQUOTE]).length + 1) + 1 := rfl
    have hdata : (String.mk (stringLiteral s)).data = DQUOTE :: (escapeText s ++ [DQUOTE]) := rfl
    unfold tokenize
    rw [hlen, hdata, Lexer.tokenizeLoop, hpeek, if_neg hnul]
    have hfuel : (escapeText s ++ [DQUOTE]).length = (escapeText s).length + 1 := by simp
    simp only [Lexer.skipBlanks_cons DQUOTE _ hsp hsl, hpeek, if_neg hnul, hnext, hstr, hfuel,
      Lexer.tokenizeLoop_nil]
  · intro c rest h1 h2 h3 h4
    rw [Lexer.stringBody_escape, Lexer.stringBody_dquote]
    simp only [Lexer.unescape, if_neg h1, if_neg h2, if_neg h3, if_neg h4]

/-- Claim C12 at the text `a`, newline, `"` and at the escape of `q`. -/
theorem string_round_trip_witness :
    NUL ∉ ['a', LF, DQUOTE] ∧
      tokenize (String.mk (stringLiteral ['a', LF, DQUOTE])) =
        some [⟨TokenType.STRING, String.mk ['a', LF, DQUOTE], 1, 1⟩, Lexer.endToken] ∧
      Lexer.stringBody (BACKSLASH :: 'q' :: DQUOTE :: []) = (['q'], []) :=
  ⟨by decide, string_round_trip.1 ['a', LF, DQUOTE] (by decide),
    string_round_trip.2 'q' [] (by decide) (by decide) (by decide) (by decide)⟩

/-! ## A statement that starts with an opening brace -/

theorem Parser.statement_brace_step (tokens : List Token) (pos : Nat) (n : Nat)
    (h : (Parser.peek tokens pos).type = TokenType.LBRACE) :
    Parser.statement (n + 2) tokens pos =
      (Parser.block (n + 1) tokens pos).bind fun b p => ParseResult.ok (some b) p := by
  rw [Parser.statement, Parser.skipSemicolons]
  simp [Parser.check, h, ParseResult.bind]

theorem Parser.block_brace_step (tokens : List Token) (pos : Nat) (n : Nat)
    (h : (Parser.peek tokens pos).type = TokenType.LBRACE)
    (hs : Parser.statement n tokens pos = ParseResult.outOfFuel) :
    Parser.block (n + 2) tokens pos = ParseResult.outOfFuel := by
  rw [Parser.block, Parser.blockLoop]
  simp [Parser.check, h, hs, ParseResult.bind]

theorem Parser.statement_at_brace (tokens : List Token) (pos : Nat)
    (h : (Parser.peek tokens pos).type = TokenType.LBRACE) :
    ∀ fuel : Nat, Parser.statement fuel tokens pos = ParseResult.outOfFuel := by
  intro fuel
  induction fuel using Nat.strong_induction_on with
  | _ fuel ih =>
    match fuel with
    | 0 => rw [Parser.statement]
    | 1 =>
      rw [Parser.statement, Parser.skipSemicolons]
      rfl
    | 2 =>
      rw [Parser.statement_brace_step tokens pos 0 h, Parser.block, Parser.blockLoop]
      rfl
    | 3 =>
      rw [Parser.statement_brace_step tokens pos 1 h,
        Parser.block_brace_step tokens pos 0 h (ih 0 (by omega))]
      rfl
    | n + 4 =>
      rw [Parser.statement_brace_step tokens pos (n + 2) h,
        Parser.block_brace_step tokens pos (n + 1) h (ih (n + 1) (by omega))]
      rfl

/-- Claim C14, at the failing input: a program that starts with an opening
brace. `statement` calls `block` without consuming the brace, `block` calls
`statement` at the same token, and the parser never returns: whatever the
fuel, it runs out. -/
theorem parse_block_statement_diverges :
    tokenize "\x7b kteb(1); \x7d" =
        some [⟨TokenType.LBRACE, "\x7b", 1, 1⟩, ⟨TokenType.KTEB, "kteb", 1, 1⟩,
          ⟨TokenType.LPAREN, "(", 1, 1⟩, ⟨TokenType.NUMBER, "1", 1, 1⟩,
          ⟨TokenType.RPAREN, ")", 1, 1⟩, ⟨TokenType.SEMICOLON, ";", 1, 1⟩,
          ⟨TokenType.RBRACE, "\x7d", 1, 1⟩, Lexer.endToken] ∧
      ∀ fuel : Nat, parseSource fuel "\x7b kteb(1); \x7d" = ParseResult.outOfFuel := by
  have ht : tokenize "\x7b kteb(1); \x7d" =
      some [⟨TokenType.LBRACE, "\x7b", 1, 1⟩, ⟨TokenType.KTEB, "kteb", 1, 1⟩,
        ⟨TokenType.LPAREN, "(", 1, 1⟩, ⟨TokenType.NUMBER, "1", 1, 1⟩,
        ⟨TokenType.RPAREN, ")", 1, 1⟩, ⟨TokenType.SEMICOLON, ";", 1, 1⟩,
        ⟨TokenType.RBRACE, "\x7d", 1, 1⟩, Lexer.endToken] := by decide
  refine ⟨ht, ?_⟩
  intro fuel
  unfold parseSource
  rw [ht]
  simp only [parse]
  rw [if_neg (by simp)]
  cases fuel with
  | zero => rw [Parser.parseLoop]
  | succ n =>
    rw [Parser.parseLoop]
    have hcheck : Parser.check
        [⟨TokenType.LBRACE, "\x7b", 1, 1⟩, ⟨TokenType.KTEB, "kteb", 1, 1⟩,
          ⟨TokenType.LPAREN, "(", 1, 1⟩, ⟨TokenType.NUMBER, "1", 1, 1⟩,
          ⟨TokenType.RPAREN, ")", 1, 1⟩, ⟨TokenType.SEMICOLON, ";", 1, 1⟩,
          ⟨TokenType.RBRACE, "\x7d", 1, 1⟩, Lexer.endToken] 0 TokenType.END = false := by
      decide
    rw [hcheck, Parser.statement_at_brace _ 0 (by decide) n]
    rfl

/-! ## A block without its closing brace -/

/-- Claim C15, as stated, fails: the tokens of `ila (s7i7) \x7b kteb(1)` are
accepted; the block ends at the end token and the if node is returned. -/
theorem parse_accepts_open_block :
    parseSource 100 "ila (s7i7) \x7b kteb(1)" =
      ParseResult.ok
        [ASTNode.plain NodeType.IF
          [ASTNode.leaf NodeType.BOOLEAN "s7i7",
           ASTNode.plain NodeType.BLOCK
             [ASTNode.plain NodeType.PRINT [ASTNode.leaf NodeType.NUMBER "1"]]]] 9 := by
  decide!

/-- Claim C15, amended: a token required through `consume` that is absent is
a fatal parse fault carrying the text of the offending token, but the closing
brace of a block is not required: a block whose statements reach the end
token is returned with those statements, without a fault; so
`ila (s7i7 \x7b kteb(1) \x7d` is rejected for its missing `)` and
`ila (s7i7) \x7b kteb(1)` is accepted. -/
theorem missing_token :
    (∀ (tokens : List Token) (pos : Nat) (type : TokenType) (message : String),
      (Parser.peek tokens pos).type ≠ type →
      Parser.consume tokens pos type message =
        ParseResult.fault (ParseFault.expected message (Parser.peek tokens pos).value)) ∧
    (∀ (fuel : Nat) (tokens : List Token) (pos pos1 : Nat) (statements : List ASTNode),
      Parser.blockLoop fuel tokens [] pos = ParseResult.ok statements pos1 →
      (Parser.peek tokens pos1).type = TokenType.END →
      Parser.block (fuel + 1) tokens pos =
        ParseResult.ok (ASTNode.plain NodeType.BLOCK statements) pos1) ∧
    parseSource 100 "ila (s7i7 \x7b kteb(1) \x7d" =
      ParseResult.fault (ParseFault.expected "Expected ')' after condition" "\x7b") ∧
    parseSource 100 "ila (s7i7) \x7b kteb(1)" =
      ParseResult.ok
        [ASTNode.plain NodeType.IF
          [ASTNode.leaf NodeType.BOOLEAN "s7i7",
           ASTNode.plain NodeType.BLOCK
             [ASTNode.plain NodeType.PRINT [ASTNode.leaf NodeType.NUMBER "1"]]]] 9 := by
  refine ⟨?_, ?_, by decide!, by decide!⟩
  · intro tokens pos type message h
    unfold Parser.consume Parser.check
    rw [if_neg (by simpa using h)]
  · intro fuel tokens pos pos1 statements hloop hend
    rw [Parser.block, hloop]
    simp [ParseResult.bind, Parser.check, hend]

/-- Claim C15, amended, at the tokens `kteb ( 1` followed by the end token:
`consume` of the missing `)` faults, and the block that starts at `kteb`
ends at the end token. -/
theorem missing_token_witness :
    (Parser.peek [⟨TokenType.KTEB, "kteb", 1, 1⟩, ⟨TokenType.LPAREN, "(", 1, 1⟩,
        ⟨TokenType.NUMBER, "1", 1, 1⟩, Lexer.endToken] 3).type ≠ TokenType.RPAREN ∧
      Parser.consume [⟨TokenType.KTEB, "kteb", 1, 1⟩, ⟨TokenType.LPAREN, "(", 1, 1⟩,
        ⟨TokenType.NUMBER, "1", 1, 1⟩, Lexer.endToken] 3 TokenType.RPAREN "Expected ')'" =
        ParseResult.fault (ParseFault.expected "Expected ')'"
          (Parser.peek [⟨TokenType.KTEB, "kteb", 1, 1⟩, ⟨TokenType.LPAREN, "(", 1, 1⟩,
            ⟨TokenType.NUMBER, "1", 1, 1⟩, Lexer.endToken] 3).value) ∧
      Parser.blockLoop 20 [⟨TokenType.NUMBER, "1", 1, 1⟩, Lexer.endToken] [] 0 =
        ParseResult.ok [ASTNode.leaf NodeType.NUMBER "1"] 1 ∧
      (Parser.peek [⟨TokenType.NUMBER, "1", 1, 1⟩, Lexer.endToken] 1).type = TokenType.END ∧
      Parser.block (20 + 1) [⟨TokenType.NUMBER, "1", 1, 1⟩, Lexer.endToken] 0 =
        ParseResult.ok (ASTNode.plain NodeType.BLOCK [ASTNode.leaf NodeType.NUMBER "1"]) 1 :=
  ⟨by decide, missing_token.1 _ 3 TokenType.RPAREN "Expected ')'" (by decide),
    by decide!, by decide,
    missing_token.2.1 20 _ 0 1 _ (by decide!) (by decide)⟩

/-! ## The two roles of `wla` -/

theorem Parser.binaryLoop_stop (isOp : List Token → Nat → Bool)
    (next : Nat → ParseResult ASTNode) (fuel : Nat) (tokens : List Token) (expr : ASTNode)
    (pos : Nat) (h : isOp tokens pos = false) :
    Parser.binaryLoop isOp next (fuel + 1) tokens expr pos = ParseResult.ok expr pos := by
  rw [Parser.binaryLoop]
  simp [h]

theorem Parser.binaryLoop_step (isOp : List Token → Nat → Bool)
    (next : Nat → ParseResult ASTNode) (fuel : Nat) (tokens : List Token) (expr : ASTNode)
    (pos : Nat) (h : isOp tokens pos = true) :
    Parser.binaryLoop isOp next (fuel + 1) tokens expr pos =
      (next (Parser.advance tokens pos)).bind fun right pos1 =>
        Parser.binaryLoop isOp next fuel tokens
          (ASTNode.binary (Parser.peek tokens pos).value expr right) pos1 := by
  rw [Parser.binaryLoop]
  simp only [h, if_true]
  cases next (Parser.advance tokens pos) <;> rfl

theorem Parser.ifStatement_else (fuel : Nat) (tokens : List Token)
    (pos0 pos1 pos2 pos3 pos4 pos5 pos6 pos7 : Nat) (t1 t2 t4 t5 : Token)
    (condition thenBlock : ASTNode) (children : List ASTNode)
    (h1 : Parser.consume tokens pos0 TokenType.ILA "Expected 'ila'" = ParseResult.ok t1 pos1)
    (h2 : Parser.consume tokens pos1 TokenType.LPAREN "Expected '(' after ila" =
      ParseResult.ok t2 pos2)
    (h3 : Parser.expression fuel tokens pos2 = ParseResult.ok condition pos3)
    (h4 : Parser.consume tokens pos3 TokenType.RPAREN "Expected ')' after condition" =
      ParseResult.ok t4 pos4)
    (h5 : Parser.consume tokens pos4 TokenType.LBRACE "Expected '\x7b' for if block" =
      ParseResult.ok t5 pos5)
    (h6 : Parser.block fuel tokens pos5 = ParseResult.ok thenBlock pos6)
    (h7 : Parser.elseIfLoop fuel tokens [condition, thenBlock] pos6 =
      ParseResult.ok children pos7) :
    Parser.ifStatement (fuel + 1) tokens pos0 =
      if Parser.isOrOp tokens pos7 = true then
        (Parser.consume tokens (Parser.advance tokens pos7) TokenType.LBRACE
          "Expected '\x7b' for else block").bind fun _ pos8 =>
        (Parser.block fuel tokens pos8).bind fun elseBlock pos9 =>
        ParseResult.ok (ASTNode.plain NodeType.IF (children ++ [elseBlock])) pos9
      else ParseResult.ok (ASTNode.plain NodeType.IF children) pos7 := by
  rw [Parser.ifStatement]
  simp only [h1, h2, h3, h4, h5, h6, h7, ParseResult.bind, Parser.isOrOp, Bool.and_eq_true,
    decide_eq_true_eq, ne_eq, decide_not, Bool.not_eq_true', decide_eq_false_iff_not]

/-- Claim C17, as stated, fails: at `a wla w b` the logical-or production
returns `a` alone and stops at the `wla`, which it does not consume; no
binary node is built. -/
theorem logicalOr_leaves_wla_before_w :
    Parser.logicalOr 20 Example.tokensOrAnd 0 =
      ParseResult.ok (ASTNode.leaf NodeType.IDENTIFIER "a") 1 := by
  decide!

/-- Claim C17, amended: the logical-or production and the else handling of an
if statement decide by the same lookahead, and both take a `wla` only when
the token after it is not `w`. At a `wla` followed by `w` the loop of the
logical-or production stops without consuming it, and an if statement ends
there without an else clause; at a `wla` followed by another token the loop
consumes it and builds a binary node with the operand that follows. -/
theorem wla_lookahead :
    (∀ (next : Nat → ParseResult ASTNode) (fuel : Nat) (tokens : List Token) (expr : ASTNode)
        (pos : Nat),
      (Parser.peek tokens pos).type = TokenType.WLA →
      (Parser.peekNext tokens pos).type = TokenType.W →
      Parser.isOrOp tokens pos = false ∧
        Parser.binaryLoop Parser.isOrOp next (fuel + 1) tokens expr pos =
          ParseResult.ok expr pos) ∧
    (∀ (next : Nat → ParseResult ASTNode) (fuel : Nat) (tokens : List Token) (expr : ASTNode)
        (pos : Nat),
      (Parser.peek tokens pos).type = TokenType.WLA →
      (Parser.peekNext tokens pos).type ≠ TokenType.W →
      Parser.isOrOp tokens pos = true ∧
        Parser.binaryLoop Parser.isOrOp next (fuel + 1) tokens expr pos =
          (next (Parser.advance tokens pos)).bind fun right pos1 =>
            Parser.binaryLoop Parser.isOrOp next fuel tokens
              (ASTNode.binary (Parser.peek tokens pos).value expr right) pos1) ∧
    (∀ (fuel : Nat) (tokens : List Token) (pos0 pos1 pos2 pos3 pos4 pos5 pos6 pos7 : Nat)
        (t1 t2 t4 t5 : Token) (condition thenBlock : ASTNode) (children : List ASTNode),
      Parser.consume tokens pos0 TokenType.ILA "Expected 'ila'" = ParseResult.ok t1 pos1 →
      Parser.consume tokens pos1 TokenType.LPAREN "Expected '(' after ila" =
        ParseResult.ok t2 pos2 →
      Parser.expression fuel tokens pos2 = ParseResult.ok condition pos3 →
      Parser.consume tokens pos3 TokenType.RPAREN "Expected ')' after condition" =
        ParseResult.ok t4 pos4 →
      Parser.consume tokens pos4 TokenType.LBRACE "Expected '\x7b' for if block" =
        ParseResult.ok t5 pos5 →
      Parser.block fuel tokens pos5 = ParseResult.ok thenBlock pos6 →
      Parser.elseIfLoop fuel tokens [condition, thenBlock] pos6 =
        ParseResult.ok children pos7 →
      Parser.ifStatement (fuel + 1) tokens pos0 =
        if Parser.isOrOp tokens pos7 = true then
          (Parser.consume tokens (Parser.advance tokens pos7) TokenType.LBRACE
            "Expected '\x7b' for else block").bind fun _ pos8 =>
          (Parser.block fuel tokens pos8).bind fun elseBlock pos9 =>
          ParseResult.ok (ASTNode.plain NodeType.IF (children ++ [elseBlock])) pos9
        else ParseResult.ok (ASTNode.plain NodeType.IF children) pos7) ∧
    parseSource 100 "kteb(a wla b)" =
      ParseResult.ok
        [ASTNode.plain NodeType.PRINT
          [ASTNode.binary "wla" (ASTNode.leaf NodeType.IDENTIFIER "a")
            (ASTNode.leaf NodeType.IDENTIFIER "b")]] 6 ∧
    parseSource 100 "kteb(a wla w b)" =
      ParseResult.fault (ParseFault.expected "Expected ')' after kteb arguments" "wla") ∧
    parseSource 100 "ila (s7i7) \x7b \x7d wla w" =
      ParseResult.fault (ParseFault.unexpected "wla") := by
  refine ⟨?_, ?_, ?_, by decide!, by decide!, by decide!⟩
  · intro next fuel tokens expr pos h1 h2
    have h : Parser.isOrOp tokens pos = false := by simp [Parser.isOrOp, h1, h2]
    exact ⟨h, Parser.binaryLoop_stop _ _ _ _ _ _ h⟩
  · intro next fuel tokens expr pos h1 h2
    have h : Parser.isOrOp tokens pos = true := by simp [Parser.isOrOp, h1, h2]
    exact ⟨h, Parser.binaryLoop_step _ _ _ _ _ _ h⟩
  · intro fuel tokens pos0 pos1 pos2 pos3 pos4 pos5 pos6 pos7 t1 t2 t4 t5 condition thenBlock
      children h1 h2 h3 h4 h5 h6 h7
    exact Parser.ifStatement_else fuel tokens pos0 pos1 pos2 pos3 pos4 pos5 pos6 pos7 t1 t2 t4
      t5 condition thenBlock children h1 h2 h3 h4 h5 h6 h7

/-- Claim C17, amended, at the tokens of `a wla w b`, of `a wla b` and of
`ila (s7i7) \x7b \x7d wla w`. -/
theorem wla_lookahead_witness :
    ((Parser.peek Example.tokensOrAnd 1).type = TokenType.WLA ∧
      (Parser.peekNext Example.tokensOrAnd 1).type = TokenType.W ∧
      Parser.isOrOp Example.tokensOrAnd 1 = false ∧
      Parser.binaryLoop Parser.isOrOp (fun p => Parser.logicalAnd 18 Example.tokensOrAnd p)
        (18 + 1) Example.tokensOrAnd (ASTNode.leaf NodeType.IDENTIFIER "a") 1 =
        ParseResult.ok (ASTNode.leaf NodeType.IDENTIFIER "a") 1) ∧
    ((Parser.peek Example.tokensOr 1).type = TokenType.WLA ∧
      (Parser.peekNext Example.tokensOr 1).type ≠ TokenType.W ∧
      Parser.isOrOp Example.tokensOr 1 = true ∧
      Parser.binaryLoop Parser.isOrOp (fun p => Parser.logicalAnd 18 Example.tokensOr p)
        (18 + 1) Example.tokensOr (ASTNode.leaf NodeType.IDENTIFIER "a") 1 =
        ParseResult.ok (ASTNode.binary "wla" (ASTNode.leaf NodeType.IDENTIFIER "a")
          (ASTNode.leaf NodeType.IDENTIFIER "b")) 3) ∧
    Parser.isOrOp Example.tokensIfOrAnd 6 = false ∧
    Parser.ifStatement (20 + 1) Example.tokensIfOrAnd 0 =
      ParseResult.ok (ASTNode.plain NodeType.IF
        [ASTNode.leaf NodeType.BOOLEAN "s7i7", ASTNode.plain NodeType.BLOCK []]) 6 := by
  refine ⟨⟨by decide, by decide, ?_⟩, ⟨by decide, by decide, ?_, ?_⟩, by decide, ?_⟩
  · exact wla_lookahead.1 _ 18 Example.tokensOrAnd _ 1 (by decide) (by decide)
  · exact (wla_lookahead.2.1 (fun p => Parser.logicalAnd 18 Example.tokensOr p) 18
      Example.tokensOr (ASTNode.leaf NodeType.IDENTIFIER "a") 1 (by decide) (by decide)).1
  · rw [(wla_lookahead.2.1 (fun p => Parser.logicalAnd 18 Example.tokensOr p) 18
      Example.tokensOr (ASTNode.leaf NodeType.IDENTIFIER "a") 1 (by decide) (by decide)).2]
    decide!
  · rw [wla_lookahead.2.2.1 20 Example.tokensIfOrAnd 0 1 2 3 4 5 6 6
      ⟨TokenType.ILA, "ila", 1, 1⟩ ⟨TokenType.LPAREN, "(", 1, 1⟩ ⟨TokenType.RPAREN, ")", 1, 1⟩
      ⟨TokenType.LBRACE, "\x7b", 1, 1⟩ (ASTNode.leaf NodeType.BOOLEAN "s7i7")
      (ASTNode.plain NodeType.BLOCK [])
      [ASTNode.leaf NodeType.BOOLEAN "s7i7", ASTNode.plain NodeType.BLOCK []]
      (by decide) (by decide) (by decide!) (by decide) (by decide) (by decide!) (by decide!)]
    decide!

/-! ## Binding the parameters of a call -/

theorem Interpreter.bindLoop_cons (n : Nat) (p : String) (params : List String) (arg : ASTNode)
    (args : List ASTNode) (st : State) :
    Interpreter.bindLoop (n + 1) (p :: params) (arg :: args) st =
      (Interpreter.evaluate n arg st).bind fun value st1 =>
        Interpreter.bindLoop n params args { st1 with vars := assign st1.vars p value } := by
  rw [Interpreter.bindLoop]

theorem Interpreter.bindLoop_take : ∀ (n : Nat) (params : List String) (args : List ASTNode)
    (st : State),
    Interpreter.bindLoop n params args st =
      Interpreter.bindLoop n (params.take args.length) args st := by
  intro n
  induction n with
  | zero => intro params args st; simp [Interpreter.bindLoop]
  | succ n ih =>
    intro params args st
    cases args with
    | nil =>
      cases params with
      | nil => rfl
      | cons p params =>
        simp [Interpreter.bindLoop]
    | cons arg args =>
      cases params with
      | nil => rfl
      | cons p params =>
        simp only [List.length_cons, List.take_succ_cons]
        rw [Interpreter.bindLoop_cons, Interpreter.bindLoop_cons]
        congr 1
        funext value st1
        exact ih params args _

theorem Interpreter.evaluate_identifier (n : Nat) (node : ASTNode) (st : State)
    (h : node.type = NodeType.IDENTIFIER) :
    Interpreter.evaluate (n + 1) node st =
      match st.vars.lookup node.value with
      | some v => Outcome.ok v st
      | none => Outcome.fault (Fault.undefinedVariable node.value) st.out := by
  rw [Interpreter.evaluate]
  simp only [h]

/-- Claim C19, as stated, fails: with `dir a = 1` and
`dalla f(a, b) \x7b rje3 b \x7d`, the call `f(5, a)` yields `5`: the second
argument is evaluated after the first parameter has been bound to `5`. -/
theorem call_argument_reads_parameter :
    (interpret 100 "dir a = 1; dalla f(a, b) \x7b rje3 b \x7d; dir r = f(5, a)").final.map
        State.vars = some [("a", "1"), ("r", "5")] := by
  decide!

/-- Claim C19, amended: the arguments of a call are evaluated left to right,
each in the variable store as left by the previous arguments and by the
bindings already made for the earlier parameters; an argument that names an
earlier parameter reads the value just bound to it, so with `dir a = 1` and
`dalla f(a, b) \x7b rje3 b \x7d` the call `f(5, a)` yields `5`. -/
theorem arguments_see_earlier_parameters :
    (∀ (n : Nat) (p : String) (params : List String) (arg : ASTNode) (args : List ASTNode)
        (st : State),
      Interpreter.bindLoop (n + 1) (p :: params) (arg :: args) st =
        (Interpreter.evaluate n arg st).bind fun value st1 =>
          Interpreter.bindLoop n params args
            { st1 with vars := assign st1.vars p value }) ∧
    (∀ (n : Nat) (p1 p2 : String) (a1 : ASTNode) (st0 st1 : State) (v1 : String),
      Interpreter.evaluate (n + 2) a1 st0 = Outcome.ok v1 st1 →
      Interpreter.bindLoop (n + 3) [p1, p2] [a1, ASTNode.leaf NodeType.IDENTIFIER p1] st0 =
        Outcome.ok () { st1 with vars := assign (assign st1.vars p1 v1) p2 v1 }) ∧
    (interpret 100 "dir a = 1; dalla f(a, b) \x7b rje3 b \x7d kteb(f(5, a))").final.map
      State.out = some "5\n" := by
  refine ⟨Interpreter.bindLoop_cons, ?_, by decide!⟩
  intro n p1 p2 a1 st0 st1 v1 h
  rw [Interpreter.bindLoop_cons, h]
  simp only [Outcome.bind]
  rw [Interpreter.bindLoop_cons,
    Interpreter.evaluate_identifier n (ASTNode.leaf NodeType.IDENTIFIER p1) _ rfl]
  simp [ASTNode.leaf, ASTNode.value, lookup_assign_self, Outcome.bind, Interpreter.bindLoop]

/-- Claim C19, amended, at the call `f(5, a)` with `a = 1` in the store. -/
theorem arguments_see_earlier_parameters_witness :
    Interpreter.evaluate (0 + 2) (ASTNode.leaf NodeType.NUMBER "5")
        ⟨[("a", "1")], [], "", false, ""⟩ =
        Outcome.ok "5" ⟨[("a", "1")], [], "", false, ""⟩ ∧
      Interpreter.bindLoop (0 + 3) ["a", "b"]
          [ASTNode.leaf NodeType.NUMBER "5", ASTNode.leaf NodeType.IDENTIFIER "a"]
          ⟨[("a", "1")], [], "", false, ""⟩ =
        Outcome.ok () ⟨[("a", "5"), ("b", "5")], [], "", false, ""⟩ := by
  refine ⟨by decide!, ?_⟩
  rw [arguments_see_earlier_parameters.2.1 0 "a" "b" (ASTNode.leaf NodeType.NUMBER "5")
    ⟨[("a", "1")], [], "", false, ""⟩ ⟨[("a", "1")], [], "", false, ""⟩ "5" (by decide!)]
  decide

/-- Claim C20, as stated, fails: a parameter without an argument is not
unbound when the store at the call holds a variable of that name; with
`dir b = 7`, the call `f(1)` of `dalla f(a, b) \x7b rje3 b \x7d` reads `7`
and ends without a fault. -/
theorem missing_argument_reads_caller :
    (interpret 100 "dir b = 7; dalla f(a, b) \x7b rje3 b \x7d kteb(f(1))").final.map
        State.out = some "7\n" := by
  decide!

/-- Claim C20, amended: a call binds only as many parameters as it has
arguments and leaves the names of the other parameters as they are in the
store at the call; reading a name that the store does not hold is the
undefined-variable fault, and a name that the store holds yields its value;
so `f(1)` for `dalla f(a, b) \x7b rje3 b \x7d` faults on `b` when no variable
`b` exists and yields the caller's `b` when one does. -/
theorem missing_arguments :
    (∀ (n : Nat) (params : List String) (args : List ASTNode) (st : State),
      Interpreter.bindLoop n params args st =
        Interpreter.bindLoop n (params.take args.length) args st) ∧
    (∀ (n : Nat) (params : List String) (st : State),
      Interpreter.bindLoop (n + 1) params [] st = Outcome.ok () st) ∧
    (∀ (n : Nat) (node : ASTNode) (st : State),
      node.type = NodeType.IDENTIFIER →
      (st.vars.lookup node.value = none →
          Interpreter.evaluate (n + 1) node st =
            Outcome.fault (Fault.undefinedVariable node.value) st.out) ∧
        (∀ v, st.vars.lookup node.value = some v →
          Interpreter.evaluate (n + 1) node st = Outcome.ok v st)) ∧
    interpret 100 "dalla f(a, b) \x7b rje3 b \x7d kteb(f(1))" =
      Execution.ran (Outcome.fault (Fault.undefinedVariable "b") "") ∧
    (interpret 100 "dir b = 7; dalla f(a, b) \x7b rje3 b \x7d kteb(f(1))").final.map
      State.out = some "7\n" := by
  refine ⟨Interpreter.bindLoop_take, ?_, ?_, by decide!, by decide!⟩
  · intro n params st
    cases params <;> simp [Interpreter.bindLoop]
  · intro n node st h
    rw [Interpreter.evaluate_identifier n node st h]
    constructor
    · intro h0; rw [h0]
    · intro v h0; rw [h0]

/-- Claim C20, amended, at the identifier `b` in the empty store and in the
store with `b = 7`. -/
theorem missing_arguments_witness :
    (ASTNode.leaf NodeType.IDENTIFIER "b").type = NodeType.IDENTIFIER ∧
      State.initial.vars.lookup (ASTNode.leaf NodeType.IDENTIFIER "b").value = none ∧
      Interpreter.evaluate (0 + 1) (ASTNode.leaf NodeType.IDENTIFIER "b") State.initial =
        Outcome.fault (Fault.undefinedVariable (ASTNode.leaf NodeType.IDENTIFIER "b").value)
          State.initial.out ∧
      Interpreter.evaluate (0 + 1) (ASTNode.leaf NodeType.IDENTIFIER "b")
          ⟨[("b", "7")], [], "", false, ""⟩ =
        Outcome.ok "7" ⟨[("b", "7")], [], "", false, ""⟩ :=
  ⟨by decide, by decide,
    (missing_arguments.2.2.1 0 (ASTNode.leaf NodeType.IDENTIFIER "b") State.initial
      (by decide)).1 (by decide),
    (missing_arguments.2.2.1 0 (ASTNode.leaf NodeType.IDENTIFIER "b")
      ⟨[("b", "7")], [], "", false, ""⟩ (by decide)).2 "7" (by decide)⟩

/-! ## More fuel does not change a result -/

theorem outcomeExt_refl {α : Type} (r : Outcome α) : Outcome.Ext r r := Or.inr rfl

theorem outcomeExt_bind {α β : Type} {r r' : Outcome α} {f g : α → State → Outcome β}
    (h : Outcome.Ext r r') (hf : ∀ a st, Outcome.Ext (f a st) (g a st)) :
    Outcome.Ext (r.bind f) (r'.bind g) := by
  rcases h with h | h
  · left; rw [h]; rfl
  · rw [← h]
    cases r with
    | ok a st => exact hf a st
    | fault e out => right; rfl
    | outOfFuel => left; rfl

theorem outcomeExt_ite {α : Type} {c : Prop} [Decidable c] {a a' b b' : Outcome α}
    (ha : Outcome.Ext a a') (hb : Outcome.Ext b b') :
    Outcome.Ext (if c then a else b) (if c then a' else b') := by
  split
  · exact ha
  · exact hb

theorem outcomeExt_eq_ok {α : Type} {r r' : Outcome α} {a : α} {st : State}
    (h : Outcome.Ext r r') (hr : r = Outcome.ok a st) : r' = Outcome.ok a st := by
  rcases h with h | h
  · rw [h] at hr; cases hr
  · rw [← h]; exact hr

theorem Interpreter.interpreter_fuel_step : ∀ n : Nat,
    (∀ node st, Outcome.Ext (Interpreter.execute n node st)
      (Interpreter.execute (n + 1) node st)) ∧
    (∀ args i st, Outcome.Ext (Interpreter.printLoop n args i st)
      (Interpreter.printLoop (n + 1) args i st)) ∧
    (∀ cs st, Outcome.Ext (Interpreter.elseLoop n cs st)
      (Interpreter.elseLoop (n + 1) cs st)) ∧
    (∀ node st, Outcome.Ext (Interpreter.whileLoop n node st)
      (Interpreter.whileLoop (n + 1) node st)) ∧
    (∀ node st, Outcome.Ext (Interpreter.forLoop n node st)
      (Interpreter.forLoop (n + 1) node st)) ∧
    (∀ stmts st, Outcome.Ext (Interpreter.blockLoop n stmts st)
      (Interpreter.blockLoop (n + 1) stmts st)) ∧
    (∀ params args st, Outcome.Ext (Interpreter.bindLoop n params args st)
      (Interpreter.bindLoop (n + 1) params args st)) ∧
    (∀ node st, Outcome.Ext (Interpreter.evaluate n node st)
      (Interpreter.evaluate (n + 1) node st)) := by
  intro n
  induction n with
  | zero =>
    refine ⟨?_, ?_, ?_, ?_, ?_, ?_, ?_, ?_⟩ <;> intros <;> left <;>
      first
        | rw [Interpreter.execute] | rw [Interpreter.printLoop] | rw [Interpreter.elseLoop]
        | rw [Interpreter.whileLoop] | rw [Interpreter.forLoop] | rw [Interpreter.blockLoop]
        | rw [Interpreter.bindLoop] | rw [Interpreter.evaluate]
  | succ n ih =>
    obtain ⟨ihExec, ihPrint, ihElse, ihWhile, ihFor, ihBlock, ihBind, ihEval⟩ := ih
    refine ⟨?_, ?_, ?_, ?_, ?_, ?_, ?_, ?_⟩
    · intro node st
      rw [Interpreter.execute, Interpreter.execute]
      generalize node.type = t
      cases t <;> dsimp only <;>
        with_reducible repeat' first
          | exact ihExec _ _ | exact ihPrint _ _ _ | exact ihElse _ _ | exact ihWhile _ _
          | exact ihFor _ _ | exact ihBlock _ _ | exact ihBind _ _ _ | exact ihEval _ _
          | exact outcomeExt_refl _
          | apply outcomeExt_bind
          | apply outcomeExt_ite
          | intro _
    · intro args i st
      cases args with
      | nil => right; rw [Interpreter.printLoop, Interpreter.printLoop]
      | cons arg rest =>
        rw [Interpreter.printLoop, Interpreter.printLoop]
        with_reducible repeat' first
          | exact ihExec _ _ | exact ihPrint _ _ _ | exact ihElse _ _ | exact ihWhile _ _
          | exact ihFor _ _ | exact ihBlock _ _ | exact ihBind _ _ _ | exact ihEval _ _
          | exact outcomeExt_refl _
          | apply outcomeExt_bind
          | apply outcomeExt_ite
          | intro _
    · intro cs st
      cases cs with
      | nil => right; rw [Interpreter.elseLoop, Interpreter.elseLoop]
      | cons c rest =>
        rw [Interpreter.elseLoop, Interpreter.elseLoop]
        with_reducible repeat' first
          | exact ihExec _ _ | exact ihPrint _ _ _ | exact ihElse _ _ | exact ihWhile _ _
          | exact ihFor _ _ | exact ihBlock _ _ | exact ihBind _ _ _ | exact ihEval _ _
          | exact outcomeExt_refl _
          | apply outcomeExt_bind
          | apply outcomeExt_ite
          | intro _
    · intro node st
      rw [Interpreter.whileLoop, Interpreter.whileLoop]
      with_reducible repeat' first
        | exact ihExec _ _ | exact ihPrint _ _ _ | exact ihElse _ _ | exact ihWhile _ _
        | exact ihFor _ _ | exact ihBlock _ _ | exact ihBind _ _ _ | exact ihEval _ _
        | exact outcomeExt_refl _
        | apply outcomeExt_bind
        | apply outcomeExt_ite
        | intro _
    · intro node st
      rw [Interpreter.forLoop, Interpreter.forLoop]
      with_reducible repeat' first
        | exact ihExec _ _ | exact ihPrint _ _ _ | exact ihElse _ _ | exact ihWhile _ _
        | exact ihFor _ _ | exact ihBlock _ _ | exact ihBind _ _ _ | exact ihEval _ _
        | exact outcomeExt_refl _
        | apply outcomeExt_bind
        | apply outcomeExt_ite
        | intro _
    · intro stmts st
      cases stmts with
      | nil => right; rw [Interpreter.blockLoop, Interpreter.blockLoop]
      | cons stmt rest =>
        rw [Interpreter.blockLoop, Interpreter.blockLoop]
        with_reducible repeat' first
          | exact ihExec _ _ | exact ihPrint _ _ _ | exact ihElse _ _ | exact ihWhile _ _
          | exact ihFor _ _ | exact ihBlock _ _ | exact ihBind _ _ _ | exact ihEval _ _
          | exact outcomeExt_refl _
          | apply outcomeExt_bind
          | apply outcomeExt_ite
          | intro _
    · intro params args st
      cases params with
      | nil => right; simp [Interpreter.bindLoop]
      | cons p params =>
        cases args with
        | nil => right; simp [Interpreter.bindLoop]
        | cons arg args =>
          rw [Interpreter.bindLoop_cons, Interpreter.bindLoop_cons]
          with_reducible repeat' first
            | exact ihExec _ _ | exact ihPrint _ _ _ | exact ihElse _ _ | exact ihWhile _ _
            | exact ihFor _ _ | exact ihBlock _ _ | exact ihBind _ _ _ | exact ihEval _ _
            | exact outcomeExt_refl _
            | apply outcomeExt_bind
            | apply outcomeExt_ite
            | intro _
    · intro node st
      rw [Interpreter.evaluate, Interpreter.evaluate]
      generalize node.type = t
      cases t <;> dsimp only <;>
        with_reducible repeat' first
          | exact ihExec _ _ | exact ihPrint _ _ _ | exact ihElse _ _ | exact ihWhile _ _
          | exact ihFor _ _ | exact ihBlock _ _ | exact ihBind _ _ _ | exact ihEval _ _
          | exact outcomeExt_refl _
          | apply outcomeExt_bind
          | apply outcomeExt_ite
          | intro _
      -- the call: the table lookup, then the optional body
      generalize st.functions.lookup node.value = r
      cases r with
      | none => exact outcomeExt_refl _
      | some funcNode =>
        dsimp only
        apply outcomeExt_bind (ihBind _ _ _)
        intro _ st1
        apply outcomeExt_bind
        · cases funcNode.body with
          | none => exact outcomeExt_refl _
          | some body => exact ihExec _ _
        · intro _ _; exact outcomeExt_refl _

theorem parseExt_refl {α : Type} (r : ParseResult α) : ParseResult.Ext r r := Or.inr rfl

theorem parseExt_bind {α β : Type} {r r' : ParseResult α} {f g : α → Nat → ParseResult β}
    (h : ParseResult.Ext r r') (hf : ∀ a p, ParseResult.Ext (f a p) (g a p)) :
    ParseResult.Ext (r.bind f) (r'.bind g) := by
  rcases h with h | h
  · left; rw [h]; rfl
  · rw [← h]
    cases r with
    | ok a p => exact hf a p
    | fault e => right; rfl
    | outOfFuel => left; rfl

theorem parseExt_ite {α : Type} {c : Prop} [Decidable c] {a a' b b' : ParseResult α}
    (ha : ParseResult.Ext a a') (hb : ParseResult.Ext b b') :
    ParseResult.Ext (if c then a else b) (if c then a' else b') := by
  split
  · exact ha
  · exact hb

theorem parseExt_eq_ok {α : Type} {r r' : ParseResult α} {a : α} {p : Nat}
    (h : ParseResult.Ext r r') (hr : r = ParseResult.ok a p) : r' = ParseResult.ok a p := by
  rcases h with h | h
  · rw [h] at hr; cases hr
  · rw [← h]; exact hr

theorem Parser.skipSemicolons_ext : ∀ (n : Nat) (tokens : List Token) (pos : Nat),
    ParseResult.Ext (Parser.skipSemicolons n tokens pos)
      (Parser.skipSemicolons (n + 1) tokens pos) := by
  intro n
  induction n with
  | zero => intro tokens pos; left; rw [Parser.skipSemicolons]
  | succ n ih =>
    intro tokens pos
    rw [Parser.skipSemicolons, Parser.skipSemicolons]
    exact parseExt_ite (ih _ _) (parseExt_refl _)

theorem Parser.postfixLoop_ext : ∀ (n : Nat) (tokens : List Token) (expr : ASTNode) (pos : Nat),
    ParseResult.Ext (Parser.postfixLoop n tokens expr pos)
      (Parser.postfixLoop (n + 1) tokens expr pos) := by
  intro n
  induction n with
  | zero => intro tokens expr pos; left; rw [Parser.postfixLoop]
  | succ n ih =>
    intro tokens expr pos
    rw [Parser.postfixLoop, Parser.postfixLoop]
    exact parseExt_ite (ih _ _ _) (parseExt_refl _)

theorem Parser.paramLoop_ext : ∀ (n : Nat) (tokens : List Token) (params : List String)
    (pos : Nat),
    ParseResult.Ext (Parser.paramLoop n tokens params pos)
      (Parser.paramLoop (n + 1) tokens params pos) := by
  intro n
  induction n with
  | zero => intro tokens params pos; left; rw [Parser.paramLoop]
  | succ n ih =>
    intro tokens params pos
    rw [Parser.paramLoop, Parser.paramLoop]
    apply parseExt_ite _ (parseExt_refl _)
    cases Parser.consume tokens (Parser.advance tokens pos) TokenType.IDENT
        "Expected parameter name" with
    | ok t pos1 => exact ih _ _ _
    | fault f => exact parseExt_refl _
    | outOfFuel => exact parseExt_refl _

theorem Parser.binaryLoop_ext (isOp : List Token → Nat → Bool)
    (next next' : Nat → ParseResult ASTNode)
    (hnext : ∀ p, ParseResult.Ext (next p) (next' p)) :
    ∀ (n : Nat) (tokens : List Token) (expr : ASTNode) (pos : Nat),
    ParseResult.Ext (Parser.binaryLoop isOp next n tokens expr pos)
      (Parser.binaryLoop isOp next' (n + 1) tokens expr pos) := by
  intro n
  induction n with
  | zero => intro tokens expr pos; left; rw [Parser.binaryLoop]
  | succ n ih =>
    intro tokens expr pos
    rw [Parser.binaryLoop, Parser.binaryLoop]
    apply parseExt_ite _ (parseExt_refl _)
    rcases hnext (Parser.advance tokens pos) with h | h
    · rw [h]; left; rfl
    · rw [← h]
      cases next (Parser.advance tokens pos) with
      | ok right pos1 => exact ih _ _ _
      | fault f => exact parseExt_refl _
      | outOfFuel => exact parseExt_refl _

theorem Parser.parser_fuel_step : ∀ n : Nat,
    (∀ tokens pos, ParseResult.Ext (Parser.statement n tokens pos)
      (Parser.statement (n + 1) tokens pos)) ∧
    (∀ tokens pos, ParseResult.Ext (Parser.varDeclaration n tokens pos)
      (Parser.varDeclaration (n + 1) tokens pos)) ∧
    (∀ tokens children pos, ParseResult.Ext (Parser.argumentLoop n tokens children pos)
      (Parser.argumentLoop (n + 1) tokens children pos)) ∧
    (∀ tokens pos, ParseResult.Ext (Parser.arguments n tokens pos)
      (Parser.arguments (n + 1) tokens pos)) ∧
    (∀ tokens pos, ParseResult.Ext (Parser.printStatement n tokens pos)
      (Parser.printStatement (n + 1) tokens pos)) ∧
    (∀ tokens children pos, ParseResult.Ext (Parser.elseIfLoop n tokens children pos)
      (Parser.elseIfLoop (n + 1) tokens children pos)) ∧
    (∀ tokens pos, ParseResult.Ext (Parser.ifStatement n tokens pos)
      (Parser.ifStatement (n + 1) tokens pos)) ∧
    (∀ tokens pos, ParseResult.Ext (Parser.whileStatement n tokens pos)
      (Parser.whileStatement (n + 1) tokens pos)) ∧
    (∀ tokens pos, ParseResult.Ext (Parser.forStatement n tokens pos)
      (Parser.forStatement (n + 1) tokens pos)) ∧
    (∀ tokens pos, ParseResult.Ext (Parser.functionDeclaration n tokens pos)
      (Parser.functionDeclaration (n + 1) tokens pos)) ∧
    (∀ tokens pos, ParseResult.Ext (Parser.returnStatement n tokens pos)
      (Parser.returnStatement (n + 1) tokens pos)) ∧
    (∀ tokens statements pos, ParseResult.Ext (Parser.blockLoop n tokens statements pos)
      (Parser.blockLoop (n + 1) tokens statements pos)) ∧
    (∀ tokens pos, ParseResult.Ext (Parser.block n tokens pos)
      (Parser.block (n + 1) tokens pos)) ∧
    (∀ tokens pos, ParseResult.Ext (Parser.assignmentOrExpression n tokens pos)
      (Parser.assignmentOrExpression (n + 1) tokens pos)) ∧
    (∀ tokens pos, ParseResult.Ext (Parser.expression n tokens pos)
      (Parser.expression (n + 1) tokens pos)) ∧
    (∀ tokens pos, ParseResult.Ext (Parser.logicalOr n tokens pos)
      (Parser.logicalOr (n + 1) tokens pos)) ∧
    (∀ tokens pos, ParseResult.Ext (Parser.logicalAnd n tokens pos)
      (Parser.logicalAnd (n + 1) tokens pos)) ∧
    (∀ tokens pos, ParseResult.Ext (Parser.equality n tokens pos)
      (Parser.equality (n + 1) tokens pos)) ∧
    (∀ tokens pos, ParseResult.Ext (Parser.comparison n tokens pos)
      (Parser.comparison (n + 1) tokens pos)) ∧
    (∀ tokens pos, ParseResult.Ext (Parser.addition n tokens pos)
      (Parser.addition (n + 1) tokens pos)) ∧
    (∀ tokens pos, ParseResult.Ext (Parser.multiplication n tokens pos)
      (Parser.multiplication (n + 1) tokens pos)) ∧
    (∀ tokens pos, ParseResult.Ext (Parser.unary n tokens pos)
      (Parser.unary (n + 1) tokens pos)) ∧
    (∀ tokens pos, ParseResult.Ext (Parser.postfixExpr n tokens pos)
      (Parser.postfixExpr (n + 1) tokens pos)) ∧
    (∀ tokens pos, ParseResult.Ext (Parser.primary n tokens pos)
      (Parser.primary (n + 1) tokens pos)) ∧
    (∀ tokens nodes pos, ParseResult.Ext (Parser.parseLoop n tokens nodes pos)
      (Parser.parseLoop (n + 1) tokens nodes pos)) := by
  intro n
  induction n with
  | zero =>
    refine ⟨?_, ?_, ?_, ?_, ?_, ?_, ?_, ?_, ?_, ?_, ?_, ?_, ?_, ?_, ?_, ?_, ?_, ?_, ?_, ?_, ?_, ?_, ?_, ?_, ?_⟩
    · intros; left; rw [Parser.statement]
    · intros; left; rw [Parser.varDeclaration]
    · intros; left; rw [Parser.argumentLoop]
    · intros; left; rw [Parser.arguments]
    · intros; left; rw [Parser.printStatement]
    · intros; left; rw [Parser.elseIfLoop]
    · intros; left; rw [Parser.ifStatement]
    · intros; left; rw [Parser.whileStatement]
    · intros; left; rw [Parser.forStatement]
    · intros; left; rw [Parser.functionDeclaration]
    · intros; left; rw [Parser.returnStatement]
    · intros; left; rw [Parser.blockLoop]
    · intros; left; rw [Parser.block]
    · intros; left; rw [Parser.assignmentOrExpression]
    · intros; left; rw [Parser.expression]
    · intros; left; rw [Parser.logicalOr]
    · intros; left; rw [Parser.logicalAnd]
    · intros; left; rw [Parser.equality]
    · intros; left; rw [Parser.comparison]
    · intros; left; rw [Parser.addition]
    · intros; left; rw [Parser.multiplication]
    · intros; left; rw [Parser.unary]
    · intros; left; rw [Parser.postfixExpr]
    · intros; left; rw [Parser.primary]
    · intros; left; rw [Parser.parseLoop]
  | succ n ih =>
    obtain ⟨ihStatement, ihVarDeclaration, ihArgumentLoop, ihArguments, ihPrintStatement, ihElseIfLoop, ihIfStatement, ihWhileStatement, ihForStatement, ihFunctionDeclaration, ihReturnStatement, ihBlockLoop, ihBlock, ihAssignmentOrExpression, ihExpression, ihLogicalOr, ihLogicalAnd, ihEquality, ihComparison, ihAddition, ihMultiplication, ihUnary, ihPostfixExpr, ihPrimary, ihParseLoop⟩ := ih
    refine ⟨?_, ?_, ?_, ?_, ?_, ?_, ?_, ?_, ?_, ?_, ?_, ?_, ?_, ?_, ?_, ?_, ?_, ?_, ?_, ?_, ?_, ?_, ?_, ?_, ?_⟩
    · intro tokens pos
      rw [Parser.statement, Parser.statement]
      apply parseExt_bind (Parser.skipSemicolons_ext _ _ _)
      intro _ pos1
      apply parseExt_ite (parseExt_refl _)
      generalize (Parser.peek tokens pos1).type = t
      cases t <;> dsimp only <;>
        with_reducible repeat' first
          | exact ihVarDeclaration _ _
          | exact ihPrintStatement _ _
          | exact ihIfStatement _ _
          | exact ihWhileStatement _ _
          | exact ihForStatement _ _
          | exact ihFunctionDeclaration _ _
          | exact ihReturnStatement _ _
          | exact ihBlock _ _
          | exact ihAssignmentOrExpression _ _
          | exact parseExt_refl _
          | apply parseExt_bind
          | intro _
    · intro tokens pos
      rw [Parser.varDeclaration, Parser.varDeclaration]
      with_reducible repeat' first
        | exact ihExpression _ _
        | exact parseExt_refl _
        | apply parseExt_bind
        | intro _
    · intro tokens children pos
      rw [Parser.argumentLoop, Parser.argumentLoop]
      with_reducible repeat' first
        | exact ihExpression _ _
        | exact ihArgumentLoop _ _ _
        | exact parseExt_refl _
        | apply parseExt_bind
        | apply parseExt_ite
        | intro _
    · intro tokens pos
      rw [Parser.arguments, Parser.arguments]
      with_reducible repeat' first
        | exact ihExpression _ _
        | exact ihArgumentLoop _ _ _
        | exact parseExt_refl _
        | apply parseExt_bind
        | apply parseExt_ite
        | intro _
    · intro tokens pos
      rw [Parser.printStatement, Parser.printStatement]
      with_reducible repeat' first
        | exact ihArguments _ _
        | exact parseExt_refl _
        | apply parseExt_bind
        | intro _
    · intro tokens children pos
      rw [Parser.elseIfLoop, Parser.elseIfLoop]
      with_reducible repeat' first
        | exact ihExpression _ _
        | exact ihBlock _ _
        | exact ihElseIfLoop _ _ _
        | exact parseExt_refl _
        | apply parseExt_bind
        | apply parseExt_ite
        | intro _
    · intro tokens pos
      rw [Parser.ifStatement, Parser.ifStatement]
      with_reducible repeat' first
        | exact ihExpression _ _
        | exact ihBlock _ _
        | exact ihElseIfLoop _ _ _
        | exact parseExt_refl _
        | apply parseExt_bind
        | apply parseExt_ite
        | intro _
    · intro tokens pos
      rw [Parser.whileStatement, Parser.whileStatement]
      with_reducible repeat' first
        | exact ihExpression _ _
        | exact ihBlock _ _
        | exact parseExt_refl _
        | apply parseExt_bind
        | intro _
    · intro tokens pos
      rw [Parser.forStatement, Parser.forStatement]
      with_reducible repeat' first
        | exact ihAssignmentOrExpression _ _
        | exact ihExpression _ _
        | exact ihBlock _ _
        | exact parseExt_refl _
        | apply parseExt_bind
        | intro _
    · intro tokens pos
      rw [Parser.functionDeclaration, Parser.functionDeclaration]
      with_reducible repeat' first
        | exact ihBlock _ _
        | exact Parser.paramLoop_ext _ _ _ _
        | exact parseExt_refl _
        | apply parseExt_bind
        | apply parseExt_ite
        | intro _
    · intro tokens pos
      rw [Parser.returnStatement, Parser.returnStatement]
      with_reducible repeat' first
        | exact ihExpression _ _
        | exact parseExt_refl _
        | apply parseExt_bind
        | apply parseExt_ite
        | intro _
    · intro tokens statements pos
      rw [Parser.blockLoop, Parser.blockLoop]
      apply parseExt_ite _ (parseExt_refl _)
      apply parseExt_bind (ihStatement _ _)
      intro stmt pos1
      apply parseExt_bind (Parser.skipSemicolons_ext _ _ _)
      intro _ pos2
      cases stmt <;> exact ihBlockLoop _ _ _
    · intro tokens pos
      rw [Parser.block, Parser.block]
      with_reducible repeat' first
        | exact ihBlockLoop _ _ _
        | exact parseExt_refl _
        | apply parseExt_bind
        | intro _
    · intro tokens pos
      rw [Parser.assignmentOrExpression, Parser.assignmentOrExpression]
      with_reducible repeat' first
        | exact ihExpression _ _
        | exact parseExt_refl _
        | apply parseExt_bind
        | apply parseExt_ite
        | intro _
    · intro tokens pos
      rw [Parser.expression, Parser.expression]
      with_reducible repeat' first
        | exact ihLogicalOr _ _
    · intro tokens pos
      rw [Parser.logicalOr, Parser.logicalOr]
      with_reducible repeat' first
        | exact ihLogicalAnd _ _
        | apply Parser.binaryLoop_ext
        | apply parseExt_bind
        | intro _
    · intro tokens pos
      rw [Parser.logicalAnd, Parser.logicalAnd]
      with_reducible repeat' first
        | exact ihEquality _ _
        | apply Parser.binaryLoop_ext
        | apply parseExt_bind
        | intro _
    · intro tokens pos
      rw [Parser.equality, Parser.equality]
      with_reducible repeat' first
        | exact ihComparison _ _
        | apply Parser.binaryLoop_ext
        | apply parseExt_bind
        | intro _
    · intro tokens pos
      rw [Parser.comparison, Parser.comparison]
      with_reducible repeat' first
        | exact ihAddition _ _
        | apply Parser.binaryLoop_ext
        | apply parseExt_bind
        | intro _
    · intro tokens pos
      rw [Parser.addition, Parser.addition]
      with_reducible repeat' first
        | exact ihMultiplication _ _
        | apply Parser.binaryLoop_ext
        | apply parseExt_bind
        | intro _
    · intro tokens pos
      rw [Parser.multiplication, Parser.multiplication]
      with_reducible repeat' first
        | exact ihUnary _ _
        | apply Parser.binaryLoop_ext
        | apply parseExt_bind
        | intro _
    · intro tokens pos
      rw [Parser.unary, Parser.unary]
      with_reducible repeat' first
        | exact ihUnary _ _
        | exact ihPostfixExpr _ _
        | exact parseExt_refl _
        | apply parseExt_bind
        | apply parseExt_ite
        | intro _
    · intro tokens pos
      rw [Parser.postfixExpr, Parser.postfixExpr]
      with_reducible repeat' first
        | exact ihPrimary _ _
        | exact Parser.postfixLoop_ext _ _ _ _
        | apply parseExt_bind
        | intro _
    · intro tokens pos
      rw [Parser.primary, Parser.primary]
      with_reducible repeat' first
        | exact ihArguments _ _
        | exact ihExpression _ _
        | exact parseExt_refl _
        | apply parseExt_bind
        | apply parseExt_ite
        | intro _
    · intro tokens nodes pos
      rw [Parser.parseLoop, Parser.parseLoop]
      apply parseExt_ite _ (parseExt_refl _)
      apply parseExt_bind (ihStatement _ _)
      intro stmt pos1
      apply parseExt_bind (Parser.skipSemicolons_ext _ _ _)
      intro _ pos2
      cases stmt <;> exact ihParseLoop _ _ _

/-! ## Precedence and associativity -/

theorem parse_ok_of_le {α : Type} {f : Nat → ParseResult α}
    (hf : ∀ n, ParseResult.Ext (f n) (f (n + 1))) {n m : Nat} (h : n ≤ m) {a : α} {p : Nat}
    (hn : f n = ParseResult.ok a p) : f m = ParseResult.ok a p := by
  induction h with
  | refl => exact hn
  | step _ ih => exact parseExt_eq_ok (hf _) ih

theorem Parser.expression_mono {n m : Nat} (h : n ≤ m) {tokens : List Token} {pos : Nat}
    {a : ASTNode} {p : Nat} (hn : Parser.expression n tokens pos = ParseResult.ok a p) :
    Parser.expression m tokens pos = ParseResult.ok a p :=
  parse_ok_of_le (f := fun n => Parser.expression n tokens pos)
    (fun n => (Parser.parser_fuel_step n).2.2.2.2.2.2.2.2.2.2.2.2.2.2.1 tokens pos) h hn

theorem Parser.unary_mono {n m : Nat} (h : n ≤ m) {tokens : List Token} {pos : Nat}
    {a : ASTNode} {p : Nat} (hn : Parser.unary n tokens pos = ParseResult.ok a p) :
    Parser.unary m tokens pos = ParseResult.ok a p :=
  parse_ok_of_le (f := fun n => Parser.unary n tokens pos)
    (fun n => (Parser.parser_fuel_step n).2.2.2.2.2.2.2.2.2.2.2.2.2.2.2.2.2.2.2.2.2.1 tokens pos) h hn

theorem Parser.primary_not_minus (k : Nat) (tokens : List Token) (p p1 : Nat) (a : ASTNode)
    (h : Parser.primary k tokens p = ParseResult.ok a p1) :
    0 < k ∧ (Parser.peek tokens p).type ≠ TokenType.MINUS := by
  cases k with
  | zero => rw [Parser.primary] at h; cases h
  | succ k =>
    refine ⟨Nat.succ_pos k, fun hm => ?_⟩
    rw [Parser.primary] at h
    simp [hm] at h

/-- An operand: a primary that no `++` follows is what `unary` returns. -/
theorem Parser.unary_of_primary (k : Nat) (tokens : List Token) (p p1 : Nat) (a : ASTNode)
    (h : Parser.primary k tokens p = ParseResult.ok a p1)
    (hpp : (Parser.peek tokens p1).type ≠ TokenType.PLUS_PLUS) :
    Parser.unary (k + 2) tokens p = ParseResult.ok a p1 := by
  obtain ⟨hk, hm⟩ := Parser.primary_not_minus k tokens p p1 a h
  obtain ⟨j, rfl⟩ : ∃ j, k = j + 1 := ⟨k - 1, by omega⟩
  rw [Parser.unary, if_neg hm, Parser.postfixExpr, h]
  simp only [ParseResult.bind]
  rw [Parser.postfixLoop, if_neg hpp]

/-- A negated operand. -/
theorem Parser.unary_minus_of_primary (k : Nat) (tokens : List Token) (p p1 : Nat) (a : ASTNode)
    (hm : (Parser.peek tokens p).type = TokenType.MINUS)
    (h : Parser.primary k tokens (Parser.advance tokens p) = ParseResult.ok a p1)
    (hpp : (Parser.peek tokens p1).type ≠ TokenType.PLUS_PLUS) :
    Parser.unary (k + 3) tokens p =
      ParseResult.ok (ASTNode.unaryOp (Parser.peek tokens p).value a) p1 := by
  rw [Parser.unary, if_pos hm, Parser.unary_of_primary k tokens _ p1 a h hpp]
  rfl

theorem Parser.binaryLoop_one (isOp : List Token → Nat → Bool)
    (next : Nat → ParseResult ASTNode) (fuel : Nat) (tokens : List Token) (e1 e2 : ASTNode)
    (p1 p2 : Nat) (h1 : isOp tokens p1 = true)
    (h2 : next (Parser.advance tokens p1) = ParseResult.ok e2 p2)
    (h3 : isOp tokens p2 = false) :
    Parser.binaryLoop isOp next (fuel + 2) tokens e1 p1 =
      ParseResult.ok (ASTNode.binary (Parser.peek tokens p1).value e1 e2) p2 := by
  rw [Parser.binaryLoop_step _ _ _ _ _ _ h1, h2]
  exact Parser.binaryLoop_stop _ _ _ _ _ _ h3

theorem Parser.binaryLoop_two (isOp : List Token → Nat → Bool)
    (next : Nat → ParseResult ASTNode) (fuel : Nat) (tokens : List Token) (e1 e2 e3 : ASTNode)
    (p1 p2 p3 : Nat) (h1 : isOp tokens p1 = true)
    (h2 : next (Parser.advance tokens p1) = ParseResult.ok e2 p2)
    (h3 : isOp tokens p2 = true)
    (h4 : next (Parser.advance tokens p2) = ParseResult.ok e3 p3)
    (h5 : isOp tokens p3 = false) :
    Parser.binaryLoop isOp next (fuel + 3) tokens e1 p1 =
      ParseResult.ok (ASTNode.binary (Parser.peek tokens p2).value
        (ASTNode.binary (Parser.peek tokens p1).value e1 e2) e3) p3 := by
  rw [Parser.binaryLoop_step _ _ _ _ _ _ h1, h2]
  exact Parser.binaryLoop_one _ _ _ _ _ _ _ _ h3 h4 h5

theorem Parser.endsExpression_spec (tokens : List Token) (p : Nat)
    (h : Parser.endsExpression tokens p = true) :
    Parser.isOrOp tokens p = false ∧ Parser.isAndOp tokens p = false ∧
      Parser.isEqualityOp tokens p = false ∧ Parser.isComparisonOp tokens p = false ∧
      Parser.isAdditionOp tokens p = false ∧ Parser.isMultiplicationOp tokens p = false ∧
      (Parser.peek tokens p).type ≠ TokenType.PLUS_PLUS := by
  simpa [Parser.endsExpression, and_assoc] using h

/-- From the additive level up: a result of `addition` after which the
expression ends is the result of `expression`. -/
theorem Parser.expression_of_addition (f : Nat) (tokens : List Token) (p p1 : Nat) (e : ASTNode)
    (h : Parser.addition (f + 1) tokens p = ParseResult.ok e p1)
    (hend : Parser.endsExpression tokens p1 = true) :
    Parser.expression (f + 6) tokens p = ParseResult.ok e p1 := by
  obtain ⟨h1, h2, h3, h4, _, _, _⟩ := Parser.endsExpression_spec tokens p1 hend
  rw [Parser.expression, Parser.logicalOr, Parser.logicalAnd, Parser.equality,
    Parser.comparison, h]
  simp only [ParseResult.bind]
  rw [Parser.binaryLoop_stop _ _ _ _ _ _ h4]
  simp only [ParseResult.bind]
  rw [Parser.binaryLoop_stop _ _ _ _ _ _ h3]
  simp only [ParseResult.bind]
  rw [Parser.binaryLoop_stop _ _ _ _ _ _ h2]
  simp only [ParseResult.bind]
  rw [Parser.binaryLoop_stop _ _ _ _ _ _ h1]

theorem Parser.isAdditionOp_spec (tokens : List Token) (p : Nat)
    (h : Parser.isAdditionOp tokens p = true) :
    Parser.isMultiplicationOp tokens p = false ∧
      (Parser.peek tokens p).type ≠ TokenType.PLUS_PLUS := by
  unfold Parser.isAdditionOp at h
  unfold Parser.isMultiplicationOp
  generalize (Parser.peek tokens p).type = t at h
  cases t <;> simp at h ⊢

theorem Parser.isMultiplicationOp_spec (tokens : List Token) (p : Nat)
    (h : Parser.isMultiplicationOp tokens p = true) :
    Parser.isAdditionOp tokens p = false ∧
      (Parser.peek tokens p).type ≠ TokenType.PLUS_PLUS := by
  unfold Parser.isMultiplicationOp at h
  unfold Parser.isAdditionOp
  generalize (Parser.peek tokens p).type = t at h
  cases t <;> simp at h ⊢

theorem Parser.level_ext (l n : Nat) (tokens : List Token) (pos : Nat) :
    ParseResult.Ext (Parser.level l n tokens pos) (Parser.level l (n + 1) tokens pos) := by
  have h := Parser.parser_fuel_step n
  rcases l with _ | _ | _ | _ | _ | _ | l
  · exact h.2.2.2.2.2.2.2.2.2.2.2.2.2.2.2.1 tokens pos
  · exact h.2.2.2.2.2.2.2.2.2.2.2.2.2.2.2.2.1 tokens pos
  · exact h.2.2.2.2.2.2.2.2.2.2.2.2.2.2.2.2.2.1 tokens pos
  · exact h.2.2.2.2.2.2.2.2.2.2.2.2.2.2.2.2.2.2.1 tokens pos
  · exact h.2.2.2.2.2.2.2.2.2.2.2.2.2.2.2.2.2.2.2.1 tokens pos
  · exact h.2.2.2.2.2.2.2.2.2.2.2.2.2.2.2.2.2.2.2.2.1 tokens pos
  · exact h.2.2.2.2.2.2.2.2.2.2.2.2.2.2.2.2.2.2.2.2.2.1 tokens pos

theorem Parser.level_mono {l n m : Nat} (h : n ≤ m) {tokens : List Token} {pos : Nat}
    {a : ASTNode} {p : Nat} (hn : Parser.level l n tokens pos = ParseResult.ok a p) :
    Parser.level l m tokens pos = ParseResult.ok a p :=
  parse_ok_of_le (f := fun n => Parser.level l n tokens pos)
    (fun n => Parser.level_ext l n tokens pos) h hn

theorem Parser.primary_mono {n m : Nat} (h : n ≤ m) {tokens : List Token} {pos : Nat}
    {a : ASTNode} {p : Nat} (hn : Parser.primary n tokens pos = ParseResult.ok a p) :
    Parser.primary m tokens pos = ParseResult.ok a p :=
  parse_ok_of_le (f := fun n => Parser.primary n tokens pos)
    (fun n => (Parser.parser_fuel_step n).2.2.2.2.2.2.2.2.2.2.2.2.2.2.2.2.2.2.2.2.2.2.2.1
      tokens pos) h hn

theorem Parser.level_zero (l : Nat) (tokens : List Token) (pos : Nat) :
    Parser.level l 0 tokens pos = ParseResult.outOfFuel := by
  rcases l with _ | _ | _ | _ | _ | _ | l
  · exact Parser.logicalOr.eq_1 tokens pos
  · exact Parser.logicalAnd.eq_1 tokens pos
  · exact Parser.equality.eq_1 tokens pos
  · exact Parser.comparison.eq_1 tokens pos
  · exact Parser.addition.eq_1 tokens pos
  · exact Parser.multiplication.eq_1 tokens pos
  · exact Parser.unary.eq_1 tokens pos

theorem Parser.level_step (l f : Nat) (hl : l < 6) (tokens : List Token) (pos : Nat) :
    Parser.level l (f + 1) tokens pos =
      (Parser.level (l + 1) f tokens pos).bind fun expr pos1 =>
        Parser.binaryLoop (Parser.levelOp l) (fun p => Parser.level (l + 1) f tokens p)
          f tokens expr pos1 := by
  rcases l with _ | _ | _ | _ | _ | _ | l
  · exact Parser.logicalOr.eq_2 tokens pos f
  · exact Parser.logicalAnd.eq_2 tokens pos f
  · exact Parser.equality.eq_2 tokens pos f
  · exact Parser.comparison.eq_2 tokens pos f
  · exact Parser.addition.eq_2 tokens pos f
  · exact Parser.multiplication.eq_2 tokens pos f
  · omega

theorem Parser.level_fuel_pos {l n : Nat} {tokens : List Token} {pos : Nat} {a : ASTNode}
    {p : Nat} (h : Parser.level l n tokens pos = ParseResult.ok a p) : 0 < n := by
  rcases Nat.eq_zero_or_pos n with h0 | h0
  · rw [h0, Parser.level_zero] at h
    cases h
  · exact h0

/-- A level passes on the result of the next level when no operator of the
level follows it. -/
theorem Parser.level_pass (l n : Nat) (hl : l < 6) (tokens : List Token) (p p1 : Nat)
    (e : ASTNode) (h : Parser.level (l + 1) n tokens p = ParseResult.ok e p1)
    (hop : Parser.levelOp l tokens p1 = false) :
    Parser.level l (n + 1) tokens p = ParseResult.ok e p1 := by
  obtain ⟨j, rfl⟩ : ∃ j, n = j + 1 := ⟨n - 1, by have := Parser.level_fuel_pos h; omega⟩
  rw [Parser.level_step l _ hl, h]
  exact Parser.binaryLoop_stop _ _ _ _ _ _ hop

/-- The result of a level goes up through the levels below it whose operators
do not follow it. -/
theorem Parser.level_pass_range (tokens : List Token) (p p1 : Nat) (e : ASTNode) (m n : Nat)
    (hm : m ≤ 6) (h : Parser.level m n tokens p = ParseResult.ok e p1) :
    ∀ (d i : Nat), i + d = m →
      (∀ l, i ≤ l → l < m → Parser.levelOp l tokens p1 = false) →
      Parser.level i (n + d) tokens p = ParseResult.ok e p1 := by
  intro d
  induction d with
  | zero =>
    intro i hi _
    have : i = m := by omega
    rw [this]
    exact h
  | succ d ih =>
    intro i hi hops
    have h1 := ih (i + 1) (by omega) (fun l h1 h2 => hops l (by omega) h2)
    exact Parser.level_pass i (n + d) (by omega) tokens p p1 e h1 (hops i (le_refl i) (by omega))

/-- The loop of a level nests to the left over any number of operands. -/
theorem Parser.level_fold (l k : Nat) (tokens : List Token) :
    ∀ (items : List (ASTNode × Nat)) (n : Nat) (expr : ASTNode) (pos : Nat),
      Parser.operandsFollow l k tokens pos items = true → k ≤ n →
      Parser.binaryLoop (Parser.levelOp l) (fun p => Parser.level (l + 1) n tokens p)
          (items.length + 1) tokens expr pos =
        ParseResult.ok (Parser.leftNested tokens expr pos items) (Parser.lastPos pos items) := by
  intro items
  induction items with
  | nil =>
    intro n expr pos h _
    simp only [Parser.operandsFollow, Bool.not_eq_true'] at h
    exact Parser.binaryLoop_stop _ _ _ _ _ _ h
  | cons item rest ih =>
    intro n expr pos h hn
    obtain ⟨right, pos1⟩ := item
    simp only [Parser.operandsFollow, Bool.and_eq_true, decide_eq_true_eq] at h
    obtain ⟨⟨hop, hnext⟩, hrest⟩ := h
    rw [List.length_cons, Parser.binaryLoop_step _ _ _ _ _ _ hop]
    simp only [Parser.level_mono hn hnext, ParseResult.bind]
    exact ih n _ pos1 hrest hn

/-- A level yields the left-nested tree over its operands. -/
theorem Parser.level_operands (l k : Nat) (hl : l < 6) (tokens : List Token) (p0 p1 : Nat)
    (e0 : ASTNode) (items : List (ASTNode × Nat))
    (h0 : Parser.level (l + 1) k tokens p0 = ParseResult.ok e0 p1)
    (h : Parser.operandsFollow l k tokens p1 items = true)
    (fuel : Nat) (hfuel : k + items.length + 1 ≤ fuel) :
    Parser.level l fuel tokens p0 =
      ParseResult.ok (Parser.leftNested tokens e0 p1 items) (Parser.lastPos p1 items) := by
  obtain ⟨f, rfl⟩ : ∃ f, fuel = f + 1 := ⟨fuel - 1, by omega⟩
  rw [Parser.level_step l f hl, Parser.level_mono (by omega : k ≤ f) h0]
  simp only [ParseResult.bind]
  have hfold := Parser.level_fold l k tokens items f e0 p1 h (by omega)
  exact parse_ok_of_le (f := fun n => Parser.binaryLoop (Parser.levelOp l)
      (fun p => Parser.level (l + 1) f tokens p) n tokens e0 p1)
    (fun n => Parser.binaryLoop_ext _ _ _ (fun p => parseExt_refl _) n tokens e0 p1)
    (by have := Parser.level_fuel_pos h0; omega : items.length + 1 ≤ f) hfold

theorem Parser.levelOp_ge (l : Nat) (tokens : List Token) (p : Nat) (h : 6 ≤ l) :
    Parser.levelOp l tokens p = false := by
  rcases l with _ | _ | _ | _ | _ | _ | l <;> first | omega | rfl

theorem Parser.levelOp_disjoint (i j : Nat) (tokens : List Token) (p : Nat)
    (h : Parser.levelOp i tokens p = true) (hij : j ≠ i) :
    Parser.levelOp j tokens p = false := by
  by_cases hi : i < 6
  swap
  · rw [Parser.levelOp_ge i tokens p (by omega)] at h
    cases h
  by_cases hj : j < 6
  swap
  · exact Parser.levelOp_ge j tokens p (by omega)
  interval_cases i <;> interval_cases j <;>
    first
    | exact absurd rfl hij
    | (simp only [Parser.levelOp, Parser.isOrOp, Parser.isAndOp, Parser.isEqualityOp,
        Parser.isComparisonOp, Parser.isAdditionOp, Parser.isMultiplicationOp] at h ⊢
       generalize (Parser.peek tokens p).type = t at h ⊢
       cases t <;> simp at h ⊢)

theorem Parser.levelOp_ends (l : Nat) (tokens : List Token) (p : Nat)
    (h : Parser.endsExpression tokens p = true) : Parser.levelOp l tokens p = false := by
  obtain ⟨h0, h1, h2, h3, h4, h5, _⟩ := Parser.endsExpression_spec tokens p h
  rcases l with _ | _ | _ | _ | _ | _ | l
  · exact h0
  · exact h1
  · exact h2
  · exact h3
  · exact h4
  · exact h5
  · rfl

/-- The result of a level, with six more units of fuel, is the result of a
level below it when no operator of the levels between follows. -/
theorem Parser.level_down (tokens : List Token) (p p1 : Nat) (e : ASTNode) (i m n : Nat)
    (him : i ≤ m) (hm : m ≤ 6) (h : Parser.level m n tokens p = ParseResult.ok e p1)
    (hops : ∀ l, i ≤ l → l < m → Parser.levelOp l tokens p1 = false) :
    Parser.level i (n + 6) tokens p = ParseResult.ok e p1 :=
  Parser.level_mono (by omega)
    (Parser.level_pass_range tokens p p1 e m n hm h (m - i) i (by omega) hops)

/-- Two operators between three operands: the second operator takes the
middle operand when its level is the higher one, the first one otherwise. -/
theorem Parser.level_pair (k i j : Nat) (hi : i < 6) (hj : j < 6) (tokens : List Token)
    (p0 p1 p2 p3 : Nat) (a b c : ASTNode)
    (ha : Parser.unary k tokens p0 = ParseResult.ok a p1)
    (h1 : Parser.levelOp i tokens p1 = true)
    (hb : Parser.unary k tokens (Parser.advance tokens p1) = ParseResult.ok b p2)
    (h2 : Parser.levelOp j tokens p2 = true)
    (hc : Parser.unary k tokens (Parser.advance tokens p2) = ParseResult.ok c p3)
    (hend : Parser.endsExpression tokens p3 = true) (fuel : Nat) (hfuel : k + 25 ≤ fuel) :
    Parser.expression fuel tokens p0 = ParseResult.ok
      (if i < j then
        ASTNode.binary (Parser.peek tokens p1).value a
          (ASTNode.binary (Parser.peek tokens p2).value b c)
      else
        ASTNode.binary (Parser.peek tokens p2).value
          (ASTNode.binary (Parser.peek tokens p1).value a b) c) p3 := by
  have ha6 : Parser.level 6 k tokens p0 = ParseResult.ok a p1 := ha
  have hb6 : Parser.level 6 k tokens (Parser.advance tokens p1) = ParseResult.ok b p2 := hb
  have hc6 : Parser.level 6 k tokens (Parser.advance tokens p2) = ParseResult.ok c p3 := hc
  have d1 : ∀ l, l ≠ i → Parser.levelOp l tokens p1 = false :=
    fun l hl => Parser.levelOp_disjoint i l tokens p1 h1 hl
  have d2 : ∀ l, l ≠ j → Parser.levelOp l tokens p2 = false :=
    fun l hl => Parser.levelOp_disjoint j l tokens p2 h2 hl
  have d3 : ∀ l, Parser.levelOp l tokens p3 = false :=
    fun l => Parser.levelOp_ends l tokens p3 hend
  have hfinal : ∀ (l : Nat) (e : ASTNode), l < 6 →
      Parser.level l (k + 18) tokens p0 = ParseResult.ok e p3 →
      Parser.expression fuel tokens p0 = ParseResult.ok e p3 := by
    intro l e _ hlev
    have h0 := Parser.level_down tokens p0 p3 e 0 l (k + 18) (Nat.zero_le l) (by omega) hlev
      (fun l _ _ => d3 l)
    obtain ⟨f, rfl⟩ : ∃ f, fuel = f + 1 := ⟨fuel - 1, by omega⟩
    rw [Parser.expression]
    exact Parser.level_mono (by omega : k + 18 + 6 ≤ f) h0
  rcases Nat.lt_trichotomy i j with hij | hij | hij
  · rw [if_pos hij]
    have a1 := Parser.level_down tokens p0 p1 a (i + 1) 6 k (by omega) (le_refl 6) ha6
      (fun l hl _ => d1 l (by omega))
    have b1 := Parser.level_down tokens _ p2 b (j + 1) 6 k (by omega) (le_refl 6) hb6
      (fun l hl _ => d2 l (by omega))
    have c1 := Parser.level_down tokens _ p3 c (j + 1) 6 k (by omega) (le_refl 6) hc6
      (fun l _ _ => d3 l)
    have bc : Parser.level j (k + 9) tokens (Parser.advance tokens p1) =
        ParseResult.ok (ASTNode.binary (Parser.peek tokens p2).value b c) p3 :=
      Parser.level_operands j (k + 6) hj tokens _ p2 b [(c, p3)] b1
        (by simp [Parser.operandsFollow, h2, c1, d3 j]) (k + 9) (by simp)
    have bc1 := Parser.level_down tokens _ p3 _ (i + 1) j (k + 9) (by omega) (by omega) bc
      (fun l _ _ => d3 l)
    have abc : Parser.level i (k + 18) tokens p0 =
        ParseResult.ok (ASTNode.binary (Parser.peek tokens p1).value a
          (ASTNode.binary (Parser.peek tokens p2).value b c)) p3 :=
      Parser.level_operands i (k + 15) hi tokens p0 p1 a
        [(ASTNode.binary (Parser.peek tokens p2).value b c, p3)]
        (Parser.level_mono (by omega) a1)
        (by simp [Parser.operandsFollow, h1, bc1, d3 i]) (k + 18) (by simp)
    exact hfinal i _ hi abc
  · subst hij
    rw [if_neg (lt_irrefl i)]
    have a1 := Parser.level_down tokens p0 p1 a (i + 1) 6 k (by omega) (le_refl 6) ha6
      (fun l hl _ => d1 l (by omega))
    have b1 := Parser.level_down tokens _ p2 b (i + 1) 6 k (by omega) (le_refl 6) hb6
      (fun l hl _ => d2 l (by omega))
    have c1 := Parser.level_down tokens _ p3 c (i + 1) 6 k (by omega) (le_refl 6) hc6
      (fun l _ _ => d3 l)
    have abc : Parser.level i (k + 18) tokens p0 =
        ParseResult.ok (ASTNode.binary (Parser.peek tokens p2).value
          (ASTNode.binary (Parser.peek tokens p1).value a b) c) p3 :=
      Parser.level_operands i (k + 6) hi tokens p0 p1 a [(b, p2), (c, p3)] a1
        (by simp [Parser.operandsFollow, h1, h2, b1, c1, d3 i]) (k + 18) (by simp)
    exact hfinal i _ hi abc
  · rw [if_neg (by omega)]
    have a1 := Parser.level_down tokens p0 p1 a (i + 1) 6 k (by omega) (le_refl 6) ha6
      (fun l hl _ => d1 l (by omega))
    have b1 := Parser.level_down tokens _ p2 b (i + 1) 6 k (by omega) (le_refl 6) hb6
      (fun l hl _ => d2 l (by omega))
    have c1 := Parser.level_down tokens _ p3 c (j + 1) 6 k (by omega) (le_refl 6) hc6
      (fun l _ _ => d3 l)
    have ab : Parser.level i (k + 9) tokens p0 =
        ParseResult.ok (ASTNode.binary (Parser.peek tokens p1).value a b) p2 :=
      Parser.level_operands i (k + 6) hi tokens p0 p1 a [(b, p2)] a1
        (by simp [Parser.operandsFollow, h1, b1, d2 i (by omega)]) (k + 9) (by simp)
    have ab1 := Parser.level_down tokens p0 p2 _ (j + 1) i (k + 9) (by omega) (by omega) ab
      (fun l hl _ => d2 l (by omega))
    have abc : Parser.level j (k + 18) tokens p0 =
        ParseResult.ok (ASTNode.binary (Parser.peek tokens p2).value
          (ASTNode.binary (Parser.peek tokens p1).value a b) c) p3 :=
      Parser.level_operands j (k + 15) hj tokens p0 p2 _ [(c, p3)] ab1
        (by simp [Parser.operandsFollow, h2, Parser.level_mono (by omega : k + 6 ≤ k + 15) c1,
          d3 j]) (k + 18) (by simp)
    exact hfinal j _ hj abc

/-- The postfix `++` is taken before the unary minus. -/
theorem Parser.unary_minus_postfix (k : Nat) (tokens : List Token) (p0 p1 : Nat) (a : ASTNode)
    (hm : (Parser.peek tokens p0).type = TokenType.MINUS)
    (h : Parser.primary k tokens (Parser.advance tokens p0) = ParseResult.ok a p1)
    (hpp : (Parser.peek tokens p1).type = TokenType.PLUS_PLUS)
    (hnpp : (Parser.peek tokens (Parser.advance tokens p1)).type ≠ TokenType.PLUS_PLUS) :
    Parser.unary (k + 4) tokens p0 = ParseResult.ok
      (ASTNode.unaryOp (Parser.peek tokens p0).value (ASTNode.unaryOp "post++" a))
      (Parser.advance tokens p1) := by
  obtain ⟨hk, hnm⟩ := Parser.primary_not_minus k tokens _ p1 a h
  obtain ⟨j, rfl⟩ : ∃ j, k = j + 1 := ⟨k - 1, by omega⟩
  rw [Parser.unary, if_pos hm, Parser.unary, if_neg hnm, Parser.postfixExpr,
    Parser.primary_mono (by omega : j + 1 ≤ j + 1 + 1) h]
  simp only [ParseResult.bind]
  rw [Parser.postfixLoop, if_pos hpp, Parser.postfixLoop, if_neg hnpp]


/-- Claim C13: the expression levels follow the chain `wla` < `w` <
(`==` `!=`) < (`<` `>` `<=` `>=`) < (`+` `-`) < (`*` `/`) < unary minus <
postfix `++`, and every binary level is left-associative. With the binary
levels numbered 0 to 5 along the chain: for operands `a`, `b`, `c` that
`unary` parses (primaries with their minus signs and `++`), an operator `o1`
of level `i` between `a` and `b` and an operator `o2` of level `j` between `b`
and `c`, the expression is `o1(a, o2(b, c))` when `i < j` and
`o2(o1(a, b), c)` otherwise, so also for two operators of one level; a level
over any number of operands of the next level yields the left-nested tree;
`-a++` is `-(post++(a))`. So for primaries `a`, `b`, `c`, `a + b * c` is
`+(a, *(b, c))`, `a * b + c` is `+(*(a, b), c)`, `a - b - c` is
`-(-(a, b), c)` and `-a * b` is `*(-(a), b)`, with enough fuel; the texts
`x = a wla b w c == d < e + f * -g++` and `x = a * b + c < d == e w f wla g`
show the whole chain in both directions. -/
theorem precedence :
    (∀ (k i j : Nat) (tokens : List Token) (p0 p1 p2 p3 : Nat) (a b c : ASTNode),
      i < 6 → j < 6 →
      Parser.unary k tokens p0 = ParseResult.ok a p1 →
      Parser.levelOp i tokens p1 = true →
      Parser.unary k tokens (Parser.advance tokens p1) = ParseResult.ok b p2 →
      Parser.levelOp j tokens p2 = true →
      Parser.unary k tokens (Parser.advance tokens p2) = ParseResult.ok c p3 →
      Parser.endsExpression tokens p3 = true →
      ∀ fuel, k + 25 ≤ fuel →
        Parser.expression fuel tokens p0 = ParseResult.ok
          (if i < j then
            ASTNode.binary (Parser.peek tokens p1).value a
              (ASTNode.binary (Parser.peek tokens p2).value b c)
          else
            ASTNode.binary (Parser.peek tokens p2).value
              (ASTNode.binary (Parser.peek tokens p1).value a b) c) p3) ∧
    (∀ (l k : Nat) (tokens : List Token) (p0 p1 : Nat) (e0 : ASTNode)
        (operands : List (ASTNode × Nat)),
      l < 6 →
      Parser.level (l + 1) k tokens p0 = ParseResult.ok e0 p1 →
      Parser.operandsFollow l k tokens p1 operands = true →
      ∀ fuel, k + operands.length + 1 ≤ fuel →
        Parser.level l fuel tokens p0 = ParseResult.ok
          (Parser.leftNested tokens e0 p1 operands) (Parser.lastPos p1 operands)) ∧
    (∀ (fuel : Nat) (tokens : List Token) (p : Nat),
      Parser.expression (fuel + 1) tokens p = Parser.level 0 fuel tokens p ∧
        Parser.level 6 fuel tokens p = Parser.unary fuel tokens p) ∧
    (∀ (k : Nat) (tokens : List Token) (p0 p1 : Nat) (a : ASTNode),
      (Parser.peek tokens p0).type = TokenType.MINUS →
      Parser.primary k tokens (Parser.advance tokens p0) = ParseResult.ok a p1 →
      (Parser.peek tokens p1).type = TokenType.PLUS_PLUS →
      (Parser.peek tokens (Parser.advance tokens p1)).type ≠ TokenType.PLUS_PLUS →
      ∀ fuel, k + 4 ≤ fuel →
        Parser.unary fuel tokens p0 = ParseResult.ok
          (ASTNode.unaryOp (Parser.peek tokens p0).value (ASTNode.unaryOp "post++" a))
          (Parser.advance tokens p1)) ∧
    (∀ (k : Nat) (tokens : List Token) (p0 p1 p2 p3 : Nat) (a b c : ASTNode),
      Parser.primary k tokens p0 = ParseResult.ok a p1 →
      Parser.isAdditionOp tokens p1 = true →
      Parser.primary k tokens (Parser.advance tokens p1) = ParseResult.ok b p2 →
      Parser.isMultiplicationOp tokens p2 = true →
      Parser.primary k tokens (Parser.advance tokens p2) = ParseResult.ok c p3 →
      Parser.endsExpression tokens p3 = true →
      ∀ fuel, k + 9 ≤ fuel →
        Parser.expression fuel tokens p0 = ParseResult.ok
          (ASTNode.binary (Parser.peek tokens p1).value a
            (ASTNode.binary (Parser.peek tokens p2).value b c)) p3) ∧
    (∀ (k : Nat) (tokens : List Token) (p0 p1 p2 p3 : Nat) (a b c : ASTNode),
      Parser.primary k tokens p0 = ParseResult.ok a p1 →
      Parser.isMultiplicationOp tokens p1 = true →
      Parser.primary k tokens (Parser.advance tokens p1) = ParseResult.ok b p2 →
      Parser.isAdditionOp tokens p2 = true →
      Parser.primary k tokens (Parser.advance tokens p2) = ParseResult.ok c p3 →
      Parser.endsExpression tokens p3 = true →
      ∀ fuel, k + 9 ≤ fuel →
        Parser.expression fuel tokens p0 = ParseResult.ok
          (ASTNode.binary (Parser.peek tokens p2).value
            (ASTNode.binary (Parser.peek tokens p1).value a b) c) p3) ∧
    (∀ (k : Nat) (tokens : List Token) (p0 p1 p2 p3 : Nat) (a b c : ASTNode),
      Parser.primary k tokens p0 = ParseResult.ok a p1 →
      Parser.isAdditionOp tokens p1 = true →
      Parser.primary k tokens (Parser.advance tokens p1) = ParseResult.ok b p2 →
      Parser.isAdditionOp tokens p2 = true →
      Parser.primary k tokens (Parser.advance tokens p2) = ParseResult.ok c p3 →
      Parser.endsExpression tokens p3 = true →
      ∀ fuel, k + 9 ≤ fuel →
        Parser.expression fuel tokens p0 = ParseResult.ok
          (ASTNode.binary (Parser.peek tokens p2).value
            (ASTNode.binary (Parser.peek tokens p1).value a b) c) p3) ∧
    (∀ (k : Nat) (tokens : List Token) (p0 p1 p2 : Nat) (a b : ASTNode),
      (Parser.peek tokens p0).type = TokenType.MINUS →
      Parser.primary k tokens (Parser.advance tokens p0) = ParseResult.ok a p1 →
      Parser.isMultiplicationOp tokens p1 = true →
      Parser.primary k tokens (Parser.advance tokens p1) = ParseResult.ok b p2 →
      Parser.endsExpression tokens p2 = true →
      ∀ fuel, k + 10 ≤ fuel →
        Parser.expression fuel tokens p0 = ParseResult.ok
          (ASTNode.binary (Parser.peek tokens p1).value
            (ASTNode.unaryOp (Parser.peek tokens p0).value a) b) p2) ∧
    parseSource 100 "x = a wla b w c == d < e + f * -g++" = ParseResult.ok
      [ASTNode.named NodeType.ASSIGNMENT "x"
        [ASTNode.binary "wla" (ASTNode.leaf NodeType.IDENTIFIER "a")
          (ASTNode.binary "w" (ASTNode.leaf NodeType.IDENTIFIER "b")
            (ASTNode.binary "==" (ASTNode.leaf NodeType.IDENTIFIER "c")
              (ASTNode.binary "<" (ASTNode.leaf NodeType.IDENTIFIER "d")
                (ASTNode.binary "+" (ASTNode.leaf NodeType.IDENTIFIER "e")
                  (ASTNode.binary "*" (ASTNode.leaf NodeType.IDENTIFIER "f")
                    (ASTNode.unaryOp "-"
                      (ASTNode.unaryOp "post++"
                        (ASTNode.leaf NodeType.IDENTIFIER "g"))))))))]] 17 ∧
    parseSource 100 "x = a * b + c < d == e w f wla g" = ParseResult.ok
      [ASTNode.named NodeType.ASSIGNMENT "x"
        [ASTNode.binary "wla"
           (ASTNode.binary "w"
              (ASTNode.binary "=="
                 (ASTNode.binary "<"
                    (ASTNode.binary "+"
                       (ASTNode.binary "*"
                          (ASTNode.leaf NodeType.IDENTIFIER "a")
                          (ASTNode.leaf NodeType.IDENTIFIER "b"))
                       (ASTNode.leaf NodeType.IDENTIFIER "c"))
                    (ASTNode.leaf NodeType.IDENTIFIER "d"))
                 (ASTNode.leaf NodeType.IDENTIFIER "e"))
              (ASTNode.leaf NodeType.IDENTIFIER "f"))
           (ASTNode.leaf NodeType.IDENTIFIER "g")]] 15 ∧
    parseSource 100
        ("p = a wla b wla c; q = a w b w c; r = a == b != c; " ++
          "s = a < b >= c; t = a - b + c; u = a / b * c") =
      ParseResult.ok
      [ASTNode.named NodeType.ASSIGNMENT "p"
         [ASTNode.binary "wla"
            (ASTNode.binary "wla"
               (ASTNode.leaf NodeType.IDENTIFIER "a")
               (ASTNode.leaf NodeType.IDENTIFIER "b"))
            (ASTNode.leaf NodeType.IDENTIFIER "c")],
       ASTNode.named NodeType.ASSIGNMENT "q"
         [ASTNode.binary "w"
            (ASTNode.binary "w"
               (ASTNode.leaf NodeType.IDENTIFIER "a")
               (ASTNode.leaf NodeType.IDENTIFIER "b"))
            (ASTNode.leaf NodeType.IDENTIFIER "c")],
       ASTNode.named NodeType.ASSIGNMENT "r"
         [ASTNode.binary "!="
            (ASTNode.binary "=="
               (ASTNode.leaf NodeType.IDENTIFIER "a")
               (ASTNode.leaf NodeType.IDENTIFIER "b"))
            (ASTNode.leaf NodeType.IDENTIFIER "c")],
       ASTNode.named NodeType.ASSIGNMENT "s"
         [ASTNode.binary ">="
            (ASTNode.binary "<"
               (ASTNode.leaf NodeType.IDENTIFIER "a")
               (ASTNode.leaf NodeType.IDENTIFIER "b"))
            (ASTNode.leaf NodeType.IDENTIFIER "c")],
       ASTNode.named NodeType.ASSIGNMENT "t"
         [ASTNode.binary "+"
            (ASTNode.binary "-"
               (ASTNode.leaf NodeType.IDENTIFIER "a")
               (ASTNode.leaf NodeType.IDENTIFIER "b"))
            (ASTNode.leaf NodeType.IDENTIFIER "c")],
       ASTNode.named NodeType.ASSIGNMENT "u"
         [ASTNode.binary "*"
            (ASTNode.binary "/"
               (ASTNode.leaf NodeType.IDENTIFIER "a")
               (ASTNode.leaf NodeType.IDENTIFIER "b"))
            (ASTNode.leaf NodeType.IDENTIFIER "c")]] 47 ∧
    parseSource 100 "x = -a++ * b; y = a - -b" = ParseResult.ok
      [ASTNode.named NodeType.ASSIGNMENT "x"
        [ASTNode.binary "*"
           (ASTNode.unaryOp "-" (ASTNode.unaryOp "post++" (ASTNode.leaf NodeType.IDENTIFIER "a")))
           (ASTNode.leaf NodeType.IDENTIFIER "b")],
       ASTNode.named NodeType.ASSIGNMENT "y"
         [ASTNode.binary "-"
            (ASTNode.leaf NodeType.IDENTIFIER "a")
            (ASTNode.unaryOp "-" (ASTNode.leaf NodeType.IDENTIFIER "b"))]] 14 := by
  refine ⟨?_, ?_, ?_, ?_, ?_, ?_, ?_, ?_, by decide!, by decide!, by decide!, by decide!⟩
  · intro k i j tokens p0 p1 p2 p3 a b c hi hj ha h1 hb h2 hc hend fuel hfuel
    exact Parser.level_pair k i j hi hj tokens p0 p1 p2 p3 a b c ha h1 hb h2 hc hend fuel hfuel
  · intro l k tokens p0 p1 e0 operands hl h0 h fuel hfuel
    exact Parser.level_operands l k hl tokens p0 p1 e0 operands h0 h fuel hfuel
  · intro fuel tokens p
    exact ⟨Parser.expression.eq_2 tokens p fuel, rfl⟩
  · intro k tokens p0 p1 a hminus ha hpp hnpp fuel hfuel
    exact Parser.unary_mono hfuel (Parser.unary_minus_postfix k tokens p0 p1 a hminus ha hpp hnpp)
  · intro k tokens p0 p1 p2 p3 a b c ha h1 hb h2 hc hend fuel hfuel
    obtain ⟨hm1, hpp1⟩ := Parser.isAdditionOp_spec tokens p1 h1
    obtain ⟨ha2, hpp2⟩ := Parser.isMultiplicationOp_spec tokens p2 h2
    obtain ⟨_, _, _, _, ha3, hm3, hpp3⟩ := Parser.endsExpression_spec tokens p3 hend
    obtain ⟨hk, _⟩ := Parser.primary_not_minus k tokens p0 p1 a ha
    obtain ⟨j, rfl⟩ : ∃ j, k = j + 1 := ⟨k - 1, by omega⟩
    have ua := Parser.unary_of_primary _ tokens p0 p1 a ha hpp1
    have ub := Parser.unary_of_primary _ tokens _ p2 b hb hpp2
    have uc := Parser.unary_of_primary _ tokens _ p3 c hc hpp3
    have ma : Parser.multiplication (j + 4) tokens p0 = ParseResult.ok a p1 := by
      rw [Parser.multiplication, ua]
      exact Parser.binaryLoop_stop _ _ _ _ _ _ hm1
    have mb : Parser.multiplication (j + 4) tokens (Parser.advance tokens p1) =
        ParseResult.ok (ASTNode.binary (Parser.peek tokens p2).value b c) p3 := by
      rw [Parser.multiplication, ub]
      exact Parser.binaryLoop_one _ _ _ _ _ _ _ _ h2 uc hm3
    have ad : Parser.addition (j + 5) tokens p0 = ParseResult.ok
        (ASTNode.binary (Parser.peek tokens p1).value a
          (ASTNode.binary (Parser.peek tokens p2).value b c)) p3 := by
      rw [Parser.addition, ma]
      exact Parser.binaryLoop_one _ _ _ _ _ _ _ _ h1 mb ha3
    exact Parser.expression_mono (by omega)
      (Parser.expression_of_addition (j + 4) tokens p0 p3 _ ad hend)
  · intro k tokens p0 p1 p2 p3 a b c ha h1 hb h2 hc hend fuel hfuel
    obtain ⟨ha1, hpp1⟩ := Parser.isMultiplicationOp_spec tokens p1 h1
    obtain ⟨hm2, hpp2⟩ := Parser.isAdditionOp_spec tokens p2 h2
    obtain ⟨_, _, _, _, ha3, hm3, hpp3⟩ := Parser.endsExpression_spec tokens p3 hend
    obtain ⟨hk, _⟩ := Parser.primary_not_minus k tokens p0 p1 a ha
    obtain ⟨j, rfl⟩ : ∃ j, k = j + 1 := ⟨k - 1, by omega⟩
    have ua := Parser.unary_of_primary _ tokens p0 p1 a ha hpp1
    have ub := Parser.unary_of_primary _ tokens _ p2 b hb hpp2
    have uc := Parser.unary_of_primary _ tokens _ p3 c hc hpp3
    have ma : Parser.multiplication (j + 4) tokens p0 =
        ParseResult.ok (ASTNode.binary (Parser.peek tokens p1).value a b) p2 := by
      rw [Parser.multiplication, ua]
      exact Parser.binaryLoop_one _ _ _ _ _ _ _ _ h1 ub hm2
    have mc : Parser.multiplication (j + 4) tokens (Parser.advance tokens p2) =
        ParseResult.ok c p3 := by
      rw [Parser.multiplication, uc]
      exact Parser.binaryLoop_stop _ _ _ _ _ _ hm3
    have ad : Parser.addition (j + 5) tokens p0 = ParseResult.ok
        (ASTNode.binary (Parser.peek tokens p2).value
          (ASTNode.binary (Parser.peek tokens p1).value a b) c) p3 := by
      rw [Parser.addition, ma]
      exact Parser.binaryLoop_one _ _ _ _ _ _ _ _ h2 mc ha3
    exact Parser.expression_mono (by omega)
      (Parser.expression_of_addition (j + 4) tokens p0 p3 _ ad hend)
  · intro k tokens p0 p1 p2 p3 a b c ha h1 hb h2 hc hend fuel hfuel
    obtain ⟨hm1, hpp1⟩ := Parser.isAdditionOp_spec tokens p1 h1
    obtain ⟨hm2, hpp2⟩ := Parser.isAdditionOp_spec tokens p2 h2
    obtain ⟨_, _, _, _, ha3, hm3, hpp3⟩ := Parser.endsExpression_spec tokens p3 hend
    obtain ⟨hk, _⟩ := Parser.primary_not_minus k tokens p0 p1 a ha
    obtain ⟨j, rfl⟩ : ∃ j, k = j + 1 := ⟨k - 1, by omega⟩
    have ua := Parser.unary_of_primary _ tokens p0 p1 a ha hpp1
    have ub := Parser.unary_of_primary _ tokens _ p2 b hb hpp2
    have uc := Parser.unary_of_primary _ tokens _ p3 c hc hpp3
    have ma : Parser.multiplication (j + 4) tokens p0 = ParseResult.ok a p1 := by
      rw [Parser.multiplication, ua]
      exact Parser.binaryLoop_stop _ _ _ _ _ _ hm1
    have mb : Parser.multiplication (j + 4) tokens (Parser.advance tokens p1) =
        ParseResult.ok b p2 := by
      rw [Parser.multiplication, ub]
      exact Parser.binaryLoop_stop _ _ _ _ _ _ hm2
    have mc : Parser.multiplication (j + 4) tokens (Parser.advance tokens p2) =
        ParseResult.ok c p3 := by
      rw [Parser.multiplication, uc]
      exact Parser.binaryLoop_stop _ _ _ _ _ _ hm3
    have ad : Parser.addition (j + 5) tokens p0 = ParseResult.ok
        (ASTNode.binary (Parser.peek tokens p2).value
          (ASTNode.binary (Parser.peek tokens p1).value a b) c) p3 := by
      rw [Parser.addition, ma]
      exact Parser.binaryLoop_two _ _ _ _ _ _ _ _ _ _ h1 mb h2 mc ha3
    exact Parser.expression_mono (by omega)
      (Parser.expression_of_addition (j + 4) tokens p0 p3 _ ad hend)
  · intro k tokens p0 p1 p2 a b hminus ha h1 hb hend fuel hfuel
    obtain ⟨ha1, hpp1⟩ := Parser.isMultiplicationOp_spec tokens p1 h1
    obtain ⟨_, _, _, _, ha2, hm2, hpp2⟩ := Parser.endsExpression_spec tokens p2 hend
    obtain ⟨hk, _⟩ := Parser.primary_not_minus k tokens _ p1 a ha
    obtain ⟨j, rfl⟩ : ∃ j, k = j + 1 := ⟨k - 1, by omega⟩
    have ua := Parser.unary_minus_of_primary _ tokens p0 p1 a hminus ha hpp1
    have ub : Parser.unary (j + 1 + 3) tokens (Parser.advance tokens p1) =
        ParseResult.ok b p2 :=
      Parser.unary_mono (by omega) (Parser.unary_of_primary _ tokens _ p2 b hb hpp2)
    have ma : Parser.multiplication (j + 5) tokens p0 = ParseResult.ok
        (ASTNode.binary (Parser.peek tokens p1).value
          (ASTNode.unaryOp (Parser.peek tokens p0).value a) b) p2 := by
      rw [Parser.multiplication, ua]
      exact Parser.binaryLoop_one _ _ _ _ _ _ _ _ h1 ub hm2
    have ad : Parser.addition (j + 6) tokens p0 = ParseResult.ok
        (ASTNode.binary (Parser.peek tokens p1).value
          (ASTNode.unaryOp (Parser.peek tokens p0).value a) b) p2 := by
      rw [Parser.addition, ma]
      exact Parser.binaryLoop_stop _ _ _ _ _ _ ha2
    exact Parser.expression_mono (by omega)
      (Parser.expression_of_addition (j + 5) tokens p0 p2 _ ad hend)

/-- Claim C13 on the tokens of `a + b * c`, where `*` is of the higher level,
and on the tokens of `a - b + c - d`, three operators of one level. -/
theorem precedence_witness :
    Parser.expression 30 Example.tokensSumProduct 0 = ParseResult.ok
        (ASTNode.binary "+" (ASTNode.leaf NodeType.IDENTIFIER "a")
          (ASTNode.binary "*" (ASTNode.leaf NodeType.IDENTIFIER "b")
            (ASTNode.leaf NodeType.IDENTIFIER "c"))) 5 ∧
      Parser.level 4 10 Example.tokensDifference 0 = ParseResult.ok
        (ASTNode.binary "-"
          (ASTNode.binary "+"
            (ASTNode.binary "-" (ASTNode.leaf NodeType.IDENTIFIER "a")
              (ASTNode.leaf NodeType.IDENTIFIER "b"))
            (ASTNode.leaf NodeType.IDENTIFIER "c"))
          (ASTNode.leaf NodeType.IDENTIFIER "d")) 7 :=
  ⟨precedence.1 3 4 5 Example.tokensSumProduct 0 1 3 5 (ASTNode.leaf NodeType.IDENTIFIER "a")
      (ASTNode.leaf NodeType.IDENTIFIER "b") (ASTNode.leaf NodeType.IDENTIFIER "c")
      (by decide) (by decide) (by decide!) (by decide) (by decide!) (by decide) (by decide!)
      (by decide) 30 (by decide),
    precedence.2.1 4 4 Example.tokensDifference 0 1 (ASTNode.leaf NodeType.IDENTIFIER "a")
      [(ASTNode.leaf NodeType.IDENTIFIER "b", 3), (ASTNode.leaf NodeType.IDENTIFIER "c", 5),
        (ASTNode.leaf NodeType.IDENTIFIER "d", 7)]
      (by decide) (by decide!) (by decide!) 10 (by decide)⟩

/-! ## The output of a print statement -/

theorem outcome_ok_of_le {α : Type} {f : Nat → Outcome α}
    (hf : ∀ n, Outcome.Ext (f n) (f (n + 1))) {n m : Nat} (h : n ≤ m) {a : α} {st : State}
    (hn : f n = Outcome.ok a st) : f m = Outcome.ok a st := by
  induction h with
  | refl => exact hn
  | step _ ih => exact outcomeExt_eq_ok (hf _) ih

theorem Interpreter.evaluate_mono {n m : Nat} (h : n ≤ m) {node : ASTNode} {st : State}
    {v : String} {st' : State} (hn : Interpreter.evaluate n node st = Outcome.ok v st') :
    Interpreter.evaluate m node st = Outcome.ok v st' :=
  outcome_ok_of_le (f := fun n => Interpreter.evaluate n node st)
    (fun n => (Interpreter.interpreter_fuel_step n).2.2.2.2.2.2.2 node st) h hn

theorem Interpreter.execute_mono {n m : Nat} (h : n ≤ m) {node : ASTNode} {st : State}
    {st' : State} (hn : Interpreter.execute n node st = Outcome.ok () st') :
    Interpreter.execute m node st = Outcome.ok () st' :=
  outcome_ok_of_le (f := fun n => Interpreter.execute n node st)
    (fun n => (Interpreter.interpreter_fuel_step n).1 node st) h hn

theorem Interpreter.printLoop_args (k : Nat) : ∀ (args : List ASTNode) (s : State)
    (r : List (String × String)) (s' : State),
    Interpreter.EvaluatesArgs k args s r s' →
    ∀ (i : Nat) (out : String),
      Interpreter.printLoop (k + args.length + 1) args i { s with out := out } =
        Outcome.ok () { s' with out := out ++ printedText r i } := by
  intro args
  induction args with
  | nil =>
    intro s r s' h i out
    obtain ⟨rfl, rfl⟩ := h
    rw [Interpreter.printLoop]
    simp [printedText]
  | cons e es ih =>
    intro s r s' h i out
    obtain ⟨w, v, s1, rest, rfl, he, hrest⟩ := h
    have hst : (if 0 < i then
          { ({ s with out := out } : State) with
            out := ({ s with out := out } : State).out ++ " " }
        else { s with out := out }) =
        { s with out := out ++ (if 0 < i then " " else "") } := by
      split <;> simp
    have hfuel : k + (e :: es).length + 1 = (k + es.length + 1) + 1 := by
      simp only [List.length_cons]; omega
    rw [hfuel, Interpreter.printLoop, hst,
      Interpreter.evaluate_mono (by omega) (he (out ++ (if 0 < i then " " else "")))]
    simp only [Outcome.bind]
    rw [ih s1 rest s' hrest (i + 1) (out ++ (if 0 < i then " " else "") ++ w ++ v)]
    simp [printedText, String.append_assoc]

theorem printedText_succ : ∀ (r : List (String × String)) (i j : Nat),
    printedText r (i + 1) = printedText r (j + 1) := by
  intro r
  induction r with
  | nil => intro i j; rfl
  | cons a rest ih =>
    intro i j
    rw [printedText, printedText, ih (i + 1) (j + 1)]
    simp

theorem intercalate_go : ∀ (vals : List String) (acc : String),
    String.intercalate.go acc " " vals =
      acc ++ printedText (vals.map fun v => ("", v)) 1 := by
  intro vals
  induction vals with
  | nil => intro acc; simp [String.intercalate.go, printedText]
  | cons v vs ih =>
    intro acc
    rw [String.intercalate.go, ih, List.map_cons, printedText, printedText_succ _ 1 0]
    simp [String.append_assoc]

/-- Claim C18, as stated, fails: after `dalla f() \x7b kteb(1); rje3 2 \x7d`
the statement `kteb(0, f(), 3)`, whose arguments have the values `0`, `2`
and `3`, adds the two lines `0 1` and `2 3` to the output, not the line
`0 2 3`. -/
theorem print_interleaves :
    (interpret 100 "dalla f() \x7b kteb(1); rje3 2 \x7d kteb(0, f(), 3)").final.map
        State.out = some "0 1\n2 3\n" := by
  decide!

/-- Claim C18, amended: executing a print node evaluates the arguments left
to right and adds to the output, for each argument in turn, a single space
(not before the first), then what the evaluation of the argument itself
writes, then the value of the argument, and a newline at the end; when no
argument writes, that is the values joined by single spaces and a newline
(an empty line when there is no argument). -/
theorem print_output :
    (∀ (k : Nat) (node : ASTNode) (st st' : State) (r : List (String × String)),
      node.type = NodeType.PRINT →
      Interpreter.EvaluatesArgs k node.children st r st' →
      ∀ fuel, k + node.children.length + 2 ≤ fuel →
        Interpreter.execute fuel node st =
          Outcome.ok () { st' with out := st.out ++ printedText r 0 ++ "\n" }) ∧
    (∀ vals : List String,
      printedText (vals.map fun v => ("", v)) 0 = " ".intercalate vals) ∧
    (interpret 100 "kteb()").final.map State.out = some "\n" ∧
    (interpret 100 "kteb(1, \"a\", 2 + 3)").final.map State.out = some "1 a 5\n" ∧
    (interpret 100 "dir i = 1; kteb(i++, i++, i)").final.map State.out = some "1 2 3\n" := by
  refine ⟨?_, ?_, by decide!, by decide!, by decide!⟩
  · intro k node st st' r hty hargs fuel hfuel
    apply Interpreter.execute_mono hfuel
    rw [Interpreter.execute]
    simp only [hty]
    have h := Interpreter.printLoop_args k node.children st r st' hargs 0 st.out
    rw [show ({ st with out := st.out } : State) = st from rfl] at h
    rw [h]
    simp [Outcome.bind, String.append_assoc]
  · intro vals
    cases vals with
    | nil => rfl
    | cons v vs =>
      rw [String.intercalate, intercalate_go, List.map_cons, printedText, printedText_succ _ 0 0]
      simp

/-- Claim C18, amended, at `kteb(0, f(), 3)` after
`dalla f() \x7b kteb(1); rje3 2 \x7d`. -/
theorem print_output_witness :
    Interpreter.execute 20 Example.printNoisy Example.stateNoisy =
      Outcome.ok () { Example.stateNoisy with out := "0 1\n2 3\n" } :=
  print_output.1 6 Example.printNoisy Example.stateNoisy Example.stateNoisy
    [("", "0"), ("1\n", "2"), ("", "3")] rfl
    ⟨"", "0", Example.stateNoisy, [("1\n", "2"), ("", "3")], rfl,
      fun out => by simp [Interpreter.evaluate, ASTNode.leaf, ASTNode.type, ASTNode.value],
      "1\n", "2", Example.stateNoisy, [("", "3")], rfl,
      fun out => by
        simp [Interpreter.evaluate, Interpreter.execute, Interpreter.bindLoop,
          Interpreter.blockLoop, Interpreter.printLoop, Outcome.bind, child,
          Example.stateNoisy, Example.declNoisy, ASTNode.leaf, ASTNode.named, ASTNode.plain,
          ASTNode.function, ASTNode.type, ASTNode.value, ASTNode.children, ASTNode.params,
          ASTNode.body, List.lookup, String.append_assoc],
      "", "3", Example.stateNoisy, [], rfl,
      fun out => by simp [Interpreter.evaluate, ASTNode.leaf, ASTNode.type, ASTNode.value],
      rfl, rfl⟩ 20 (by decide)

/-! ## The shape of the if nodes that `parse` builds -/

theorem parseAll_trivial {α : Type} (r : ParseResult α) :
    ParseResult.All (fun _ => True) r := by
  cases r <;> exact True.intro

theorem parseAll_bind {α β : Type} {P : α → Prop} {Q : β → Prop} {r : ParseResult α}
    {f : α → Nat → ParseResult β} (h : ParseResult.All P r)
    (hf : ∀ a p, P a → ParseResult.All Q (f a p)) : ParseResult.All Q (r.bind f) := by
  cases r with
  | ok a p => exact hf a p h
  | fault e => exact True.intro
  | outOfFuel => exact True.intro

theorem parseAll_ite {α : Type} {P : α → Prop} {c : Prop} [Decidable c]
    {a b : ParseResult α} (ha : ParseResult.All P a) (hb : ParseResult.All P b) :
    ParseResult.All P (if c then a else b) := by
  split
  · exact ha
  · exact hb

theorem ASTNode.plain_type (t : NodeType) (c : List ASTNode) : (ASTNode.plain t c).type = t :=
  rfl

theorem ASTNode.plain_children (t : NodeType) (c : List ASTNode) :
    (ASTNode.plain t c).children = c :=
  rfl

theorem ifShapedList_append : ∀ (xs ys : List ASTNode),
    ifShapedList (xs ++ ys) = (ifShapedList xs && ifShapedList ys) := by
  intro xs ys
  induction xs with
  | nil => simp [ifShapedList]
  | cons x xs ih => simp [ifShapedList, ih, Bool.and_assoc]

theorem elseTail_of_all : ∀ rest : List ASTNode,
    rest.all isElseIf = true → elseTail rest = true := by
  intro rest
  induction rest with
  | nil => intro _; rfl
  | cons x rest ih =>
    intro h
    simp only [List.all_cons, Bool.and_eq_true] at h
    simp [elseTail, h.1, ih h.2]

theorem elseTail_append_block : ∀ (rest : List ASTNode) (b : ASTNode),
    rest.all isElseIf = true → b.type = NodeType.BLOCK → elseTail (rest ++ [b]) = true := by
  intro rest b
  induction rest with
  | nil => intro _ hb; simp [elseTail, hb]
  | cons x rest ih =>
    intro h hb
    simp only [List.all_cons, Bool.and_eq_true] at h
    simp [elseTail, h.1, ih h.2 hb]

theorem ifChildren_of_prefix (cs : List ASTNode) (h : ifPrefix cs = true) :
    ifChildren cs = true := by
  match cs, h with
  | _ :: b :: rest, h =>
    simp only [ifPrefix, Bool.and_eq_true] at h
    simp only [ifChildren, Bool.and_eq_true]
    exact ⟨h.1, elseTail_of_all rest h.2⟩

theorem ifChildren_append_block (cs : List ASTNode) (e : ASTNode) (h : ifPrefix cs = true)
    (he : e.type = NodeType.BLOCK) : ifChildren (cs ++ [e]) = true := by
  match cs, h with
  | c :: b :: rest, h =>
    simp only [ifPrefix, Bool.and_eq_true] at h
    simp only [List.cons_append, ifChildren, Bool.and_eq_true]
    exact ⟨h.1, elseTail_append_block rest e h.2 he⟩

theorem ifPrefix_append (cs : List ASTNode) (e : ASTNode) (h : ifPrefix cs = true)
    (he : isElseIf e = true) : ifPrefix (cs ++ [e]) = true := by
  match cs, h with
  | c :: b :: rest, h =>
    simp only [ifPrefix, Bool.and_eq_true] at h
    simp only [List.cons_append, ifPrefix, Bool.and_eq_true, List.all_append, List.all_cons,
      List.all_nil, Bool.and_true]
    exact ⟨h.1, h.2, he⟩

theorem Parser.postfixLoop_shape : ∀ (n : Nat) (tokens : List Token) (expr : ASTNode)
    (pos : Nat), ifShaped expr = true →
    ParseResult.All (fun a => ifShaped a = true) (Parser.postfixLoop n tokens expr pos) := by
  intro n
  induction n with
  | zero => intro tokens expr pos _; rw [Parser.postfixLoop]; exact True.intro
  | succ n ih =>
    intro tokens expr pos h
    rw [Parser.postfixLoop]
    apply parseAll_ite
    · apply ih
      simp [ASTNode.unaryOp, ifShaped, ifShapedList, ifShapedOption, h]
    · exact h

theorem Parser.binaryLoop_shape (isOp : List Token → Nat → Bool)
    (next : Nat → ParseResult ASTNode)
    (hnext : ∀ p, ParseResult.All (fun a => ifShaped a = true) (next p)) :
    ∀ (n : Nat) (tokens : List Token) (expr : ASTNode) (pos : Nat), ifShaped expr = true →
    ParseResult.All (fun a => ifShaped a = true)
      (Parser.binaryLoop isOp next n tokens expr pos) := by
  intro n
  induction n with
  | zero => intro tokens expr pos _; rw [Parser.binaryLoop]; exact True.intro
  | succ n ih =>
    intro tokens expr pos h
    rw [Parser.binaryLoop]
    apply parseAll_ite
    · have hr := hnext (Parser.advance tokens pos)
      cases hc : next (Parser.advance tokens pos) with
      | ok right pos1 =>
        rw [hc] at hr
        apply ih
        have hr1 : ifShaped right = true := hr
        simp [ASTNode.binary, ifShaped, ifShapedList, ifShapedOption, h, hr1]
      | fault f => exact True.intro
      | outOfFuel => exact True.intro
    · exact h
theorem Parser.shape_step : ∀ n : Nat,
    (∀ tokens pos, ParseResult.All (fun o => ifShapedOption o = true)
      (Parser.statement n tokens pos)) ∧
    (∀ tokens pos, ParseResult.All (fun a => ifShaped a = true)
      (Parser.varDeclaration n tokens pos)) ∧
    (∀ tokens children pos, ifShapedList children = true → ParseResult.All (fun l => ifShapedList l = true)
      (Parser.argumentLoop n tokens children pos)) ∧
    (∀ tokens pos, ParseResult.All (fun l => ifShapedList l = true)
      (Parser.arguments n tokens pos)) ∧
    (∀ tokens pos, ParseResult.All (fun a => ifShaped a = true)
      (Parser.printStatement n tokens pos)) ∧
    (∀ tokens children pos, ifShapedList children = true ∧ ifPrefix children = true → ParseResult.All (fun l => ifShapedList l = true ∧ ifPrefix l = true)
      (Parser.elseIfLoop n tokens children pos)) ∧
    (∀ tokens pos, ParseResult.All (fun a => ifShaped a = true)
      (Parser.ifStatement n tokens pos)) ∧
    (∀ tokens pos, ParseResult.All (fun a => ifShaped a = true)
      (Parser.whileStatement n tokens pos)) ∧
    (∀ tokens pos, ParseResult.All (fun a => ifShaped a = true)
      (Parser.forStatement n tokens pos)) ∧
    (∀ tokens pos, ParseResult.All (fun a => ifShaped a = true)
      (Parser.functionDeclaration n tokens pos)) ∧
    (∀ tokens pos, ParseResult.All (fun a => ifShaped a = true)
      (Parser.returnStatement n tokens pos)) ∧
    (∀ tokens statements pos, ifShapedList statements = true → ParseResult.All (fun l => ifShapedList l = true)
      (Parser.blockLoop n tokens statements pos)) ∧
    (∀ tokens pos, ParseResult.All (fun a => ifShaped a = true ∧ a.type = NodeType.BLOCK)
      (Parser.block n tokens pos)) ∧
    (∀ tokens pos, ParseResult.All (fun a => ifShaped a = true)
      (Parser.assignmentOrExpression n tokens pos)) ∧
    (∀ tokens pos, ParseResult.All (fun a => ifShaped a = true)
      (Parser.expression n tokens pos)) ∧
    (∀ tokens pos, ParseResult.All (fun a => ifShaped a = true)
      (Parser.logicalOr n tokens pos)) ∧
    (∀ tokens pos, ParseResult.All (fun a => ifShaped a = true)
      (Parser.logicalAnd n tokens pos)) ∧
    (∀ tokens pos, ParseResult.All (fun a => ifShaped a = true)
      (Parser.equality n tokens pos)) ∧
    (∀ tokens pos, ParseResult.All (fun a => ifShaped a = true)
      (Parser.comparison n tokens pos)) ∧
    (∀ tokens pos, ParseResult.All (fun a => ifShaped a = true)
      (Parser.addition n tokens pos)) ∧
    (∀ tokens pos, ParseResult.All (fun a => ifShaped a = true)
      (Parser.multiplication n tokens pos)) ∧
    (∀ tokens pos, ParseResult.All (fun a => ifShaped a = true)
      (Parser.unary n tokens pos)) ∧
    (∀ tokens pos, ParseResult.All (fun a => ifShaped a = true)
      (Parser.postfixExpr n tokens pos)) ∧
    (∀ tokens pos, ParseResult.All (fun a => ifShaped a = true)
      (Parser.primary n tokens pos)) ∧
    (∀ tokens nodes pos, ifShapedList nodes = true → ParseResult.All (fun l => ifShapedList l = true)
      (Parser.parseLoop n tokens nodes pos)) := by
  intro n
  induction n with
  | zero =>
    refine ⟨?_, ?_, ?_, ?_, ?_, ?_, ?_, ?_, ?_, ?_, ?_, ?_, ?_, ?_, ?_, ?_, ?_, ?_, ?_, ?_, ?_, ?_, ?_, ?_, ?_⟩
    · intros; rw [Parser.statement]; exact True.intro
    · intros; rw [Parser.varDeclaration]; exact True.intro
    · intros; rw [Parser.argumentLoop]; exact True.intro
    · intros; rw [Parser.arguments]; exact True.intro
    · intros; rw [Parser.printStatement]; exact True.intro
    · intros; rw [Parser.elseIfLoop]; exact True.intro
    · intros; rw [Parser.ifStatement]; exact True.intro
    · intros; rw [Parser.whileStatement]; exact True.intro
    · intros; rw [Parser.forStatement]; exact True.intro
    · intros; rw [Parser.functionDeclaration]; exact True.intro
    · intros; rw [Parser.returnStatement]; exact True.intro
    · intros; rw [Parser.blockLoop]; exact True.intro
    · intros; rw [Parser.block]; exact True.intro
    · intros; rw [Parser.assignmentOrExpression]; exact True.intro
    · intros; rw [Parser.expression]; exact True.intro
    · intros; rw [Parser.logicalOr]; exact True.intro
    · intros; rw [Parser.logicalAnd]; exact True.intro
    · intros; rw [Parser.equality]; exact True.intro
    · intros; rw [Parser.comparison]; exact True.intro
    · intros; rw [Parser.addition]; exact True.intro
    · intros; rw [Parser.multiplication]; exact True.intro
    · intros; rw [Parser.unary]; exact True.intro
    · intros; rw [Parser.postfixExpr]; exact True.intro
    · intros; rw [Parser.primary]; exact True.intro
    · intros; rw [Parser.parseLoop]; exact True.intro
  | succ n ih =>
    obtain ⟨ihStatement, ihVarDeclaration, ihArgumentLoop, ihArguments, ihPrintStatement, ihElseIfLoop, ihIfStatement, ihWhileStatement, ihForStatement, ihFunctionDeclaration, ihReturnStatement, ihBlockLoop, ihBlock, ihAssignmentOrExpression, ihExpression, ihLogicalOr, ihLogicalAnd, ihEquality, ihComparison, ihAddition, ihMultiplication, ihUnary, ihPostfixExpr, ihPrimary, ihParseLoop⟩ := ih
    refine ⟨?_, ?_, ?_, ?_, ?_, ?_, ?_, ?_, ?_, ?_, ?_, ?_, ?_, ?_, ?_, ?_, ?_, ?_, ?_, ?_, ?_, ?_, ?_, ?_, ?_⟩
    · intro tokens pos
      rw [Parser.statement]
      apply parseAll_bind (parseAll_trivial _)
      intro _ pos1 _
      apply parseAll_ite
      · rfl
      generalize (Parser.peek tokens pos1).type = t
      cases t <;> dsimp only <;>
        with_reducible repeat' first
          | exact ihVarDeclaration _ _
          | exact ihPrintStatement _ _
          | exact ihIfStatement _ _
          | exact ihWhileStatement _ _
          | exact ihForStatement _ _
          | exact ihFunctionDeclaration _ _
          | exact ihReturnStatement _ _
          | exact ihBlock _ _
          | exact ihAssignmentOrExpression _ _
          | exact parseAll_trivial _
          | apply parseAll_bind
          | intro _
          | simp [ParseResult.All, ifShaped, ifShapedList, ifShapedOption, ifShapedList_append,
            ASTNode.plain, ASTNode.named, ASTNode.leaf, ASTNode.function, ASTNode.unaryOp,
            ASTNode.type, *]
    · intro tokens pos
      rw [Parser.varDeclaration]
      with_reducible repeat' first
        | exact ihExpression _ _
        | exact parseAll_trivial _
        | apply parseAll_bind
        | intro _
        | simp [ParseResult.All, ifShaped, ifShapedList, ifShapedOption, ifShapedList_append,
          ASTNode.plain, ASTNode.named, ASTNode.leaf, ASTNode.function, ASTNode.unaryOp,
          ASTNode.type, *]
    · intro tokens children pos hacc
      rw [Parser.argumentLoop]
      apply parseAll_ite
      rotate_left
      · exact hacc
      apply parseAll_bind (ihExpression _ _)
      intro e pos1 he
      apply ihArgumentLoop
      have he1 : ifShaped e = true := he
      simp [ifShapedList_append, ifShapedList, hacc, he1]
    · intro tokens pos
      rw [Parser.arguments]
      with_reducible repeat' first
        | exact ihExpression _ _
        | apply ihArgumentLoop
        | apply parseAll_bind
        | apply parseAll_ite
        | intro _
        | simp [ParseResult.All, ifShaped, ifShapedList, ifShapedOption, ifShapedList_append,
          ASTNode.plain, ASTNode.named, ASTNode.leaf, ASTNode.function, ASTNode.unaryOp,
          ASTNode.type, *]
    · intro tokens pos
      rw [Parser.printStatement]
      with_reducible repeat' first
        | exact ihArguments _ _
        | exact parseAll_trivial _
        | apply parseAll_bind
        | intro _
        | simp [ParseResult.All, ifShaped, ifShapedList, ifShapedOption, ifShapedList_append,
          ASTNode.plain, ASTNode.named, ASTNode.leaf, ASTNode.function, ASTNode.unaryOp,
          ASTNode.type, *]
    · intro tokens children pos hacc
      rw [Parser.elseIfLoop]
      apply parseAll_ite
      rotate_left
      · exact hacc
      apply parseAll_bind (parseAll_trivial _)
      intro _ pos1 _
      apply parseAll_bind (ihExpression _ _)
      intro cond pos2 hcond
      apply parseAll_bind (parseAll_trivial _)
      intro _ pos3 _
      apply parseAll_bind (parseAll_trivial _)
      intro _ pos4 _
      apply parseAll_bind (ihBlock _ _)
      intro blk pos5 hblk
      apply ihElseIfLoop
      have hc : ifShaped cond = true := hcond
      have hb : ifShaped blk = true ∧ blk.type = NodeType.BLOCK := hblk
      refine ⟨?_, ifPrefix_append _ _ hacc.2 ?_⟩
      · simp [ifShapedList_append, ifShapedList, ifShaped, ifShapedOption, ifChildren,
          elseTail, ASTNode.plain, hacc.1, hc, hb.1, hb.2]
      · simp [isElseIf, ASTNode.plain_type, ASTNode.plain_children, hb.2]
    · intro tokens pos
      rw [Parser.ifStatement]
      apply parseAll_bind (parseAll_trivial _)
      intro _ pos1 _
      apply parseAll_bind (parseAll_trivial _)
      intro _ pos2 _
      apply parseAll_bind (ihExpression _ _)
      intro cond pos3 hcond
      apply parseAll_bind (parseAll_trivial _)
      intro _ pos4 _
      apply parseAll_bind (parseAll_trivial _)
      intro _ pos5 _
      apply parseAll_bind (ihBlock _ _)
      intro blk pos6 hblk
      have hc : ifShaped cond = true := hcond
      have hb : ifShaped blk = true ∧ blk.type = NodeType.BLOCK := hblk
      have hstart : ifShapedList [cond, blk] = true ∧ ifPrefix [cond, blk] = true := by
        simp [ifShapedList, ifPrefix, hc, hb.1, hb.2]
      apply parseAll_bind (ihElseIfLoop _ _ _ hstart)
      intro children pos7 hchildren
      have hch : ifShapedList children = true ∧ ifPrefix children = true := hchildren
      apply parseAll_ite
      · apply parseAll_bind (parseAll_trivial _)
        intro _ pos8 _
        apply parseAll_bind (ihBlock _ _)
        intro elseBlock pos9 helse
        have he : ifShaped elseBlock = true ∧ elseBlock.type = NodeType.BLOCK := helse
        show ifShaped (ASTNode.plain NodeType.IF (children ++ [elseBlock])) = true
        simp [ASTNode.plain, ifShaped, ifShapedOption, ifShapedList_append, ifShapedList,
          ifChildren_append_block children elseBlock hch.2 he.2, hch.1, he.1]
      · show ifShaped (ASTNode.plain NodeType.IF children) = true
        simp [ASTNode.plain, ifShaped, ifShapedOption, ifChildren_of_prefix children hch.2,
          hch.1]
    · intro tokens pos
      rw [Parser.whileStatement]
      with_reducible repeat' first
        | exact ihExpression _ _
        | exact ihBlock _ _
        | exact parseAll_trivial _
        | apply parseAll_bind
        | intro _
        | simp [ParseResult.All, ifShaped, ifShapedList, ifShapedOption, ifShapedList_append,
          ASTNode.plain, ASTNode.named, ASTNode.leaf, ASTNode.function, ASTNode.unaryOp,
          ASTNode.type, *]
    · intro tokens pos
      rw [Parser.forStatement]
      with_reducible repeat' first
        | exact ihAssignmentOrExpression _ _
        | exact ihExpression _ _
        | exact ihBlock _ _
        | exact parseAll_trivial _
        | apply parseAll_bind
        | intro _
        | simp [ParseResult.All, ifShaped, ifShapedList, ifShapedOption, ifShapedList_append,
          ASTNode.plain, ASTNode.named, ASTNode.leaf, ASTNode.function, ASTNode.unaryOp,
          ASTNode.type, *]
    · intro tokens pos
      rw [Parser.functionDeclaration]
      with_reducible repeat' first
        | exact ihBlock _ _
        | exact parseAll_trivial _
        | apply parseAll_bind
        | apply parseAll_ite
        | intro _
        | simp [ParseResult.All, ifShaped, ifShapedList, ifShapedOption, ifShapedList_append,
          ASTNode.plain, ASTNode.named, ASTNode.leaf, ASTNode.function, ASTNode.unaryOp,
          ASTNode.type, *]
    · intro tokens pos
      rw [Parser.returnStatement]
      with_reducible repeat' first
        | exact ihExpression _ _
        | exact parseAll_trivial _
        | apply parseAll_bind
        | apply parseAll_ite
        | intro _
        | simp [ParseResult.All, ifShaped, ifShapedList, ifShapedOption, ifShapedList_append,
          ASTNode.plain, ASTNode.named, ASTNode.leaf, ASTNode.function, ASTNode.unaryOp,
          ASTNode.type, *]
    · intro tokens statements pos hacc
      rw [Parser.blockLoop]
      apply parseAll_ite
      rotate_left
      · exact hacc
      apply parseAll_bind (ihStatement _ _)
      intro stmt pos1 hstmt
      apply parseAll_bind (parseAll_trivial _)
      intro _ pos2 _
      cases stmt with
      | none => exact ihBlockLoop _ _ _ hacc
      | some s =>
        apply ihBlockLoop
        have hs : ifShaped s = true := hstmt
        simp [ifShapedList_append, ifShapedList, hacc, hs]
    · intro tokens pos
      rw [Parser.block]
      apply parseAll_bind (ihBlockLoop _ _ _ (show ifShapedList [] = true from rfl))
      intro statements pos1 hst
      have hs : ifShapedList statements = true := hst
      show ifShaped (ASTNode.plain NodeType.BLOCK statements) = true ∧ _
      simp [ASTNode.plain_type, hs]
      simp [ASTNode.plain, ifShaped, ifShapedOption, hs]
    · intro tokens pos
      rw [Parser.assignmentOrExpression]
      with_reducible repeat' first
        | exact ihExpression _ _
        | apply parseAll_bind
        | apply parseAll_ite
        | intro _
        | simp [ParseResult.All, ifShaped, ifShapedList, ifShapedOption, ifShapedList_append,
          ASTNode.plain, ASTNode.named, ASTNode.leaf, ASTNode.function, ASTNode.unaryOp,
          ASTNode.type, *]
    · intro tokens pos
      rw [Parser.expression]
      with_reducible repeat' first
        | exact ihLogicalOr _ _
    · intro tokens pos
      rw [Parser.logicalOr]
      with_reducible repeat' first
        | exact ihLogicalAnd _ _
        | apply Parser.binaryLoop_shape
        | apply parseAll_bind
        | intro _
    · intro tokens pos
      rw [Parser.logicalAnd]
      with_reducible repeat' first
        | exact ihEquality _ _
        | apply Parser.binaryLoop_shape
        | apply parseAll_bind
        | intro _
    · intro tokens pos
      rw [Parser.equality]
      with_reducible repeat' first
        | exact ihComparison _ _
        | apply Parser.binaryLoop_shape
        | apply parseAll_bind
        | intro _
    · intro tokens pos
      rw [Parser.comparison]
      with_reducible repeat' first
        | exact ihAddition _ _
        | apply Parser.binaryLoop_shape
        | apply parseAll_bind
        | intro _
    · intro tokens pos
      rw [Parser.addition]
      with_reducible repeat' first
        | exact ihMultiplication _ _
        | apply Parser.binaryLoop_shape
        | apply parseAll_bind
        | intro _
    · intro tokens pos
      rw [Parser.multiplication]
      with_reducible repeat' first
        | exact ihUnary _ _
        | apply Parser.binaryLoop_shape
        | apply parseAll_bind
        | intro _
    · intro tokens pos
      rw [Parser.unary]
      with_reducible repeat' first
        | exact ihUnary _ _
        | exact ihPostfixExpr _ _
        | apply parseAll_bind
        | apply parseAll_ite
        | intro _
        | simp [ParseResult.All, ifShaped, ifShapedList, ifShapedOption, ifShapedList_append,
          ASTNode.plain, ASTNode.named, ASTNode.leaf, ASTNode.function, ASTNode.unaryOp,
          ASTNode.type, *]
    · intro tokens pos
      rw [Parser.postfixExpr]
      with_reducible repeat' first
        | exact ihPrimary _ _
        | apply Parser.postfixLoop_shape
        | apply parseAll_bind
    · intro tokens pos
      rw [Parser.primary]
      with_reducible repeat' first
        | exact ihArguments _ _
        | exact ihExpression _ _
        | exact parseAll_trivial _
        | apply parseAll_bind
        | apply parseAll_ite
        | intro _
        | simp [ParseResult.All, ifShaped, ifShapedList, ifShapedOption, ifShapedList_append,
          ASTNode.plain, ASTNode.named, ASTNode.leaf, ASTNode.function, ASTNode.unaryOp,
          ASTNode.type, *]
    · intro tokens nodes pos hacc
      rw [Parser.parseLoop]
      apply parseAll_ite
      rotate_left
      · exact hacc
      apply parseAll_bind (ihStatement _ _)
      intro stmt pos1 hstmt
      apply parseAll_bind (parseAll_trivial _)
      intro _ pos2 _
      cases stmt with
      | none => exact ihParseLoop _ _ _ hacc
      | some s =>
        apply ihParseLoop
        have hs : ifShaped s = true := hstmt
        simp [ifShapedList_append, ifShapedList, hacc, hs]
theorem elseTail_block_last : ∀ (pre : List ASTNode) (x : ASTNode) (post : List ASTNode),
    elseTail (pre ++ x :: post) = true → x.type = NodeType.BLOCK →
    post = [] ∧ pre.all isElseIf = true := by
  intro pre
  induction pre with
  | nil =>
    intro x post h hx
    simp [elseTail, isElseIf, hx] at h
    simp [h]
  | cons y pre ih =>
    intro x post h hx
    rw [List.cons_append, elseTail] at h
    simp only [Bool.or_eq_true, Bool.and_eq_true, List.isEmpty_eq_true] at h
    rcases h with h | h
    · obtain ⟨hpost, hpre⟩ := ih x post h.2 hx
      simp [hpost, hpre, h.1]
    · exact absurd h.2 (by simp)

/-- Claim C16: in the forest of a successful `parse` every `IF` node has
children of the form condition, `BLOCK`, zero or more `IF` nodes with exactly
the two children condition and `BLOCK`, then at most one `BLOCK`; a `BLOCK`
after the then-block is the last child, and the children before it are
else-if nodes. -/
theorem if_shape :
    (∀ (fuel : Nat) (tokens : List Token) (forest : List ASTNode) (pos : Nat),
      parse fuel tokens = ParseResult.ok forest pos → ifShapedList forest = true) ∧
    (∀ (t : NodeType) (v o : String) (c : List ASTNode) (p : List String)
        (b : Option ASTNode),
      ifShaped (ASTNode.mk t v o c p b) = true →
      (t = NodeType.IF → ∃ cond blk rest, c = cond :: blk :: rest ∧
        blk.type = NodeType.BLOCK ∧ elseTail rest = true) ∧
      ifShapedList c = true ∧ ifShapedOption b = true) ∧
    (∀ (pre : List ASTNode) (x : ASTNode) (post : List ASTNode),
      elseTail (pre ++ x :: post) = true → x.type = NodeType.BLOCK →
      post = [] ∧ pre.all isElseIf = true) := by
  refine ⟨?_, ?_, elseTail_block_last⟩
  · intro fuel tokens forest pos h
    unfold parse at h
    split at h
    · cases h
    · have hall := (Parser.shape_step fuel).2.2.2.2.2.2.2.2.2.2.2.2.2.2.2.2.2.2.2.2.2.2.2.2
        tokens [] 0 rfl
      rw [h] at hall
      exact hall
  · intro t v o c p b h
    simp only [ifShaped, Bool.and_eq_true, Bool.or_eq_true, decide_eq_true_eq] at h
    refine ⟨fun ht => ?_, h.1.2, h.2⟩
    have hc : ifChildren c = true := by
      rcases h.1.1 with h1 | h1
      · exact absurd ht h1
      · exact h1
    match c, hc with
    | cond :: blk :: rest, hc =>
      simp only [ifChildren, Bool.and_eq_true, decide_eq_true_eq] at hc
      exact ⟨cond, blk, rest, rfl, hc.1, hc.2⟩

/-- Claim C16 on the tokens of
`ila (a) \x7b \x7d wila (b) \x7b \x7d wla \x7b \x7d`. -/
theorem if_shape_witness :
    parse 100 Example.tokensIfElse = ParseResult.ok Example.forestIfElse 15 ∧
      ifShapedList Example.forestIfElse = true :=
  ⟨by decide!, if_shape.1 100 Example.tokensIfElse Example.forestIfElse 15 (by decide!)⟩

/-! ## Expression statements -/

/-- Claim C26: executing a node that is an expression (a literal, an
identifier, a binary or unary operation, a call) returns the state as it is:
no variable, function, return state or output changes, and there is no fault;
after `dalla f(a) \x7b kteb(a) \x7d dir i = 1` the statements `i++`, `f(1)`,
`zz` and `1 + "a" / 0` do nothing, and `kteb(i)` prints `1`. -/
theorem expression_statement_noop :
    (∀ (n : Nat) (node : ASTNode) (st : State),
      node.type = NodeType.NUMBER ∨ node.type = NodeType.STRING ∨
        node.type = NodeType.BOOLEAN ∨ node.type = NodeType.IDENTIFIER ∨
        node.type = NodeType.BINARY_OP ∨ node.type = NodeType.UNARY_OP ∨
        node.type = NodeType.CALL →
      Interpreter.execute (n + 1) node st = Outcome.ok () st) ∧
    parseSource 100 "i++; f(1); zz" = ParseResult.ok
      [ASTNode.unaryOp "post++" (ASTNode.leaf NodeType.IDENTIFIER "i"),
       ASTNode.named NodeType.CALL "f" [ASTNode.leaf NodeType.NUMBER "1"],
       ASTNode.leaf NodeType.IDENTIFIER "zz"] 9 ∧
    (interpret 100
        "dalla f(a) \x7b kteb(a) \x7d dir i = 1; i++; f(1); zz; 1 + \"a\" / 0; kteb(i)").final.map
      (fun st => (st.vars, st.returnValue, st.hasReturned, st.out)) =
        some ([("i", "1")], "", false, "1\n") := by
  refine ⟨?_, by decide!, by decide!⟩
  intro n node st h
  rw [Interpreter.execute]
  rcases h with h | h | h | h | h | h | h <;> simp only [h]

/-- Claim C26 at the call `f()` in the state after
`dir x = 1; dalla f() \x7b x = 99; rje3 x \x7d`. -/
theorem expression_statement_noop_witness :
    (Example.callF.type = NodeType.NUMBER ∨ Example.callF.type = NodeType.STRING ∨
        Example.callF.type = NodeType.BOOLEAN ∨ Example.callF.type = NodeType.IDENTIFIER ∨
        Example.callF.type = NodeType.BINARY_OP ∨ Example.callF.type = NodeType.UNARY_OP ∨
        Example.callF.type = NodeType.CALL) ∧
      Interpreter.execute (0 + 1) Example.callF Example.stateX =
        Outcome.ok () Example.stateX :=
  ⟨by decide, expression_statement_noop.1 0 Example.callF Example.stateX (by decide)⟩

/-! ## The increment of a for loop -/

theorem outcome_stable {α : Type} {f : Nat → Outcome α}
    (hf : ∀ n, Outcome.Ext (f n) (f (n + 1))) {K : Nat} {a : α} {st : State}
    (hK : f K = Outcome.ok a st) (n : Nat) :
    f n = Outcome.outOfFuel ∨ f n = Outcome.ok a st := by
  rcases Nat.le_total n K with h | h
  · have key : ∀ m, n ≤ m → f n = Outcome.outOfFuel ∨ f n = f m := by
      intro m hm
      induction hm with
      | refl => exact Or.inr rfl
      | step _ ih =>
        rcases ih with ih | ih
        · exact Or.inl ih
        · rcases hf _ with h1 | h1
          · exact Or.inl (ih.trans h1)
          · exact Or.inr (ih.trans h1)
    rcases key K h with h1 | h1
    · exact Or.inl h1
    · exact Or.inr (h1.trans hK)
  · exact Or.inr (outcome_ok_of_le hf h hK)

theorem Interpreter.evaluate_stable {K : Nat} {node : ASTNode} {st : State} {v : String}
    {st' : State} (hK : Interpreter.evaluate K node st = Outcome.ok v st') (n : Nat) :
    Interpreter.evaluate n node st = Outcome.outOfFuel ∨
      Interpreter.evaluate n node st = Outcome.ok v st' :=
  outcome_stable (f := fun n => Interpreter.evaluate n node st)
    (fun n => (Interpreter.interpreter_fuel_step n).2.2.2.2.2.2.2 node st) hK n

theorem Interpreter.execute_stable {K : Nat} {node : ASTNode} {st : State}
    {st' : State} (hK : Interpreter.execute K node st = Outcome.ok () st') (n : Nat) :
    Interpreter.execute n node st = Outcome.outOfFuel ∨
      Interpreter.execute n node st = Outcome.ok () st' :=
  outcome_stable (f := fun n => Interpreter.execute n node st)
    (fun n => (Interpreter.interpreter_fuel_step n).1 node st) hK n

theorem Interpreter.evaluate_statement (n : Nat) (node : ASTNode) (st : State)
    (h : node.type = NodeType.ASSIGNMENT ∨ node.type = NodeType.VAR_DECL) :
    Interpreter.evaluate (n + 1) node st = Outcome.ok "0" st := by
  rw [Interpreter.evaluate]
  rcases h with h | h <;> simp only [h]

theorem Interpreter.forLoop_forAssign : ∀ fuel : Nat,
    Interpreter.forLoop fuel Example.forAssign Example.stateI0 = Outcome.outOfFuel := by
  intro fuel
  induction fuel with
  | zero => rw [Interpreter.forLoop]
  | succ n ih =>
    rw [Interpreter.forLoop]
    have c1 : child Example.forAssign 1 Example.stateI0 =
        Outcome.ok Example.condLt3 Example.stateI0 := rfl
    have c2 : child Example.forAssign 2 Example.stateI0 =
        Outcome.ok Example.incAssign Example.stateI0 := rfl
    have c3 : child Example.forAssign 3 Example.stateI0 =
        Outcome.ok (ASTNode.plain NodeType.BLOCK []) Example.stateI0 := rfl
    have e1 : Interpreter.evaluate 5 Example.condLt3 Example.stateI0 =
        Outcome.ok "s7i7" Example.stateI0 := by decide!
    have e3 : Interpreter.execute 5 (ASTNode.plain NodeType.BLOCK []) Example.stateI0 =
        Outcome.ok () Example.stateI0 := by decide!
    have e2 : Interpreter.evaluate 5 Example.incAssign Example.stateI0 =
        Outcome.ok "0" Example.stateI0 := by decide!
    rw [c1]
    simp only [Outcome.bind]
    rcases Interpreter.evaluate_stable e1 n with h | h
    · rw [h]
    · rw [h]
      simp only [isTruthy, Outcome.bind]
      rw [if_pos (by decide), c3]
      simp only [Outcome.bind]
      rcases Interpreter.execute_stable e3 n with h3 | h3
      · rw [h3]
      · rw [h3]
        simp only [Outcome.bind]
        rw [if_neg (by decide), c2]
        simp only [Outcome.bind]
        rcases Interpreter.evaluate_stable e2 n with h2 | h2
        · rw [h2]
        · rw [h2]
          exact ih

/-- Claim C25: evaluating an assignment or variable-declaration node yields
`0` and returns the state as it is; a for loop whose increment is such a node
goes from the state after the body straight to the next test of the
condition; `kol (i = 0; i < 3; i = i + 1) \x7b \x7d` keeps `i` at `0` and
never ends. -/
theorem increment_is_evaluated :
    (∀ (n : Nat) (node : ASTNode) (st : State),
      node.type = NodeType.ASSIGNMENT ∨ node.type = NodeType.VAR_DECL →
      Interpreter.evaluate (n + 1) node st = Outcome.ok "0" st) ∧
    (∀ (n : Nat) (node cond body inc : ASTNode) (st st1 st3 : State) (v : String),
      node.children.get? 1 = some cond →
      Interpreter.evaluate n cond st = Outcome.ok v st1 → isTruthy v = true →
      node.children.get? 3 = some body →
      Interpreter.execute n body st1 = Outcome.ok () st3 → st3.hasReturned = false →
      node.children.get? 2 = some inc →
      inc.type = NodeType.ASSIGNMENT ∨ inc.type = NodeType.VAR_DECL →
      Interpreter.forLoop (n + 1) node st = Interpreter.forLoop n node st3) ∧
    parseSource 100 "kol (i = 0; i < 3; i = i + 1) \x7b \x7d" =
      ParseResult.ok [Example.forAssign] 18 ∧
    (∀ fuel : Nat, run fuel [Example.forAssign] State.initial = Outcome.outOfFuel) := by
  refine ⟨Interpreter.evaluate_statement, ?_, by decide!, ?_⟩
  · intro n node cond body inc st st1 st3 v hc he hv hb hx hr hi hty
    obtain ⟨k, rfl⟩ : ∃ k, n = k + 1 := by
      cases n with
      | zero => rw [Interpreter.evaluate] at he; cases he
      | succ k => exact ⟨k, rfl⟩
    rw [Interpreter.forLoop]
    simp only [child, hc, hb, hi, he, hx, hv, hr, Outcome.bind, if_true,
      Interpreter.evaluate_statement k inc st3 hty]
    simp
  · intro fuel
    cases fuel with
    | zero => rfl
    | succ n =>
      unfold run
      rw [Interpreter.runLoop, if_neg (by decide)]
      cases n with
      | zero => rfl
      | succ m =>
        rw [Interpreter.execute]
        have c0 : child Example.forAssign 0 State.initial =
            Outcome.ok (ASTNode.named NodeType.ASSIGNMENT "i" [ASTNode.leaf NodeType.NUMBER "0"])
              State.initial := rfl
        have e0 : Interpreter.execute 5
            (ASTNode.named NodeType.ASSIGNMENT "i" [ASTNode.leaf NodeType.NUMBER "0"])
            State.initial = Outcome.ok () Example.stateI0 := by decide!
        have hty : Example.forAssign.type = NodeType.FOR := rfl
        simp only [hty, c0, Outcome.bind]
        rcases Interpreter.execute_stable e0 m with h | h
        · rw [h]
        · rw [h]
          simp only [Interpreter.forLoop_forAssign m, Outcome.bind]

/-- Claim C25 at the increment `i = i + 1` and at the for loop
`kol (i = 0; i < 3; i = i + 1) \x7b \x7d` in the state with `i = 0`. -/
theorem increment_is_evaluated_witness :
    (Example.incAssign.type = NodeType.ASSIGNMENT ∨
        Example.incAssign.type = NodeType.VAR_DECL) ∧
      Interpreter.evaluate (4 + 1) Example.incAssign Example.stateI0 =
        Outcome.ok "0" Example.stateI0 ∧
      Interpreter.forLoop (5 + 1) Example.forAssign Example.stateI0 =
        Interpreter.forLoop 5 Example.forAssign Example.stateI0 :=
  ⟨by decide, increment_is_evaluated.1 4 Example.incAssign Example.stateI0 (by decide),
    increment_is_evaluated.2.1 5 Example.forAssign Example.condLt3
      (ASTNode.plain NodeType.BLOCK []) Example.incAssign Example.stateI0 Example.stateI0
      Example.stateI0 "s7i7" (by decide) (by decide!) (by decide) (by decide) (by decide!)
      (by decide) (by decide) (by decide)⟩

/-! ## The logical operators -/

theorem outcome_of_le {α : Type} {f : Nat → Outcome α}
    (hf : ∀ n, Outcome.Ext (f n) (f (n + 1))) {n m : Nat} (h : n ≤ m)
    (hn : f n ≠ Outcome.outOfFuel) : f m = f n := by
  induction h with
  | refl => rfl
  | step _ ih =>
    rcases hf _ with h1 | h1
    · rw [ih] at h1
      exact absurd h1 hn
    · rw [← h1, ih]

theorem Interpreter.evaluate_of_le {n m : Nat} (h : n ≤ m) {node : ASTNode} {st : State}
    (hn : Interpreter.evaluate n node st ≠ Outcome.outOfFuel) :
    Interpreter.evaluate m node st = Interpreter.evaluate n node st :=
  outcome_of_le (f := fun n => Interpreter.evaluate n node st)
    (fun n => (Interpreter.interpreter_fuel_step n).2.2.2.2.2.2.2 node st) h hn

theorem Interpreter.evaluate_binary_fault (n : Nat) (op : String) (c0 c1 : ASTNode)
    (st st1 : State) (l : String) (f : Fault) (out : String)
    (h0 : Interpreter.evaluate n c0 st = Outcome.ok l st1)
    (h1 : Interpreter.evaluate n c1 st1 = Outcome.fault f out) :
    Interpreter.evaluate (n + 1) (ASTNode.binary op c0 c1) st = Outcome.fault f out := by
  rw [Interpreter.evaluate]
  simp [ASTNode.binary, ASTNode.type, ASTNode.children, child, Outcome.bind, h0, h1]

/-- Claim C22: `l w r` and `l wla r` evaluate `l` and then `r`, whatever the
value of `l`: the state after is the state after `r`, a fault of `r` is the
fault of the whole, and the value is `s7i7` or `ghalat` by the truth of both,
respectively of one, of the two values; `ghalat w zz` with `zz` undefined is
the undefined-variable fault, and the `i++` in `s7i7 wla i++` and in
`ghalat w i++` takes effect. -/
theorem logical_operators_eager :
    (∀ (n : Nat) (l r : ASTNode) (st st1 st2 : State) (lv rv : String),
      Interpreter.evaluate n l st = Outcome.ok lv st1 →
      Interpreter.evaluate n r st1 = Outcome.ok rv st2 →
      ∀ fuel, n + 1 ≤ fuel →
        Interpreter.evaluate fuel (ASTNode.binary "w" l r) st =
          Outcome.ok (if isTruthy lv = true ∧ isTruthy rv = true then "s7i7" else "ghalat")
            st2 ∧
        Interpreter.evaluate fuel (ASTNode.binary "wla" l r) st =
          Outcome.ok (if isTruthy lv = true ∨ isTruthy rv = true then "s7i7" else "ghalat")
            st2) ∧
    (∀ (n : Nat) (op : String) (l r : ASTNode) (st st1 : State) (lv : String) (f : Fault)
        (out : String),
      Interpreter.evaluate n l st = Outcome.ok lv st1 →
      Interpreter.evaluate n r st1 = Outcome.fault f out →
      ∀ fuel, n + 1 ≤ fuel →
        Interpreter.evaluate fuel (ASTNode.binary op l r) st = Outcome.fault f out) ∧
    interpret 100 "kteb(ghalat w zz)" =
      Execution.ran (Outcome.fault (Fault.undefinedVariable "zz") "") ∧
    (interpret 100 "dir i = 0; dir a = s7i7 wla i++; dir b = ghalat w i++").final.map
      State.vars = some [("i", "2"), ("a", "s7i7"), ("b", "ghalat")] := by
  refine ⟨?_, ?_, by decide!, by decide!⟩
  · intro n l r st st1 st2 lv rv h0 h1 fuel hfuel
    constructor
    · apply Interpreter.evaluate_mono hfuel
      rw [evaluate_binary n "w" l r st st1 st2 lv rv h0 h1]
      simp [binaryOp, liftExcept, boolText]
    · apply Interpreter.evaluate_mono hfuel
      rw [evaluate_binary n "wla" l r st st1 st2 lv rv h0 h1]
      simp [binaryOp, liftExcept, boolText]
  · intro n op l r st st1 lv f out h0 h1 fuel hfuel
    have h := Interpreter.evaluate_binary_fault n op l r st st1 lv f out h0 h1
    rw [Interpreter.evaluate_of_le hfuel (by rw [h]; exact fun e => Outcome.noConfusion e), h]

/-- Claim C22 at `ghalat w i++` with `i = 0` and at `ghalat w zz`. -/
theorem logical_operators_eager_witness :
    (Interpreter.evaluate 3 (ASTNode.binary "w" (ASTNode.leaf NodeType.BOOLEAN "ghalat")
        (ASTNode.unaryOp "post++" (ASTNode.leaf NodeType.IDENTIFIER "i"))) Example.stateI0 =
      Outcome.ok "ghalat" ⟨[("i", "1")], [], "", false, ""⟩) ∧
    Interpreter.evaluate 3 (ASTNode.binary "w" (ASTNode.leaf NodeType.BOOLEAN "ghalat")
        (ASTNode.leaf NodeType.IDENTIFIER "zz")) Example.stateI0 =
      Outcome.fault (Fault.undefinedVariable "zz") "" :=
  ⟨(logical_operators_eager.1 2 (ASTNode.leaf NodeType.BOOLEAN "ghalat")
      (ASTNode.unaryOp "post++" (ASTNode.leaf NodeType.IDENTIFIER "i")) Example.stateI0
      Example.stateI0 ⟨[("i", "1")], [], "", false, ""⟩ "ghalat" "0" (by decide!) (by decide!)
      3 (by decide)).1,
    logical_operators_eager.2.1 2 "w" (ASTNode.leaf NodeType.BOOLEAN "ghalat")
      (ASTNode.leaf NodeType.IDENTIFIER "zz") Example.stateI0 Example.stateI0 "ghalat"
      (Fault.undefinedVariable "zz") "" (by decide!) (by decide!) 3 (by decide)⟩

/-! ## The target of an assignment -/

theorem Parser.assignmentOrExpression_mono {n m : Nat} (h : n ≤ m) {tokens : List Token}
    {pos : Nat} {a : ASTNode} {p : Nat}
    (hn : Parser.assignmentOrExpression n tokens pos = ParseResult.ok a p) :
    Parser.assignmentOrExpression m tokens pos = ParseResult.ok a p :=
  parse_ok_of_le (f := fun n => Parser.assignmentOrExpression n tokens pos)
    (fun n => (Parser.parser_fuel_step n).2.2.2.2.2.2.2.2.2.2.2.2.2.1 tokens pos) h hn

/-- Claim C27: when an `=` follows an expression `L`, and an expression `R`
follows the `=`, the parser returns an `ASSIGNMENT` node whose value is the
value field of `L` and whose only child is `R`; executing the node evaluates
`R` alone and binds the name; `f(1) = 2` binds `f`, `1 = 2` binds the name
`1`, and `a + b = 2` binds the empty name, with neither `f`, `a` nor `b`
defined. -/
theorem assignment_target :
    (∀ (n : Nat) (tokens : List Token) (p p1 p2 : Nat) (L R : ASTNode),
      Parser.expression n tokens p = ParseResult.ok L p1 →
      (Parser.peek tokens p1).type = TokenType.EQUAL →
      Parser.expression n tokens (Parser.advance tokens p1) = ParseResult.ok R p2 →
      ∀ fuel, n + 1 ≤ fuel →
        Parser.assignmentOrExpression fuel tokens p =
          ParseResult.ok (ASTNode.named NodeType.ASSIGNMENT L.value [R]) p2) ∧
    (∀ (n : Nat) (name : String) (R : ASTNode) (st st1 : State) (v : String),
      Interpreter.evaluate n R st = Outcome.ok v st1 →
      ∀ fuel, n + 1 ≤ fuel →
        Interpreter.execute fuel (ASTNode.named NodeType.ASSIGNMENT name [R]) st =
          Outcome.ok () { st1 with vars := assign st1.vars name v }) ∧
    parseSource 100 "f(1) = 2" = ParseResult.ok
      [ASTNode.named NodeType.ASSIGNMENT "f" [ASTNode.leaf NodeType.NUMBER "2"]] 6 ∧
    parseSource 100 "1 = 2" = ParseResult.ok
      [ASTNode.named NodeType.ASSIGNMENT "1" [ASTNode.leaf NodeType.NUMBER "2"]] 3 ∧
    parseSource 100 "a + b = 2" = ParseResult.ok
      [ASTNode.named NodeType.ASSIGNMENT "" [ASTNode.leaf NodeType.NUMBER "2"]] 5 ∧
    (interpret 100 "f(1) = 2; 1 = 2; a + b = 2").final.map State.vars =
      some [("f", "2"), ("1", "2"), ("", "2")] := by
  refine ⟨?_, ?_, by decide!, by decide!, by decide!, by decide!⟩
  · intro n tokens p p1 p2 L R hL heq hR fuel hfuel
    apply Parser.assignmentOrExpression_mono hfuel
    rw [Parser.assignmentOrExpression, hL]
    simp only [ParseResult.bind, Parser.check, heq, decide_True, if_true, hR]
  · intro n name R st st1 v hR fuel hfuel
    apply Interpreter.execute_mono hfuel
    rw [Interpreter.execute]
    simp [ASTNode.named, ASTNode.type, ASTNode.children, ASTNode.value, child, Outcome.bind, hR]

/-- Claim C27 at the tokens of `a + b = 2`. -/
theorem assignment_target_witness :
    Parser.assignmentOrExpression 12 Example.tokensSumAssign 0 =
        ParseResult.ok (ASTNode.named NodeType.ASSIGNMENT "" [ASTNode.leaf NodeType.NUMBER "2"])
          5 ∧
      Interpreter.execute 2
          (ASTNode.named NodeType.ASSIGNMENT "" [ASTNode.leaf NodeType.NUMBER "2"])
          State.initial =
        Outcome.ok () ⟨[("", "2")], [], "", false, ""⟩ :=
  ⟨assignment_target.1 11 Example.tokensSumAssign 0 3 5
      (ASTNode.binary "+" (ASTNode.leaf NodeType.IDENTIFIER "a")
        (ASTNode.leaf NodeType.IDENTIFIER "b"))
      (ASTNode.leaf NodeType.NUMBER "2") (by decide!) (by decide) (by decide!) 12 (by decide),
    assignment_target.2.1 1 "" (ASTNode.leaf NodeType.NUMBER "2") State.initial State.initial
      "2" (by decide!) 2 (by decide)⟩

/-! ## Post-increment -/

theorem Double.toInt_isInt (d : Double) (z : Int) (h : Double.IsInt d z)
    (hz : -2147483648 ≤ z ∧ z ≤ 2147483647) : d.toInt = some z := by
  obtain ⟨s, rfl⟩ := h
  have hp : (0 : Int) < 2 ^ s := by positivity
  have e1 : (-(s : Int)).toNat = 0 := by omega
  have e2 : (-(-(s : Int))).toNat = s := by omega
  unfold Double.toInt
  simp only [e1, e2, pow_zero, mul_one]
  have hn : (2 : Int) ^ s = ((2 ^ s : Nat) : Int) := by push_cast; rfl
  rw [hn, Int.mul_tdiv_cancel _ (by rw [← hn]; exact ne_of_gt hp)]
  rw [if_pos hz]

theorem Double.ofInt_isInt (z : Int) : Double.IsInt (Double.ofInt z) z :=
  ⟨0, by simp [Double.ofInt]⟩

theorem lookup_assign_ne {α : Type} (m : List (String × α)) (k y : String) (v : α)
    (h : y ≠ k) : (assign m k v).lookup y = m.lookup y := by
  induction m with
  | nil =>
    have hne : (y == k) = false := by simpa using h
    simp [assign, List.lookup, hne]
  | cons q rest ih =>
    obtain ⟨k1, v1⟩ := q
    simp only [assign]
    split
    · next hk =>
      subst hk
      have hne : (y == k1) = false := by simpa using h
      simp [List.lookup, hne]
    · simp only [List.lookup]
      split <;> simp_all

theorem postIncrement_int (k : Int) (hk : -2147483648 ≤ k ∧ k ≤ 2147483646) :
    postIncrement (toStringInt k) = Except.ok (toStringInt (k + 1), toStringInt k) := by
  obtain ⟨d, hd, hint⟩ := stod_toStringInt k (by constructor <;> omega)
  have hadd := Double.add_isInt d (Double.ofInt 1) k 1 hint (Double.ofInt_isInt 1)
    (by constructor <;> omega)
  unfold postIncrement
  simp only [hd, Double.toInt_isInt _ _ hadd (by constructor <;> omega),
    formatNumber_isInt d k hint (by constructor <;> omega)]

theorem Interpreter.evaluate_postIncrement (x : String) (st : State) (t stored text : String)
    (hx : st.vars.lookup x = some t) (hp : postIncrement t = Except.ok (stored, text))
    (fuel : Nat) (hfuel : 2 ≤ fuel) :
    Interpreter.evaluate fuel (ASTNode.unaryOp "post++" (ASTNode.leaf NodeType.IDENTIFIER x))
        st = Outcome.ok text { st with vars := assign st.vars x stored } := by
  apply Interpreter.evaluate_mono hfuel
  rw [Interpreter.evaluate]
  have hid : Interpreter.evaluate 1 (ASTNode.mk NodeType.IDENTIFIER x "" [] [] none) st =
      Outcome.ok t st := by
    rw [Interpreter.evaluate_identifier 0 (ASTNode.mk NodeType.IDENTIFIER x "" [] [] none) st rfl]
    simp [ASTNode.value, hx]
  simp [ASTNode.unaryOp, ASTNode.type, ASTNode.children, ASTNode.op, child, Outcome.bind, hid,
    ASTNode.leaf, ASTNode.value, hp, liftExcept]

/-- Claim C21, as stated, fails: with `x` bound to the literal `3.0`, `x++`
yields `3`, not the original text `3.0` (and stores `4`). -/
theorem post_increment_reformats :
    (interpret 100 "dir x = 3.0; dir y = x++").final.map State.vars =
      some [("x", "4"), ("y", "3")] := by
  decide!

/-- Claim C21, amended: for a store in which `x` is bound to a text that
`std::stod` converts to a number `val`, `x++` yields `val` formatted as every
numeric result is (the `int` text when `val` is whole, six decimals
otherwise) and leaves `x` bound to the `int` text of `val + 1` truncated, all
other variables unchanged; the value is the original text when that is the
decimal text of an `int`: with `x = 2` it yields `2` and stores `3`, with
`3.0` it yields `3` and stores `4`, with `2.5` it yields `2.500000` and
stores `3`. -/
theorem post_increment :
    (∀ (x : String) (st : State) (t text : String) (val : Double) (next : Int),
      st.vars.lookup x = some t →
      stod t = Except.ok val →
      (Double.add val (Double.ofInt 1)).toInt = some next →
      formatNumber val = Except.ok text →
      ∀ fuel, 2 ≤ fuel →
        Interpreter.evaluate fuel
            (ASTNode.unaryOp "post++" (ASTNode.leaf NodeType.IDENTIFIER x)) st =
          Outcome.ok text { st with vars := assign st.vars x (toStringInt next) }) ∧
    (∀ (x : String) (st : State) (k : Int),
      -2147483648 ≤ k ∧ k ≤ 2147483646 →
      st.vars.lookup x = some (toStringInt k) →
      ∀ fuel, 2 ≤ fuel →
        Interpreter.evaluate fuel
            (ASTNode.unaryOp "post++" (ASTNode.leaf NodeType.IDENTIFIER x)) st =
          Outcome.ok (toStringInt k) { st with vars := assign st.vars x (toStringInt (k + 1)) }) ∧
    (∀ (vars : List (String × String)) (x y stored : String),
      y ≠ x → (assign vars x stored).lookup y = vars.lookup y) ∧
    (interpret 100 "dir x = 2; dir y = x++").final.map State.vars =
      some [("x", "3"), ("y", "2")] ∧
    (interpret 100 "dir x = 3.0; dir y = x++").final.map State.vars =
      some [("x", "4"), ("y", "3")] ∧
    (interpret 100 "dir x = 2.5; dir y = x++").final.map State.vars =
      some [("x", "3"), ("y", "2.500000")] := by
  refine ⟨?_, ?_, ?_, by decide!, by decide!, by decide!⟩
  · intro x st t text val next hx hs hn hf fuel hfuel
    apply Interpreter.evaluate_postIncrement x st t (toStringInt next) text hx _ fuel hfuel
    unfold postIncrement
    simp only [hs, hn, hf]
  · intro x st k hk hx fuel hfuel
    exact Interpreter.evaluate_postIncrement x st (toStringInt k) (toStringInt (k + 1))
      (toStringInt k) hx (postIncrement_int k hk) fuel hfuel
  · intro vars x y stored h
    exact lookup_assign_ne vars x y stored h

/-- Claim C21, amended, at `x++` with `x = 2.5`, with `x = 41` and another
variable `y`. -/
theorem post_increment_witness :
    Interpreter.evaluate 2 (ASTNode.unaryOp "post++" (ASTNode.leaf NodeType.IDENTIFIER "x"))
        ⟨[("x", "2.5")], [], "", false, ""⟩ =
      Outcome.ok "2.500000" ⟨[("x", "3")], [], "", false, ""⟩ ∧
    Interpreter.evaluate 2 (ASTNode.unaryOp "post++" (ASTNode.leaf NodeType.IDENTIFIER "x"))
        ⟨[("y", "a"), ("x", "41")], [], "", false, ""⟩ =
      Outcome.ok "41" ⟨[("y", "a"), ("x", "42")], [], "", false, ""⟩ ∧
    (assign [("y", "a"), ("x", "41")] "x" "42").lookup "y" =
      [("y", "a"), ("x", "41")].lookup "y" :=
  ⟨post_increment.1 "x" ⟨[("x", "2.5")], [], "", false, ""⟩ "2.5" "2.500000"
      (Double.finite 5629499534213120 (-51)) 3 (by decide) (by decide!) (by decide!)
      (by decide!) 2 (by decide),
    post_increment.2.1 "x" ⟨[("y", "a"), ("x", "41")], [], "", false, ""⟩ 41
      (by decide) (by decide) 2 (by decide),
    post_increment.2.2.1 [("y", "a"), ("x", "41")] "x" "y" "42" (by decide)⟩

/-! ## Calls and the function table -/

theorem tableUpdated_refl (t : List (String × ASTNode)) : TableUpdated t t :=
  ⟨[], fun _ h => absurd h (List.not_mem_nil _), rfl⟩

theorem tableUpdated_trans {t1 t2 t3 : List (String × ASTNode)} (h1 : TableUpdated t1 t2)
    (h2 : TableUpdated t2 t3) : TableUpdated t1 t3 := by
  obtain ⟨ds1, hd1, rfl⟩ := h1
  obtain ⟨ds2, hd2, rfl⟩ := h2
  refine ⟨ds1 ++ ds2, ?_, ?_⟩
  · intro d hd
    rcases List.mem_append.mp hd with h | h
    · exact hd1 d h
    · exact hd2 d h
  · simp [declareAll, List.foldl_append]

theorem tableUpdated_assign (t : List (String × ASTNode)) (d : ASTNode)
    (h : d.type = NodeType.FUNCTION_DECL) : TableUpdated t (assign t d.value d) :=
  ⟨[d], fun x hx => by rw [List.mem_singleton.mp hx]; exact h, rfl⟩

theorem outcomeAll_ok {α : Type} {P : State → Prop} {a : α} {st : State} (h : P st) :
    Outcome.All P (Outcome.ok a st) := h

theorem outcomeAll_bind {α β : Type} {T : List (String × ASTNode)} {r : Outcome α}
    {f : α → State → Outcome β}
    (h : Outcome.All (fun s => TableUpdated T s.functions) r)
    (hf : ∀ a st1, Outcome.All (fun s => TableUpdated st1.functions s.functions) (f a st1)) :
    Outcome.All (fun s => TableUpdated T s.functions) (r.bind f) := by
  cases r with
  | ok a st1 =>
    have h1 : TableUpdated T st1.functions := h
    have h2 := hf a st1
    show Outcome.All _ (f a st1)
    cases hr : f a st1 with
    | ok b st2 =>
      rw [hr] at h2
      exact tableUpdated_trans h1 h2
    | fault e out => exact True.intro
    | outOfFuel => exact True.intro
  | fault e out => exact True.intro
  | outOfFuel => exact True.intro

theorem outcomeAll_ite {α : Type} {P : State → Prop} {c : Prop} [Decidable c]
    {a b : Outcome α} (ha : Outcome.All P a) (hb : Outcome.All P b) :
    Outcome.All P (if c then a else b) := by
  split
  · exact ha
  · exact hb

theorem child_table (node : ASTNode) (i : Nat) (st : State) :
    Outcome.All (fun s => TableUpdated st.functions s.functions) (child node i st) := by
  unfold child
  cases node.children.get? i with
  | none => exact True.intro
  | some c => exact tableUpdated_refl _

theorem liftExcept_table {α : Type} (r : Except Fault α) (st : State) :
    Outcome.All (fun s => TableUpdated st.functions s.functions) (liftExcept r st) := by
  cases r with
  | error f => exact True.intro
  | ok a => exact tableUpdated_refl _
theorem Interpreter.table_step : ∀ n : Nat,
    (∀ node st, Outcome.All (fun s => TableUpdated st.functions s.functions)
      (Interpreter.execute n node st)) ∧
    (∀ args i st, Outcome.All (fun s => TableUpdated st.functions s.functions)
      (Interpreter.printLoop n args i st)) ∧
    (∀ cs st, Outcome.All (fun s => TableUpdated st.functions s.functions)
      (Interpreter.elseLoop n cs st)) ∧
    (∀ node st, Outcome.All (fun s => TableUpdated st.functions s.functions)
      (Interpreter.whileLoop n node st)) ∧
    (∀ node st, Outcome.All (fun s => TableUpdated st.functions s.functions)
      (Interpreter.forLoop n node st)) ∧
    (∀ stmts st, Outcome.All (fun s => TableUpdated st.functions s.functions)
      (Interpreter.blockLoop n stmts st)) ∧
    (∀ params args st, Outcome.All (fun s => TableUpdated st.functions s.functions)
      (Interpreter.bindLoop n params args st)) ∧
    (∀ node st, Outcome.All (fun s => TableUpdated st.functions s.functions)
      (Interpreter.evaluate n node st)) := by
  intro n
  induction n with
  | zero =>
    refine ⟨?_, ?_, ?_, ?_, ?_, ?_, ?_, ?_⟩
    · intros; rw [Interpreter.execute]; exact True.intro
    · intros; rw [Interpreter.printLoop]; exact True.intro
    · intros; rw [Interpreter.elseLoop]; exact True.intro
    · intros; rw [Interpreter.whileLoop]; exact True.intro
    · intros; rw [Interpreter.forLoop]; exact True.intro
    · intros; rw [Interpreter.blockLoop]; exact True.intro
    · intros; rw [Interpreter.bindLoop]; exact True.intro
    · intros; rw [Interpreter.evaluate]; exact True.intro
  | succ n ih =>
    obtain ⟨ihExec, ihPrint, ihElse, ihWhile, ihFor, ihBlock, ihBind, ihEval⟩ := ih
    refine ⟨?_, ?_, ?_, ?_, ?_, ?_, ?_, ?_⟩
    · intro node st
      rw [Interpreter.execute]
      generalize hty : node.type = t
      cases t <;> dsimp only <;>
        with_reducible repeat' first
          | exact ihExec _ _
          | exact ihPrint _ _ _
          | exact ihElse _ _
          | exact ihWhile _ _
          | exact ihFor _ _
          | exact ihBlock _ _
          | exact ihEval _ _
          | exact outcomeAll_ok (tableUpdated_assign _ _ hty)
          | exact child_table _ _ _
          | apply outcomeAll_bind
          | apply outcomeAll_ite
          | intro _
          | exact outcomeAll_ok (tableUpdated_refl _)
    · intro args i st
      cases args with
      | nil => rw [Interpreter.printLoop]; exact outcomeAll_ok (tableUpdated_refl _)
      | cons arg rest =>
        rw [Interpreter.printLoop]
        apply outcomeAll_bind
        · have h := ihEval arg (if 0 < i then { st with out := st.out ++ " " } else st)
          have e : (if 0 < i then { st with out := st.out ++ " " } else st).functions =
              st.functions := by split <;> rfl
          rw [e] at h
          exact h
        · intro value st1
          exact ihPrint _ _ _
    · intro cs st
      cases cs with
      | nil => rw [Interpreter.elseLoop]; exact outcomeAll_ok (tableUpdated_refl _)
      | cons c rest =>
        rw [Interpreter.elseLoop]
        with_reducible repeat' first
          | exact ihExec _ _
          | exact ihElse _ _
          | exact ihEval _ _
          | exact child_table _ _ _
          | apply outcomeAll_bind
          | apply outcomeAll_ite
          | intro _
    · intro node st
      rw [Interpreter.whileLoop]
      with_reducible repeat' first
        | exact ihExec _ _
        | exact ihWhile _ _
        | exact ihEval _ _
        | exact child_table _ _ _
        | apply outcomeAll_bind
        | apply outcomeAll_ite
        | intro _
        | exact outcomeAll_ok (tableUpdated_refl _)
    · intro node st
      rw [Interpreter.forLoop]
      with_reducible repeat' first
        | exact ihExec _ _
        | exact ihFor _ _
        | exact ihEval _ _
        | exact child_table _ _ _
        | apply outcomeAll_bind
        | apply outcomeAll_ite
        | intro _
        | exact outcomeAll_ok (tableUpdated_refl _)
    · intro stmts st
      cases stmts with
      | nil => rw [Interpreter.blockLoop]; exact outcomeAll_ok (tableUpdated_refl _)
      | cons stmt rest =>
        rw [Interpreter.blockLoop]
        with_reducible repeat' first
          | exact ihExec _ _
          | exact ihBlock _ _
          | exact child_table _ _ _
          | apply outcomeAll_bind
          | apply outcomeAll_ite
          | intro _
          | exact outcomeAll_ok (tableUpdated_refl _)
    · intro params args st
      cases params with
      | nil => simp only [Interpreter.bindLoop]; exact outcomeAll_ok (tableUpdated_refl _)
      | cons p params =>
        cases args with
        | nil => simp only [Interpreter.bindLoop]; exact outcomeAll_ok (tableUpdated_refl _)
        | cons arg args =>
          rw [Interpreter.bindLoop_cons]
          apply outcomeAll_bind (ihEval _ _)
          intro value st1
          exact ihBind _ _ _
    · intro node st
      rw [Interpreter.evaluate]
      generalize node.type = t
      cases t <;> dsimp only <;>
        with_reducible repeat' first
          | exact ihEval _ _
          | exact liftExcept_table _ _
          | exact child_table _ _ _
          | apply outcomeAll_bind
          | apply outcomeAll_ite
          | intro _
          | exact outcomeAll_ok (tableUpdated_refl _)
      · -- an identifier: the store is read
        cases st.vars.lookup node.value with
        | none => exact True.intro
        | some v => exact outcomeAll_ok (tableUpdated_refl _)
      · -- a call: arguments, body, then the saved members are written back
        cases st.functions.lookup node.value with
        | none => exact True.intro
        | some funcNode =>
          dsimp only
          apply outcomeAll_bind
          · exact ihBind _ _ { st with hasReturned := false, returnValue := "0" }
          · intro _ st1
            apply outcomeAll_bind
            · cases funcNode.body with
              | none => exact outcomeAll_ok (tableUpdated_refl _)
              | some body => exact ihExec _ _
            · intro _ st2
              exact outcomeAll_ok (tableUpdated_refl _)
theorem lookup_assign_some {α : Type} (m : List (String × α)) (k g : String) (v : α)
    (h : m.lookup g ≠ none) : (assign m k v).lookup g ≠ none := by
  by_cases hg : g = k
  · rw [hg, lookup_assign_self]
    exact fun e => Option.noConfusion e
  · rw [lookup_assign_ne m k g v hg]
    exact h

theorem tableUpdated_lookup {t t' : List (String × ASTNode)} (h : TableUpdated t t')
    (g : String) (hg : t.lookup g ≠ none) : t'.lookup g ≠ none := by
  obtain ⟨ds, _, rfl⟩ := h
  clear * - hg
  induction ds generalizing t with
  | nil => exact hg
  | cons d ds ih =>
    exact ih (lookup_assign_some t d.value g d hg)

/-- Claim C28: a call that ends without a fault leaves the variable store as
it was before the call and the function table as the body left it: the table
afterwards is the table before the call updated by function declarations,
and no name of the table is lost. A declaration executed in the body writes
its node under its name, so after `f()` has declared `g` anew, `g()` runs the
new body, while the variable `t` that `f` wrote is gone. -/
theorem call_keeps_declarations :
    (∀ (fuel : Nat) (node funcNode : ASTNode) (st st' : State) (v : String),
      node.type = NodeType.CALL →
      st.functions.lookup node.value = some funcNode →
      Interpreter.evaluate fuel node st = Outcome.ok v st' →
      st'.vars = st.vars ∧
        (∃ n st1 st2, fuel = n + 1 ∧
          Interpreter.bindLoop n funcNode.params node.children
            { st with hasReturned := false, returnValue := "0" } = Outcome.ok () st1 ∧
          (match funcNode.body with
            | some body => Interpreter.execute n body st1
            | none => Outcome.ok () st1) = Outcome.ok () st2 ∧
          st'.functions = st2.functions) ∧
        TableUpdated st.functions st'.functions ∧
        ∀ g, st.functions.lookup g ≠ none → st'.functions.lookup g ≠ none) ∧
    (∀ (n : Nat) (node : ASTNode) (st : State),
      node.type = NodeType.FUNCTION_DECL →
      Interpreter.execute (n + 1) node st =
          Outcome.ok () { st with functions := assign st.functions node.value node } ∧
        (assign st.functions node.value node).lookup node.value = some node) ∧
    (interpret 100 Example.sourceRedeclare).final.map (fun st => (st.vars, st.out)) =
      some ([("r", "0")], "1\n7\n") := by
  refine ⟨?_, ?_, by decide!⟩
  · intro fuel node funcNode st st' v htype hdef hrun
    have hall := (Interpreter.table_step fuel).2.2.2.2.2.2.2 node st
    rw [hrun] at hall
    have hupd : TableUpdated st.functions st'.functions := hall
    cases fuel with
    | zero => simp [Interpreter.evaluate] at hrun
    | succ n =>
      rw [Interpreter.evaluate] at hrun
      simp only [htype, hdef] at hrun
      obtain ⟨_, st1, h1, hrun⟩ := Outcome.bind_eq_ok _ _ _ _ hrun
      obtain ⟨_, st2, h2, hrun⟩ := Outcome.bind_eq_ok _ _ _ _ hrun
      simp only [Outcome.ok.injEq] at hrun
      obtain ⟨_, hst⟩ := hrun
      subst hst
      exact ⟨rfl, ⟨n, st1, st2, rfl, h1, h2, rfl⟩, hupd, tableUpdated_lookup hupd⟩
  · intro n node st hty
    constructor
    · rw [Interpreter.execute]
      simp only [hty]
    · exact lookup_assign_self _ _ _

/-- Claim C28 at the call `f()` after
`dalla f() \x7b dalla g() \x7b rje3 7 \x7d dir t = 1 \x7d`: the table gains `g`,
the store does not gain `t`. -/
theorem call_keeps_declarations_witness :
    Interpreter.evaluate 10 Example.callF Example.stateOuter =
        Outcome.ok "0" Example.stateInner ∧
      Example.stateInner.vars = Example.stateOuter.vars ∧
      (∃ n st1 st2, 10 = n + 1 ∧
        Interpreter.bindLoop n Example.declOuter.params Example.callF.children
          { Example.stateOuter with hasReturned := false, returnValue := "0" } =
            Outcome.ok () st1 ∧
        (match Example.declOuter.body with
          | some body => Interpreter.execute n body st1
          | none => Outcome.ok () st1) = Outcome.ok () st2 ∧
        Example.stateInner.functions = st2.functions) ∧
      TableUpdated Example.stateOuter.functions Example.stateInner.functions ∧
      ∀ g, Example.stateOuter.functions.lookup g ≠ none →
        Example.stateInner.functions.lookup g ≠ none :=
  ⟨by decide!,
    call_keeps_declarations.1 10 Example.callF Example.declOuter Example.stateOuter
      Example.stateInner "0" (by decide!) (by decide!) (by decide!)⟩

/-! ## Return -/

theorem Double.lt_isInt (d1 d2 : Double) (a b : Int) (h1 : Double.IsInt d1 a)
    (h2 : Double.IsInt d2 b) : Double.lt d1 d2 = decide (a < b) := by
  obtain ⟨s1, rfl⟩ := h1
  obtain ⟨s2, rfl⟩ := h2
  unfold Double.lt
  have hp : (0 : Int) < 2 ^ (max s1 s2) := by positivity
  have k1 : a * 2 ^ s1 * 2 ^ (-(s1 : Int) - min (-(s1 : Int)) (-(s2 : Int))).toNat =
      a * 2 ^ (max s1 s2) := by
    rcases Nat.le_total s1 s2 with h | h
    · have e1 : (-(s1 : Int) - min (-(s1 : Int)) (-(s2 : Int))).toNat = s2 - s1 := by omega
      have e3 : max s1 s2 = s2 := by omega
      rw [e1, e3, mul_assoc, ← pow_add, Nat.add_sub_cancel' h]
    · have e1 : (-(s1 : Int) - min (-(s1 : Int)) (-(s2 : Int))).toNat = 0 := by omega
      have e3 : max s1 s2 = s1 := by omega
      rw [e1, e3, pow_zero, mul_one]
  have k2 : b * 2 ^ s2 * 2 ^ (-(s2 : Int) - min (-(s1 : Int)) (-(s2 : Int))).toNat =
      b * 2 ^ (max s1 s2) := by
    rcases Nat.le_total s1 s2 with h | h
    · have e2 : (-(s2 : Int) - min (-(s1 : Int)) (-(s2 : Int))).toNat = 0 := by omega
      have e3 : max s1 s2 = s2 := by omega
      rw [e2, e3, pow_zero, mul_one]
    · have e2 : (-(s2 : Int) - min (-(s1 : Int)) (-(s2 : Int))).toNat = s1 - s2 := by omega
      have e3 : max s1 s2 = s1 := by omega
      rw [e2, e3, mul_assoc, ← pow_add, Nat.add_sub_cancel' h]
  simp only
  rw [k1, k2]
  congr 1
  exact propext (mul_lt_mul_right hp)

theorem binaryOp_lt_int (a b : Int) (ha : -(2 ^ 53 : Int) < a ∧ a < 2 ^ 53)
    (hb : -(2 ^ 53 : Int) < b ∧ b < 2 ^ 53) :
    binaryOp "<" (toStringInt a) (toStringInt b) = Except.ok (boolText (decide (a < b))) := by
  obtain ⟨d1, hd1, hi1⟩ := stod_toStringInt a ha
  obtain ⟨d2, hd2, hi2⟩ := stod_toStringInt b hb
  have hop : ∀ s : String, s = "<" →
      binaryOp s (toStringInt a) (toStringInt b) = Except.ok (boolText (decide (a < b))) := by
    intro s hs
    unfold binaryOp
    rw [if_neg (by rw [hs]; decide), if_neg (by rw [hs]; decide), if_neg (by rw [hs]; decide),
      if_neg (by rw [hs]; decide), if_neg (by rw [hs]; decide), if_neg (by rw [hs]; decide),
      if_pos hs]
    simp only [numericOperands, hd1, hd2, Double.lt_isInt d1 d2 a b hi1 hi2]
  exact hop "<" rfl

theorem assign_assign {α : Type} (m : List (String × α)) (k : String) (v w : α) :
    assign (assign m k v) k w = assign m k w := by
  induction m with
  | nil => simp [assign]
  | cons q rest ih =>
    obtain ⟨k1, v1⟩ := q
    simp only [assign]
    split
    · simp [assign]
    · next hk => simp [assign, hk, ih]

theorem assign_lookup {α : Type} (m : List (String × α)) (k : String) (v : α)
    (h : m.lookup k = some v) : assign m k v = m := by
  induction m with
  | nil => simp [List.lookup] at h
  | cons q rest ih =>
    obtain ⟨k1, v1⟩ := q
    simp only [assign]
    split
    · next hk =>
      subst hk
      simp [List.lookup] at h
      rw [h]
    · next hk =>
      have hne : (k == k1) = false := by
        simp only [beq_eq_false_iff_ne, ne_eq]
        exact fun e => hk e.symm
      simp only [List.lookup, hne] at h
      rw [ih h]

theorem Interpreter.evaluate_ident_i (s : State) (t : String)
    (h : s.vars.lookup "i" = some t) :
    Interpreter.evaluate 1 (ASTNode.leaf NodeType.IDENTIFIER "i") s = Outcome.ok t s := by
  rw [Interpreter.evaluate_identifier 0 (ASTNode.leaf NodeType.IDENTIFIER "i") s rfl]
  simp [ASTNode.leaf, ASTNode.value, h]

theorem Interpreter.evaluate_count_cond (n k : Nat) (hn : n ≤ 2147483647) (hk : k ≤ n)
    (s : State) (h : s.vars.lookup "i" = some (toStringInt k)) :
    Interpreter.evaluate 2
        (ASTNode.binary "<" (ASTNode.leaf NodeType.IDENTIFIER "i")
          (ASTNode.leaf NodeType.NUMBER (toStringInt n))) s =
      Outcome.ok (boolText (decide (k < n))) s := by
  have hnum : Interpreter.evaluate 1 (ASTNode.leaf NodeType.NUMBER (toStringInt n)) s =
      Outcome.ok (toStringInt n) s := by
    rw [Interpreter.evaluate]
    simp [ASTNode.leaf, ASTNode.type, ASTNode.value]
  rw [evaluate_binary 1 "<" _ _ s s s _ _ (Interpreter.evaluate_ident_i s _ h) hnum,
    binaryOp_lt_int k n (by constructor <;> omega) (by constructor <;> omega)]
  simp [liftExcept]

theorem Interpreter.execute_printI (s : State) (t : String)
    (h : s.vars.lookup "i" = some t) :
    Interpreter.execute 5 Example.printI s =
      Outcome.ok () { s with out := s.out ++ t ++ "\n" } := by
  have hid : Interpreter.evaluate 1 (ASTNode.mk NodeType.IDENTIFIER "i" "" [] [] none) s =
      Outcome.ok t s := Interpreter.evaluate_ident_i s t h
  simp [Example.printI, Interpreter.execute, Interpreter.blockLoop, Interpreter.printLoop,
    ASTNode.plain, ASTNode.leaf, ASTNode.type, ASTNode.children, Outcome.bind, hid]

theorem countedLines_nat_cast (k : Nat) : ((k + 1 : Nat) : Int) = (k : Int) + 1 := by
  push_cast
  rfl

theorem Interpreter.forLoop_count (n : Nat) (hn : n ≤ 2147483647) :
    ∀ (m k : Nat) (s : State), k + m = n → s.vars.lookup "i" = some (toStringInt k) →
      s.hasReturned = false →
      Interpreter.forLoop (m + 6) (Example.forCount n) s =
        Outcome.ok ()
          { s with vars := assign s.vars "i" (toStringInt n),
                   out := s.out ++ countedLines k m } := by
  intro m
  induction m with
  | zero =>
    intro k s hkm hi hr
    have hk : k = n := by omega
    subst hk
    have c1 : child (Example.forCount k) 1 s =
        Outcome.ok (ASTNode.binary "<" (ASTNode.leaf NodeType.IDENTIFIER "i")
          (ASTNode.leaf NodeType.NUMBER (toStringInt k))) s := rfl
    have hcond : Interpreter.evaluate (0 + 5)
        (ASTNode.binary "<" (ASTNode.leaf NodeType.IDENTIFIER "i")
          (ASTNode.leaf NodeType.NUMBER (toStringInt k))) s = Outcome.ok "ghalat" s := by
      have h := Interpreter.evaluate_mono (show 2 ≤ 0 + 5 by decide)
        (Interpreter.evaluate_count_cond k k hn (le_refl k) s hi)
      rw [decide_eq_false (lt_irrefl k)] at h
      exact h
    rw [Interpreter.forLoop, c1]
    simp only [Outcome.bind, hcond]
    rw [if_neg (by decide), assign_lookup _ _ _ hi]
    simp [countedLines]
  | succ m ih =>
    intro k s hkm hi hr
    have hlt : k < n := by omega
    have c1 : child (Example.forCount n) 1 s =
        Outcome.ok (ASTNode.binary "<" (ASTNode.leaf NodeType.IDENTIFIER "i")
          (ASTNode.leaf NodeType.NUMBER (toStringInt n))) s := rfl
    have c2 : ∀ s' : State, child (Example.forCount n) 2 s' =
        Outcome.ok (ASTNode.unaryOp "post++" (ASTNode.leaf NodeType.IDENTIFIER "i")) s' :=
      fun _ => rfl
    have c3 : child (Example.forCount n) 3 s = Outcome.ok Example.printI s := rfl
    have hfuel : m + 1 + 6 = (m + 6) + 1 := by omega
    have hpost := Interpreter.evaluate_postIncrement "i"
      { s with out := s.out ++ toStringInt k ++ "\n" } (toStringInt k)
      (toStringInt ((k : Int) + 1)) (toStringInt k) hi
      (postIncrement_int k (by constructor <;> omega)) (m + 6) (by omega)
    have hcond : Interpreter.evaluate (m + 6)
        (ASTNode.binary "<" (ASTNode.leaf NodeType.IDENTIFIER "i")
          (ASTNode.leaf NodeType.NUMBER (toStringInt n))) s = Outcome.ok "s7i7" s := by
      have h := Interpreter.evaluate_mono (show 2 ≤ m + 6 by omega)
        (Interpreter.evaluate_count_cond n k hn (le_of_lt hlt) s hi)
      rw [decide_eq_true hlt] at h
      exact h
    rw [hfuel, Interpreter.forLoop, c1]
    simp only [Outcome.bind, hcond]
    rw [if_pos (by decide), c3]
    simp only [Outcome.bind]
    rw [Interpreter.execute_mono (by omega) (Interpreter.execute_printI s _ hi)]
    simp only [Outcome.bind]
    rw [if_neg (by simp [hr]), c2]
    simp only [Outcome.bind]
    rw [hpost]
    simp only [Outcome.bind]
    have hih := ih (k + 1)
      ⟨assign s.vars "i" (toStringInt ((k : Int) + 1)), s.functions, s.returnValue,
        s.hasReturned, s.out ++ toStringInt k ++ "\n"⟩ (by omega)
      (by
        show List.lookup "i" (assign s.vars "i" (toStringInt ((k : Int) + 1))) = _
        rw [countedLines_nat_cast]
        exact lookup_assign_self _ _ _) hr
    simp only [] at hih ⊢
    rw [hih]
    simp [assign_assign, countedLines, String.append_assoc]

/-- Claim C24: for every `n` up to `2147483647` and every state in which no
return is pending, executing `kol (i = 0; i < n; i++) \x7b kteb(i) \x7d` ends,
with enough fuel, after printing the lines `0`, .., `n - 1` in that order and
nothing else; it leaves `i` bound to the decimal text of `n` and every other
variable, and the rest of the state, as it was. -/
theorem counting_loop :
    (∀ (n : Nat) (st : State), n ≤ 2147483647 → st.hasReturned = false →
      ∀ fuel, n + 7 ≤ fuel →
        Interpreter.execute fuel (Example.forCount n) st =
          Outcome.ok ()
            { st with vars := assign st.vars "i" (toStringInt n),
                      out := st.out ++ countedLines 0 n }) ∧
    (∀ (vars : List (String × String)) (y v : String),
      y ≠ "i" → (assign vars "i" v).lookup y = vars.lookup y) ∧
    parseSource 100 "kol (i = 0; i < 3; i++) \x7b kteb(i) \x7d" =
      ParseResult.ok [Example.forCount 3] 19 ∧
    countedLines 0 3 = "0\n1\n2\n" ∧
    (interpret 100 "dir x = 5; kol (i = 0; i < 3; i++) \x7b kteb(i) \x7d").final =
      some ⟨[("x", "5"), ("i", "3")], [], "", false, "0\n1\n2\n"⟩ := by
  refine ⟨?_, fun vars y v h => lookup_assign_ne vars "i" y v h, by decide!, by decide,
    by decide!⟩
  intro n st hn hr fuel hfuel
  apply Interpreter.execute_mono hfuel
  have c0 : child (Example.forCount n) 0 st =
      Outcome.ok (ASTNode.named NodeType.ASSIGNMENT "i" [ASTNode.leaf NodeType.NUMBER "0"])
        st := rfl
  have hinit : Interpreter.execute (n + 6)
      (ASTNode.named NodeType.ASSIGNMENT "i" [ASTNode.leaf NodeType.NUMBER "0"]) st =
      Outcome.ok () { st with vars := assign st.vars "i" "0" } := by
    apply Interpreter.execute_mono (show 2 ≤ n + 6 by omega)
    simp [Interpreter.execute, Interpreter.evaluate, ASTNode.named, ASTNode.leaf, ASTNode.type,
      ASTNode.children, ASTNode.value, child, Outcome.bind]
  have hloop := Interpreter.forLoop_count n hn n 0
    ⟨assign st.vars "i" "0", st.functions, st.returnValue, st.hasReturned, st.out⟩
    (by omega) (lookup_assign_self _ _ _) hr
  have hty : (Example.forCount n).type = NodeType.FOR := rfl
  rw [Interpreter.execute]
  simp only [hty, c0, Outcome.bind, hinit]
  simp only [] at hloop
  rw [hloop, assign_assign]

/-- Claim C24 at `n = 3` in the state with `x = 5`. -/
theorem counting_loop_witness :
    Interpreter.execute 10 (Example.forCount 3) ⟨[("x", "5")], [], "", false, ""⟩ =
      Outcome.ok () ⟨[("x", "5"), ("i", "3")], [], "", false, "0\n1\n2\n"⟩ :=
  counting_loop.1 3 ⟨[("x", "5")], [], "", false, ""⟩ (by decide) rfl 10 (by decide)

/-! ## No hoisting -/

end Lfi3a
